import Mathlib

/-!
Equipment rental simulation (`src/src/APS.cpp`).

A shallow embedding of the simulation core of `APS.cpp`: the request and
equipment records, the bounded buffer with its rotating cursor, the placement
dispatcher (admission with eviction), the selection dispatcher (priority
matching), the loop of `run_simulation` and `calculate_statistics`, followed by
theorems about them.

Modelling conventions.

* A `shared_ptr<Request>` is an `Option Ref`: `none` is `nullptr`, `some r` is a
  pointer to the request object at address `r`.  The request objects live in a
  `Heap`, a total map from addresses to `Request` records, so that two holders of
  the same pointer see the same object, as in the program.
* `double` is modelled by `ℚ` (exact arithmetic; rounding is abstracted away).
* `int` indices and sizes (`capacity`, `pointer`, loop counters) are natural
  numbers: every index the program computes lies in `[0, 2 * capacity)`.
* `string` statuses are Lean strings, compared with `==` as in the program.
* A `vector` is a `List`; `requests[i]` is `requests.getD i none`, and a pointer
  to a buffer cell (`shared_ptr<Request> *`) is the index of that cell.
* The constructor `Buffer(cap)` gives `requests` exactly `capacity` cells and no
  method changes that; theorems about an arbitrary buffer state this as the
  hypothesis `requests.length = capacity`.
* Buffers, logs and units are compared as the program stores them: slots, log
  entries and `current_request` are pointers, and what happens to the request
  objects is stated separately, on the `Heap`.
* The pseudo-random draws are inputs: a run of the loop of `run_simulation` is
  determined by a list of `Draws`, one element per iteration, and the loop is run
  until its condition is false or the list is used up.
* `make_shared<Request>` creates a new object: the request created when
  `processed_requests = n` is the object at address `n` (no request object is
  released before the end of the run, the log keeps them all).
* `x += d` for an `int` `x` and a `double` `d` adds in `double` and converts the sum
  back to `int`, truncating toward zero; `int` overflow is not modelled.
* Console output and the tracing pause are not modelled.
-/

namespace APS

/-- Address of a `Request` object (the target of a non-null `shared_ptr<Request>`). -/
abbrev Ref := Nat

/-- The fields of `class Request`. -/
structure Request where
  project_id : Int
  equipment_type : String
  requested_period : ℚ
  priority : Int
  status : String
  arrival_time : ℚ
  completion_time : ℚ
  wait_time : ℚ

/-- The constructor `Request(pid, eq_type, arv_time, req_period, prio)`. -/
def Request.new (pid : Int) (eq_type : String) (arv_time req_period : ℚ) (prio : Int) : Request :=
  { project_id := pid, equipment_type := eq_type, requested_period := req_period,
    priority := prio, status := "pending", arrival_time := arv_time, completion_time := -1,
    wait_time := 0 }

/-- The method `Request::update_status`. -/
def Request.update_status (r : Request) (new_status : String) : Request :=
  { r with status := new_status }

/-- The request objects, by address. -/
abbrev Heap := Ref → Request

/-- Overwrite the object at address `r`. -/
def Heap.write (h : Heap) (r : Ref) (v : Request) : Heap :=
  fun a => if a = r then v else h a

/-- The fields of `class Equipment`. -/
structure Equipment where
  equipment_id : Int
  type : String
  status : String
  priority : Int
  current_request : Option Ref
  busy_time : ℚ
  completion_time : ℚ

/-- The constructor `Equipment(eid, eq_type)`. -/
def Equipment.new (eid : Int) (eq_type : String) : Equipment :=
  { equipment_id := eid, type := eq_type, status := "free", priority := eid,
    current_request := none, busy_time := 0, completion_time := 0 }

/-- The method `Equipment::assign_request(request, current_time)`; `request` is
dereferenced by the program, hence a `Ref`. -/
def Equipment.assign_request (e : Equipment) (heap : Heap) (request : Ref) (current_time : ℚ) :
    Equipment × Heap :=
  let heap1 := heap.write request
    { heap request with wait_time := current_time - (heap request).arrival_time }
  ({ e with
      status := "busy"
      current_request := some request
      completion_time := current_time + (heap1 request).requested_period
      busy_time := e.busy_time + (heap1 request).requested_period },
   heap1)

/-- The method `Equipment::complete_request(current_time)`. -/
def Equipment.complete_request (e : Equipment) (heap : Heap) (current_time : ℚ) :
    Equipment × Heap :=
  match e.current_request with
  | some r =>
    if current_time ≥ e.completion_time then
      let heap1 := heap.write r { heap r with completion_time := current_time }
      let heap2 := heap1.write r ((heap1 r).update_status "processed")
      ({ e with current_request := none, status := "free" }, heap2)
    else (e, heap)
  | none => (e, heap)

/-- The fields of `class Buffer`. -/
structure Buffer where
  requests : List (Option Ref)
  capacity : Nat
  pointer : Nat

/-- The constructor `Buffer(cap)`. -/
def Buffer.new (cap : Nat) : Buffer :=
  { requests := List.replicate cap none, capacity := cap, pointer := 0 }

/-- The loop of `Buffer::add_request`, from counter `i` with `n` iterations left. -/
def Buffer.add_request_loop (b : Buffer) (request : Option Ref) : Nat → Nat → Bool × Buffer
  | _, 0 => (false, b)
  | i, n + 1 =>
    let index := (b.pointer + i) % b.capacity
    if b.requests.getD index none = none then
      (true, { b with requests := b.requests.set index request,
                      pointer := (index + 1) % b.capacity })
    else Buffer.add_request_loop b request (i + 1) n

/-- The method `Buffer::add_request(request)`: the returned flag and the buffer afterwards. -/
def Buffer.add_request (b : Buffer) (request : Option Ref) : Bool × Buffer :=
  b.add_request_loop request 0 b.capacity

/-- The method `Buffer::remove_request()`: the returned pointer and the buffer afterwards. -/
def Buffer.remove_request (b : Buffer) : Option Ref × Buffer :=
  match b.requests.getD b.pointer none with
  | some req => (some req, { b with requests := b.requests.set b.pointer none })
  | none => (none, b)

/-- The loop of `Buffer::is_full` over the cells. -/
def is_full_loop : List (Option Ref) → Bool
  | [] => true
  | none :: _ => false
  | some _ :: rest => is_full_loop rest

/-- The method `Buffer::is_full()`. -/
def Buffer.is_full (b : Buffer) : Bool := is_full_loop b.requests

/-- The objects `run_simulation` works on: the request objects, the buffer, the
equipment list and the completion log `completed_requests`. -/
structure Sim where
  heap : Heap
  buffer : Buffer
  equipment_list : List Equipment
  completed_requests : List (Option Ref)

/-- The method `PlacementDispatcher::place_request(request, completed_requests, current_time)`. -/
def place_request (s : Sim) (request : Option Ref) (_current_time : ℚ) : Sim :=
  let r1 := s.buffer.add_request request
  if !r1.1 then
    let r2 := r1.2.remove_request
    let s2 : Sim :=
      match r2.1 with
      | some rejected_request =>
        { s with
            heap := s.heap.write rejected_request
              ((s.heap rejected_request).update_status "rejected")
            buffer := r2.2
            completed_requests := s.completed_requests ++ [some rejected_request] }
      | none => { s with buffer := r2.2 }
    { s2 with buffer := (s2.buffer.add_request request).2 }
  else { s with buffer := r1.2 }

/-- Number of occupied cells of a cell list. -/
def occupied (rs : List (Option Ref)) : Nat := rs.countP (fun c => c.isSome)

/-- The statement `packages[k].push_back(v)` on the `std::map` of
`assign_equipment`; the map is the list of its (key, values) entries in ascending
key order, which is the order a `std::map<int, _>` iterates in. -/
def packages_push_back : List (Int × List Nat) → Int → Nat → List (Int × List Nat)
  | [], k, v => [(k, [v])]
  | (k0, vs) :: rest, k, v =>
    if k < k0 then (k, [v]) :: (k0, vs) :: rest
    else if k = k0 then (k0, vs ++ [v]) :: rest
    else (k0, vs) :: packages_push_back rest k v

/-- The first loop of `assign_equipment`: the cells still to visit, the index of the
first of them, and the map built so far. -/
def collect_packages (heap : Heap) :
    List (Option Ref) → Nat → List (Int × List Nat) → List (Int × List Nat)
  | [], _, packages => packages
  | none :: rest, i, packages => collect_packages heap rest (i + 1) packages
  | some req :: rest, i, packages =>
    collect_packages heap rest (i + 1) (packages_push_back packages (heap req).project_id i)

/-- The inner loop of `assign_equipment` (over `highest_priority_requests`) for one
free unit: the unit and the other objects afterwards. -/
def assign_from_package (highest_priority_project_id : Int) (current_time : ℚ)
    (equipment : Equipment) (s : Sim) : List Nat → Equipment × Sim
  | [] => (equipment, s)
  | req_ptr :: rest =>
    match s.buffer.requests.getD req_ptr none with
    | some cell =>
      if (s.heap cell).project_id = highest_priority_project_id then
        let r := equipment.assign_request s.heap cell current_time
        (r.1,
         { s with
            heap := r.2.write cell ((r.2 cell).update_status "processed")
            completed_requests := s.completed_requests ++ [some cell]
            buffer := { s.buffer with requests := s.buffer.requests.set req_ptr none } })
      else assign_from_package highest_priority_project_id current_time equipment s rest
    | none => assign_from_package highest_priority_project_id current_time equipment s rest

/-- The outer loop of `assign_equipment` over the equipment list: the units
afterwards and the other objects afterwards (the field `equipment_list` of the
`Sim` is not read by the loop). -/
def assign_units (highest_priority_project_id : Int) (highest_priority_requests : List Nat)
    (current_time : ℚ) : List Equipment → Sim → List Equipment × Sim
  | [], s => ([], s)
  | equipment :: rest, s =>
    if equipment.status = "free" then
      let r := assign_from_package highest_priority_project_id current_time equipment s
        highest_priority_requests
      let r2 := assign_units highest_priority_project_id highest_priority_requests
        current_time rest r.2
      (r.1 :: r2.1, r2.2)
    else
      let r2 := assign_units highest_priority_project_id highest_priority_requests
        current_time rest s
      (equipment :: r2.1, r2.2)

/-- The method `SelectionDispatcher::assign_equipment(current_time, completed_requests)`. -/
def assign_equipment (s : Sim) (current_time : ℚ) : Sim :=
  match collect_packages s.heap s.buffer.requests 0 [] with
  | [] => s
  | (highest_priority_project_id, highest_priority_requests) :: _ =>
    let r := assign_units highest_priority_project_id highest_priority_requests current_time
      s.equipment_list s
    { r.2 with equipment_list := r.1 }

/-! ## The simulation driver and the statistics -/

/-- The fields of `class Project`. -/
structure Project where
  project_id : Int
  priority : Int

/-- The constructor `Project(pid)`. -/
def Project.new (pid : Int) : Project :=
  { project_id := pid, priority := pid }

/-- The request object built by `Project::generate_request(current_time)`, given the
two random draws it makes (the equipment type and the requested period). -/
def Project.generate_request (p : Project) (current_time : ℚ) (equipment_type : String)
    (requested_period : ℚ) : Request :=
  Request.new p.project_id equipment_type current_time requested_period p.priority

/-- The loop of `is_simulation_complete` over the buffer cells. -/
def no_request_loop : List (Option Ref) → Bool
  | [] => true
  | some _ :: _ => false
  | none :: rest => no_request_loop rest

/-- The loop of `is_simulation_complete` over the equipment list. -/
def no_busy_loop : List Equipment → Bool
  | [] => true
  | equipment :: rest => if equipment.status = "busy" then false else no_busy_loop rest

/-- The function `is_simulation_complete(buffer, equipment_list)`. -/
def is_simulation_complete (buffer : Buffer) (equipment_list : List Equipment) : Bool :=
  if no_request_loop buffer.requests then no_busy_loop equipment_list else false

/-- The loop `for (auto &equipment : equipment_list) equipment.complete_request(current_time)`
of `run_simulation`: the units and the request objects afterwards. -/
def complete_all (current_time : ℚ) : List Equipment → Heap → List Equipment × Heap
  | [], heap => ([], heap)
  | equipment :: rest, heap =>
    let r := equipment.complete_request heap current_time
    let r2 := complete_all current_time rest r.2
    (r.1 :: r2.1, r2.2)

/-- The constants `NUM_PROJECTS`, `NUM_EQUIPMENT`, `BUFFER_SIZE` and `TOTAL_REQUESTS`
(the arrival budget) of the program, as parameters. -/
structure Config where
  num_projects : Nat
  num_equipment : Nat
  buffer_size : Nat
  total_requests : Nat

/-- The values the constants have in `APS.cpp`. -/
def reference_config : Config :=
  { num_projects := 10, num_equipment := 12, buffer_size := 10, total_requests := 2500 }

/-- The random draws one iteration of the loop of `run_simulation` consumes:
`random_int(0, NUM_PROJECTS - 1)`, then, when a request is generated, the equipment
type and `random_uniform(a, b)`, and at the end `random_exponential(LYAMBDA)`. -/
structure Draws where
  project_index : Nat
  equipment_type : String
  requested_period : ℚ
  time_step : ℚ

/-- The local variables of `run_simulation` that the loop changes: the objects of
`Sim`, `current_time` and `processed_requests`. -/
structure Run where
  sim : Sim
  current_time : ℚ
  processed_requests : Nat

/-- The vector `projects` of `run_simulation`: projects `1 .. NUM_PROJECTS`. -/
def initial_projects (cfg : Config) : List Project :=
  (List.range cfg.num_projects).map (fun (i : Nat) => Project.new ((i : Int) + 1))

/-- The vector `equipment_list` of `run_simulation` before the loop: units
`1 .. NUM_EQUIPMENT`, unit `i + 1` of the randomly drawn type `types i`. -/
def initial_equipment (cfg : Config) (types : Nat → String) : List Equipment :=
  (List.range cfg.num_equipment).map
    (fun (i : Nat) => Equipment.new ((i : Int) + 1) (types i))

/-- The state of `run_simulation` when the loop is entered; `heap` is the content of
the memory no request object has been created in yet. -/
def initial_run (cfg : Config) (types : Nat → String) (heap : Heap) : Run :=
  { sim :=
      { heap := heap
        buffer := Buffer.new cfg.buffer_size
        equipment_list := initial_equipment cfg types
        completed_requests := [] }
    current_time := 0
    processed_requests := 0 }

/-- The condition of the `while` loop of `run_simulation`. -/
def loop_condition (cfg : Config) (st : Run) : Bool :=
  decide (st.processed_requests < cfg.total_requests) ||
    !is_simulation_complete st.sim.buffer st.sim.equipment_list

/-- The state after the optional generation and placement of a request at the start
of an iteration.  `make_shared` creates a new object: the request created when
`processed_requests = n` is the object at address `n`. -/
def generate_and_place (cfg : Config) (d : Draws) (st : Run) : Run :=
  let project := (initial_projects cfg).getD d.project_index (Project.new 0)
  if st.processed_requests < cfg.total_requests then
    let request := st.processed_requests
    let heap1 := st.sim.heap.write request
      (project.generate_request st.current_time d.equipment_type d.requested_period)
    { st with
        sim := place_request { st.sim with heap := heap1 } (some request) st.current_time
        processed_requests := st.processed_requests + 1 }
  else st

/-- The objects after the completion loop of an iteration run at time `t`. -/
def complete_units (s : Sim) (t : ℚ) : Sim :=
  { s with
      equipment_list := (complete_all t s.equipment_list s.heap).1
      heap := (complete_all t s.equipment_list s.heap).2 }

/-- One iteration of the loop of `run_simulation` (without the tracing output). -/
def tick (cfg : Config) (d : Draws) (st : Run) : Run :=
  { sim := assign_equipment
      (complete_units (generate_and_place cfg d st).sim st.current_time) st.current_time
    current_time := st.current_time + d.time_step
    processed_requests := (generate_and_place cfg d st).processed_requests }

/-- The loop of `run_simulation` on the draws `ds`, one element per iteration: the
state when the loop exits, or the state reached when the draws are used up. -/
def run_loop (cfg : Config) : List Draws → Run → Run
  | [], st => st
  | d :: ds, st => if loop_condition cfg st then run_loop cfg ds (tick cfg d st) else st

/-- The six `int` entries of the inner `map<string, int>` of `calculate_statistics`. -/
structure SourceStats where
  total : Int
  rejected : Int
  buffer_time : Int
  processing_time : Int
  buffer_time_sq : Int
  processing_time_sq : Int

/-- The entry created for a project id seen for the first time. -/
def SourceStats.zero : SourceStats :=
  { total := 0, rejected := 0, buffer_time := 0, processing_time := 0,
    buffer_time_sq := 0, processing_time_sq := 0 }

/-- The conversion of a `double` to `int`: truncation toward zero. -/
def double_to_int (q : ℚ) : Int := if 0 ≤ q then ⌊q⌋ else ⌈q⌉

/-- The statement `x += d` for an `int` `x` and a `double` `d`: the sum is computed
in `double` and converted back to `int`. -/
def int_add_assign (x : Int) (d : ℚ) : Int := double_to_int ((x : ℚ) + d)

/-- The body of the first loop of `calculate_statistics` on the entry of the
request's project. -/
def stats_update (stats : SourceStats) (request : Request) : SourceStats :=
  if request.status = "rejected" then
    { stats with total := stats.total + 1, rejected := stats.rejected + 1 }
  else
    { stats with
        total := stats.total + 1
        buffer_time := int_add_assign stats.buffer_time request.wait_time
        processing_time := int_add_assign stats.processing_time request.requested_period
        buffer_time_sq :=
          int_add_assign stats.buffer_time_sq (request.wait_time * request.wait_time)
        processing_time_sq :=
          int_add_assign stats.processing_time_sq
            (request.requested_period * request.requested_period) }

/-- The update of `source_stats[project_id]` for one request; the `std::map` is the
list of its entries in ascending key order, and a key seen for the first time is
inserted with the zero entry. -/
def source_stats_update : List (Int × SourceStats) → Int → Request → List (Int × SourceStats)
  | [], k, request => [(k, stats_update SourceStats.zero request)]
  | (k0, v) :: rest, k, request =>
    if k < k0 then (k, stats_update SourceStats.zero request) :: (k0, v) :: rest
    else if k = k0 then (k0, stats_update v request) :: rest
    else (k0, v) :: source_stats_update rest k request

/-- The first loop of `calculate_statistics` over `completed_requests`. -/
def accumulate_stats (heap : Heap) :
    List (Option Ref) → List (Int × SourceStats) → List (Int × SourceStats)
  | [], source_stats => source_stats
  | none :: rest, source_stats => accumulate_stats heap rest source_stats
  | some request :: rest, source_stats =>
    accumulate_stats heap rest
      (source_stats_update source_stats (heap request).project_id (heap request))

/-- The expression for `p_reject`. -/
def p_reject (total rejected : Int) : ℚ :=
  if total > 0 then (rejected : ℚ) / (total : ℚ) else 0

/-- One line of the source table printed by `calculate_statistics`. -/
structure SourceRow where
  project_id : Int
  total : Int
  rejected : Int
  p_reject : ℚ
  avg_total_time : ℚ
  avg_processing_time : ℚ
  avg_buffer_time : ℚ
  processing_time_dispersion : ℚ
  buffer_time_dispersion : ℚ

/-- The body of the second loop of `calculate_statistics` for one map entry. -/
def source_row (project_id : Int) (stats : SourceStats) : SourceRow :=
  let total := stats.total
  let rejected := stats.rejected
  let avg_buffer_time : ℚ :=
    if total - rejected > 0 then (stats.buffer_time : ℚ) / ((total - rejected : Int) : ℚ) else 0
  let avg_processing_time : ℚ :=
    if total - rejected > 0 then (stats.processing_time : ℚ) / ((total - rejected : Int) : ℚ)
    else 0
  { project_id := project_id
    total := total
    rejected := rejected
    p_reject := p_reject total rejected
    avg_total_time := avg_buffer_time + avg_processing_time
    avg_processing_time := avg_processing_time
    avg_buffer_time := avg_buffer_time
    processing_time_dispersion :=
      if total - rejected > 0 then
        (stats.processing_time_sq : ℚ) / ((total - rejected : Int) : ℚ) -
          avg_processing_time * avg_processing_time
      else 0
    buffer_time_dispersion :=
      if total - rejected > 0 then
        (stats.buffer_time_sq : ℚ) / ((total - rejected : Int) : ℚ) -
          avg_buffer_time * avg_buffer_time
      else 0 }

/-- The expression for `utilization` of one unit. -/
def utilization (equipment : Equipment) (total_time : ℚ) : ℚ :=
  if total_time > 0 then equipment.busy_time / total_time else 0

/-- What `calculate_statistics` computes: the lines of the two tables and the values
of the global accumulators, which are zero before the single call. -/
structure Statistics where
  sources : List SourceRow
  utilizations : List ℚ
  p_sum : ℚ
  utilization_sum : ℚ
  avg_total_sum : ℚ
  total_buf_sum : ℚ
  completed_req : Int
  rejected_req : Int

/-- The function `calculate_statistics(completed_requests, equipment_list, total_time)`
(without the output). -/
def calculate_statistics (heap : Heap) (completed_requests : List (Option Ref))
    (equipment_list : List Equipment) (total_time : ℚ) : Statistics :=
  let source_stats := accumulate_stats heap completed_requests []
  { sources := source_stats.map (fun entry => source_row entry.1 entry.2)
    utilizations := equipment_list.map (fun equipment => utilization equipment total_time)
    p_sum := (source_stats.map (fun entry => (source_row entry.1 entry.2).p_reject)).sum
    utilization_sum :=
      (equipment_list.map (fun equipment => utilization equipment total_time)).sum
    avg_total_sum :=
      (source_stats.map (fun entry => (source_row entry.1 entry.2).avg_total_time)).sum
    total_buf_sum := (source_stats.map (fun entry => (entry.2.buffer_time : ℚ))).sum
    completed_req := (source_stats.map (fun entry => entry.2.total - entry.2.rejected)).sum
    rejected_req := (source_stats.map (fun entry => entry.2.rejected)).sum }

/-- The function `run_simulation` on the draws `ds`: the statistics it computes when
its loop exits within the draws given, and `none` when the draws are used up first. -/
def run_simulation (cfg : Config) (types : Nat → String) (heap : Heap) (ds : List Draws) :
    Option Statistics :=
  let st := run_loop cfg ds (initial_run cfg types heap)
  if loop_condition cfg st then none
  else some (calculate_statistics st.sim.heap st.sim.completed_requests
    st.sim.equipment_list st.current_time)

/-! ## Vocabulary of the statements -/

/-- The source ids of the buffered requests, in cell order. -/
def buffered_ids (heap : Heap) (rs : List (Option Ref)) : List Int :=
  rs.filterMap (fun c => c.map (fun r => (heap r).project_id))

/-- The numerically smallest source id among the occupied cells, if any. -/
def smallest_buffered_id (heap : Heap) (rs : List (Option Ref)) : Option Int :=
  (buffered_ids heap rs).min?

/-- Cell `i` holds a request of source `id`. -/
def holds_id (heap : Heap) (rs : List (Option Ref)) (id : Int) (i : Nat) : Bool :=
  match rs.getD i none with
  | some r => decide ((heap r).project_id = id)
  | none => false

/-- The indices, ascending, of the cells holding a request of source `id`. -/
def slots_of (heap : Heap) (rs : List (Option Ref)) (id : Int) : List Nat :=
  (List.range rs.length).filter (holds_id heap rs id)

/-- The indices, ascending, of the cells holding requests of the smallest buffered
source id (no index when the buffer is empty). -/
def smallest_group (heap : Heap) (rs : List (Option Ref)) : List Nat :=
  match smallest_buffered_id heap rs with
  | some id => slots_of heap rs id
  | none => []

/-- Unit `j` of the list has status `"free"`. -/
def is_free_at (es : List Equipment) (j : Nat) : Bool :=
  match es[j]? with
  | some e => decide (e.status = "free")
  | none => false

/-- The indices, in list order, of the units whose status is `"free"`. -/
def free_units (es : List Equipment) : List Nat :=
  (List.range es.length).filter (is_free_at es)

/-- What `Equipment::assign_request` makes of unit `e` when handed the request at
address `x` at time `t`, with the request objects as in `heap`. -/
def assigned_unit (heap : Heap) (t : ℚ) (e : Equipment) (x : Ref) : Equipment :=
  { e with
      status := "busy"
      current_request := some x
      completion_time := t + (heap x).requested_period
      busy_time := e.busy_time + (heap x).requested_period }

/-- The predicate `status = "busy"` iff `current_request` is set. -/
def busy_iff_holding (e : Equipment) : Prop :=
  e.status = "busy" ↔ e.current_request ≠ none

/-! ## Auxiliary definitions of the proofs -/

/-- The values stored under key `k` (none when the key is absent). -/
def packages_at : List (Int × List Nat) → Int → List Nat
  | [], _ => []
  | (k0, vs) :: rest, k => if k = k0 then vs else packages_at rest k

/-- The state of the map after the first loop of `assign_equipment` has visited the
cells `0 .. n-1`: keys ascending, the keys are the source ids seen, and each key
holds the indices of the cells of that source, ascending. -/
def PackagesInv (heap : Heap) (rs : List (Option Ref)) (n : Nat)
    (m : List (Int × List Nat)) : Prop :=
  (m.map Prod.fst).Pairwise (· < ·) ∧
  (∀ k, k ∈ m.map Prod.fst ↔
    ∃ i r, i < n ∧ rs.getD i none = some r ∧ (heap r).project_id = k) ∧
  (∀ k, packages_at m k = (List.range n).filter (holds_id heap rs k))

/-- The cells after the cells with indices `gs` have been emptied. -/
def clear_slots (rs : List (Option Ref)) (gs : List Nat) : List (Option Ref) :=
  gs.foldl (fun acc g => acc.set g none) rs

/-- The request objects after the requests at addresses `xs` have been assigned at
time `t`: their wait time is set and their status is "processed". -/
def mark_processed (heap : Heap) (t : ℚ) (xs : List Ref) : Heap :=
  fun a =>
    if a ∈ xs then
      { heap a with wait_time := t - (heap a).arrival_time, status := "processed" }
    else heap a

/-- The units after the free ones among them, in list order, have taken the requests
`xs`, in order, for as long as there are requests left. -/
def pair_units (heap : Heap) (t : ℚ) : List Equipment → List Ref → List Equipment
  | [], _ => []
  | e :: es, [] => e :: es
  | e :: es, x :: xs =>
    if e.status = "free" then assigned_unit heap t e x :: pair_units heap t es xs
    else e :: pair_units heap t es (x :: xs)

/-- The number of units whose status is `"free"`. -/
def free_count (es : List Equipment) : Nat := es.countP (fun e => decide (e.status = "free"))

/-- The requests held by the cells with indices `gs`, in that order. -/
def package_refs (rs : List (Option Ref)) (gs : List Nat) : List Ref :=
  gs.filterMap (fun g => rs.getD g none)

/-- The request objects of source `id` in the log, in log order (null entries are
skipped, as by `calculate_statistics`). -/
def source_requests (heap : Heap) (log : List (Option Ref)) (id : Int) : List Request :=
  log.filterMap (fun c =>
    match c with
    | some r => if (heap r).project_id = id then some (heap r) else none
    | none => none)

/-- The number of logged requests of source `id`. -/
def logged_total (heap : Heap) (log : List (Option Ref)) (id : Int) : Nat :=
  (source_requests heap log id).length

/-- The number of logged requests of source `id` with status "rejected". -/
def logged_rejected (heap : Heap) (log : List (Option Ref)) (id : Int) : Nat :=
  (source_requests heap log id).countP (fun q => decide (q.status = "rejected"))

/-- The logged requests of source `id` whose status is not "rejected". -/
def accepted_requests (heap : Heap) (log : List (Option Ref)) (id : Int) : List Request :=
  (source_requests heap log id).filter (fun q => !decide (q.status = "rejected"))

/-- The arithmetic mean of a list of values: sum divided by count, and 0 for the
empty list. -/
def mean (xs : List ℚ) : ℚ :=
  if xs.length = 0 then 0 else xs.sum / (xs.length : ℚ)

/-- The population variance `E[X^2] - E[X]^2` of a list of values, 0 for the empty
list. -/
def variance (xs : List ℚ) : ℚ :=
  if xs.length = 0 then 0 else mean (xs.map (fun x => x * x)) - mean xs * mean xs

/-- The entry stored under key `k` (the zero entry when the key is absent). -/
def stats_at : List (Int × SourceStats) → Int → SourceStats
  | [], _ => SourceStats.zero
  | (k0, v) :: rest, k => if k = k0 then v else stats_at rest k

/-- What holds of the objects of a run after every operation, `n` being the number
of requests created so far: the buffer has `capacity` cells and its cursor is in
range; the buffered requests were created, are pending and pairwise distinct; the
logged requests were created, are terminal and pairwise distinct; every unit has
status "free" or "busy", is busy exactly when it holds a request, and the request
it holds was created and is marked processed. -/
structure SimInv (n : Nat) (s : Sim) : Prop where
  length_eq : s.buffer.requests.length = s.buffer.capacity
  pointer_lt : s.buffer.pointer < s.buffer.capacity ∨ s.buffer.capacity = 0
  slot_pending : ∀ (i : Nat) (x : Ref), s.buffer.requests.getD i none = some x →
    x < n ∧ (s.heap x).status = "pending"
  slot_inj : ∀ (i j : Nat) (x : Ref), s.buffer.requests.getD i none = some x →
    s.buffer.requests.getD j none = some x → i = j
  log_terminal : ∀ c, c ∈ s.completed_requests →
    ∃ x, c = some x ∧ x < n ∧
      ((s.heap x).status = "processed" ∨ (s.heap x).status = "rejected")
  log_nodup : s.completed_requests.Nodup
  units : ∀ e, e ∈ s.equipment_list →
    busy_iff_holding e ∧ (e.status = "free" ∨ e.status = "busy") ∧
    ∀ x, e.current_request = some x → x < n ∧ (s.heap x).status = "processed"

/-- Conservation of the requests created so far (`n` of them): each is in the buffer
or in the log, and their number is the length of the log plus the number of occupied
cells. -/
structure CountInv (n : Nat) (s : Sim) : Prop where
  count : n = s.completed_requests.length + occupied s.buffer.requests
  present : ∀ x, x < n →
    some x ∈ s.completed_requests ∨ ∃ i, s.buffer.requests.getD i none = some x

/-- What `Equipment::complete_request(t)` makes of the unit itself. -/
def released_unit (t : ℚ) (e : Equipment) : Equipment :=
  match e.current_request with
  | some _ =>
    if t ≥ e.completion_time then { e with current_request := none, status := "free" } else e
  | none => e

/-- What holds of the state of `run_simulation` at the head of its loop: the
invariant of the objects for the number of requests created so far, which does not
exceed the arrival budget, and the buffer has the configured capacity. -/
structure RunInv (cfg : Config) (st : Run) : Prop where
  sim : SimInv st.processed_requests st.sim
  budget : st.processed_requests ≤ cfg.total_requests
  capacity : st.sim.buffer.capacity = cfg.buffer_size

/-- The objects after each of the three operations of one iteration of the loop of
`run_simulation` started in state `st`: after the generation and placement, after the
completion loop, after `assign_equipment`. -/
def tick_states (cfg : Config) (d : Draws) (st : Run) : List Sim :=
  [(generate_and_place cfg d st).sim,
   complete_units (generate_and_place cfg d st).sim st.current_time,
   (tick cfg d st).sim]

/-- Every log entry is a request whose status is "processed" or "rejected" (hence
not "pending"). -/
def log_terminal (s : Sim) : Prop :=
  ∀ c, c ∈ s.completed_requests →
    ∃ x, c = some x ∧
      ((s.heap x).status = "processed" ∨ (s.heap x).status = "rejected") ∧
      (s.heap x).status ≠ "pending"

/-- Every request in a buffer slot has status "pending". -/
def buffer_pending (s : Sim) : Prop :=
  ∀ (i : Nat) (x : Ref), s.buffer.requests.getD i none = some x →
    (s.heap x).status = "pending"

/-- Every request held by a unit has status "processed". -/
def held_processed (s : Sim) : Prop :=
  ∀ (e : Equipment) (x : Ref), e ∈ s.equipment_list → e.current_request = some x →
    (s.heap x).status = "processed"

/-- The timing facts of a run at time `t`: buffered requests have non-negative
service durations; every unit has `0 ≤ busy_time ≤ completion_time`, and a free
unit's `completion_time` is not in the future. -/
structure TimeInv (t : ℚ) (s : Sim) : Prop where
  slot_period : ∀ (i : Nat) (x : Ref), s.buffer.requests.getD i none = some x →
    0 ≤ (s.heap x).requested_period
  unit_time : ∀ e, e ∈ s.equipment_list →
    0 ≤ e.busy_time ∧ e.busy_time ≤ e.completion_time ∧
    (e.status = "free" → e.completion_time ≤ t)

/-- The state `st` is reached by the loop of `run_simulation` from the initial state
on some draws. -/
def reachable (cfg : Config) (types : Nat → String) (heap : Heap) (st : Run) : Prop :=
  ∃ ds, st = run_loop cfg ds (initial_run cfg types heap)

/-- The objects after the generation and placement of the iteration started in `st`. -/
def after_place (cfg : Config) (d : Draws) (st : Run) : Sim :=
  (generate_and_place cfg d st).sim

/-- The objects after the completion loop of the iteration started in `st`. -/
def after_complete (cfg : Config) (d : Draws) (st : Run) : Sim :=
  complete_units (generate_and_place cfg d st).sim st.current_time

/-- The objects after `assign_equipment` in the iteration started in `st`. -/
def after_assign (cfg : Config) (d : Draws) (st : Run) : Sim :=
  (tick cfg d st).sim

/-- The status is one of the two terminal values. -/
def terminal (q : Request) : Prop :=
  q.status = "processed" ∨ q.status = "rejected"

/-! ## Concrete states used to instantiate the theorems -/

/-- Request objects: addresses 0 and 1 belong to source 5, addresses 2 and 3 to
source 3, every other address to source 9; each asks for 7 time units. -/
def demo_heap : Heap :=
  fun a => Request.new (if a < 2 then 5 else if a < 4 then 3 else 9) "crane" 0 7 1

/-- A full buffer of capacity 3 with the cursor on slot 1. -/
def demo_full : Sim :=
  { heap := demo_heap
    buffer := { requests := [some 4, some 5, some 6], capacity := 3, pointer := 1 }
    equipment_list := []
    completed_requests := [] }

/-- Four units, the second one busy, and a buffer of capacity 6 with one empty slot
and the cursor on slot 1. -/
def demo_sim : Sim :=
  { heap := demo_heap
    buffer :=
      { requests := [some 0, some 2, none, some 6, some 3, some 1], capacity := 6, pointer := 1 }
    equipment_list :=
      [Equipment.new 1 "crane",
       { Equipment.new 2 "crane" with status := "busy", current_request := some 77 },
       Equipment.new 3 "excavator", Equipment.new 4 "excavator"]
    completed_requests := [] }

/-- A unit busy with the request at address 2 since time 0. -/
def demo_unit : Equipment :=
  { Equipment.new 1 "crane" with
      status := "busy", current_request := some 2, busy_time := 7, completion_time := 7 }

/-- One unit, busy with the request at address 2 since time 0, and a buffer of
capacity 1 holding the request at address 0. -/
def demo_busy : Sim :=
  { heap := fun a =>
      if a = 2 then { Request.new 3 "crane" 0 7 3 with status := "processed" }
      else Request.new 5 "crane" 1 7 5
    buffer := { requests := [some 0], capacity := 1, pointer := 0 }
    equipment_list := [demo_unit]
    completed_requests := [some 2] }

/-- One project, one unit, a buffer of capacity 1 and an arrival budget of 1. -/
def demo_config : Config :=
  { num_projects := 1, num_equipment := 1, buffer_size := 1, total_requests := 1 }

/-- The draws of two iterations: a request with service duration 6.5, then a time
step of 7 each. -/
def demo_draws : List Draws :=
  [{ project_index := 0, equipment_type := "crane", requested_period := 13 / 2, time_step := 7 },
   { project_index := 0, equipment_type := "crane", requested_period := 13 / 2, time_step := 7 }]

/-! ## The buffer -/

theorem add_request_loop_all_occupied (b : Buffer) (request : Option Ref) :
    ∀ n i, (∀ k, i ≤ k → k < i + n →
        b.requests.getD ((b.pointer + k) % b.capacity) none ≠ none) →
      b.add_request_loop request i n = (false, b) := by
  intro n
  induction n with
  | zero => intro i _; rfl
  | succ n ih =>
    intro i h
    have h0 := h i (le_refl i) (by omega)
    rw [Buffer.add_request_loop]
    simp only [h0, if_false]
    exact ih (i + 1) (fun k hk1 hk2 => h k (by omega) (by omega))

theorem add_request_loop_first_empty (b : Buffer) (request : Option Ref) :
    ∀ n i i0, i ≤ i0 → i0 < i + n →
      b.requests.getD ((b.pointer + i0) % b.capacity) none = none →
      (∀ k, i ≤ k → k < i0 →
        b.requests.getD ((b.pointer + k) % b.capacity) none ≠ none) →
      b.add_request_loop request i n =
        (true, { b with requests := b.requests.set ((b.pointer + i0) % b.capacity) request,
                        pointer := ((b.pointer + i0) % b.capacity + 1) % b.capacity }) := by
  intro n
  induction n with
  | zero => intro i i0 h1 h2; omega
  | succ n ih =>
    intro i i0 h1 h2 he hocc
    rw [Buffer.add_request_loop]
    rcases Nat.eq_or_lt_of_le h1 with heq | hlt
    · subst heq
      simp only [he, if_true]
    · have h0 := hocc i (le_refl i) hlt
      simp only [h0, if_false]
      exact ih (i + 1) i0 (by omega) (by omega) he
        (fun k hk1 hk2 => hocc k (by omega) hk2)

theorem cursor_scan_reaches (p cap j : Nat) (hp : p < cap) (hj : j < cap) :
    ∃ i, i < cap ∧ (p + i) % cap = j := by
  by_cases h : p ≤ j
  · refine ⟨j - p, by omega, ?_⟩
    have : p + (j - p) = j := by omega
    rw [this, Nat.mod_eq_of_lt hj]
  · refine ⟨j + cap - p, by omega, ?_⟩
    have : p + (j + cap - p) = j + cap := by omega
    rw [this, Nat.add_mod_right, Nat.mod_eq_of_lt hj]

theorem is_full_loop_iff (rs : List (Option Ref)) :
    is_full_loop rs = true ↔ ∀ k, k < rs.length → rs.getD k none ≠ none := by
  induction rs with
  | nil => simp [is_full_loop]
  | cons c rest ih =>
    cases c with
    | none =>
      simp only [is_full_loop, Bool.false_eq_true, false_iff, not_forall]
      exact ⟨0, by simp, by simp⟩
    | some x =>
      simp only [is_full_loop, ih]
      constructor
      · intro h k hk
        cases k with
        | zero => simp
        | succ k => simpa using h k (by simpa using hk)
      · intro h k hk
        simpa using h (k + 1) (by simpa using hk)

theorem getD_set_same (rs : List (Option Ref)) (j : Nat) (v : Option Ref)
    (hj : j < rs.length) : (rs.set j v).getD j none = v := by
  simp [List.getD_eq_getElem?_getD, List.getElem?_set, hj]

theorem getD_set_other (rs : List (Option Ref)) (j k : Nat) (v : Option Ref)
    (hk : k ≠ j) : (rs.set j v).getD k none = rs.getD k none := by
  simp [List.getD_eq_getElem?_getD, List.getElem?_set, Ne.symm hk]

theorem occupied_set_some_of_empty (rs : List (Option Ref)) :
    ∀ (j : Nat) (r : Ref), j < rs.length → rs.getD j none = none →
      occupied (rs.set j (some r)) = occupied rs + 1 := by
  induction rs with
  | nil => intro j r hj; simp at hj
  | cons c rest ih =>
    intro j r hj he
    cases j with
    | zero =>
      simp only [List.getD_cons_zero] at he
      subst he
      simp [occupied]
    | succ j =>
      have := ih j r (by simpa using hj) (by simpa using he)
      simp only [occupied] at this ⊢
      simp only [List.set_cons_succ, List.countP_cons, this]
      omega

theorem occupied_set_some_of_some (rs : List (Option Ref)) :
    ∀ (j : Nat) (r x : Ref), rs.getD j none = some x →
      occupied (rs.set j (some r)) = occupied rs := by
  induction rs with
  | nil => intro j r x he; simp at he
  | cons c rest ih =>
    intro j r x he
    cases j with
    | zero =>
      simp only [List.getD_cons_zero] at he
      subst he
      simp [occupied]
    | succ j =>
      have := ih j r x (by simpa using he)
      simp only [occupied] at this ⊢
      simp only [List.set_cons_succ, List.countP_cons, this]

theorem exists_first_empty (b : Buffer) (hp : b.pointer < b.capacity)
    (hempty : ∃ k, k < b.capacity ∧ b.requests.getD k none = none) :
    ∃ i, i < b.capacity ∧
      b.requests.getD ((b.pointer + i) % b.capacity) none = none ∧
      (∀ k, k < i → b.requests.getD ((b.pointer + k) % b.capacity) none ≠ none) := by
  classical
  obtain ⟨j, hj, hje⟩ := hempty
  obtain ⟨i1, hi1, hi1j⟩ := cursor_scan_reaches b.pointer b.capacity j hp hj
  have hex : ∃ i, i < b.capacity ∧
      b.requests.getD ((b.pointer + i) % b.capacity) none = none :=
    ⟨i1, hi1, by rw [hi1j]; exact hje⟩
  refine ⟨Nat.find hex, (Nat.find_spec hex).1, (Nat.find_spec hex).2, ?_⟩
  intro k hk hke
  exact Nat.find_min hex hk ⟨lt_trans hk (Nat.find_spec hex).1, hke⟩

theorem add_request_of_first_empty (b : Buffer) (request : Option Ref) (i : Nat)
    (hi : i < b.capacity)
    (he : b.requests.getD ((b.pointer + i) % b.capacity) none = none)
    (hocc : ∀ k, k < i → b.requests.getD ((b.pointer + k) % b.capacity) none ≠ none) :
    b.add_request request =
      (true, { b with requests := b.requests.set ((b.pointer + i) % b.capacity) request,
                      pointer := ((b.pointer + i) % b.capacity + 1) % b.capacity }) :=
  add_request_loop_first_empty b request b.capacity 0 i (Nat.zero_le i) (by omega) he
    (fun k _ hk => hocc k hk)

theorem add_request_of_all_occupied (b : Buffer) (request : Option Ref)
    (hfull : ∀ k, k < b.capacity → b.requests.getD k none ≠ none) :
    b.add_request request = (false, b) := by
  apply add_request_loop_all_occupied b request b.capacity 0
  intro k _ hk
  exact hfull _ (Nat.mod_lt _ (by omega))

theorem place_request_of_first_empty (s : Sim) (request : Option Ref) (t : ℚ) (i : Nat)
    (hi : i < s.buffer.capacity)
    (he : s.buffer.requests.getD ((s.buffer.pointer + i) % s.buffer.capacity) none = none)
    (hocc : ∀ k, k < i →
      s.buffer.requests.getD ((s.buffer.pointer + k) % s.buffer.capacity) none ≠ none) :
    place_request s request t =
      { s with buffer :=
          { s.buffer with
              requests :=
                s.buffer.requests.set ((s.buffer.pointer + i) % s.buffer.capacity) request
              pointer := ((s.buffer.pointer + i) % s.buffer.capacity + 1) % s.buffer.capacity } } := by
  simp [place_request, add_request_of_first_empty s.buffer request i hi he hocc]

theorem place_request_of_full (s : Sim) (request : Option Ref) (t : ℚ) (x : Ref)
    (hwf : s.buffer.requests.length = s.buffer.capacity)
    (hp : s.buffer.pointer < s.buffer.capacity)
    (hfull : ∀ k, k < s.buffer.capacity → s.buffer.requests.getD k none ≠ none)
    (hx : s.buffer.requests.getD s.buffer.pointer none = some x) :
    place_request s request t =
      { s with
          heap := s.heap.write x ((s.heap x).update_status "rejected")
          buffer :=
            { s.buffer with
                requests := s.buffer.requests.set s.buffer.pointer request
                pointer := (s.buffer.pointer + 1) % s.buffer.capacity }
          completed_requests := s.completed_requests ++ [some x] } := by
  have h1 := add_request_of_all_occupied s.buffer request hfull
  have h2 : s.buffer.remove_request =
      (some x, { s.buffer with requests := s.buffer.requests.set s.buffer.pointer none }) := by
    simp only [Buffer.remove_request, hx]
  have hmod : (s.buffer.pointer + 0) % s.buffer.capacity = s.buffer.pointer := by
    simpa using Nat.mod_eq_of_lt hp
  have h3 := add_request_of_first_empty
    { s.buffer with requests := s.buffer.requests.set s.buffer.pointer none } request 0
    (by simpa using Nat.lt_of_le_of_lt (Nat.zero_le _) hp)
    (by
      show (s.buffer.requests.set s.buffer.pointer none).getD
        ((s.buffer.pointer + 0) % s.buffer.capacity) none = none
      rw [hmod]
      exact getD_set_same _ _ _ (by omega))
    (by intro k hk; omega)
  simp only [hmod] at h3
  simp only [place_request, h1, h2, h3, Bool.not_false, if_true, List.set_set]

theorem place_request_full_buffer_aux (s : Sim) (r : Ref) (t : ℚ)
    (hwf : s.buffer.requests.length = s.buffer.capacity)
    (hp : s.buffer.pointer < s.buffer.capacity)
    (hfull : ∀ k, k < s.buffer.capacity → s.buffer.requests.getD k none ≠ none) :
    ∃ x, s.buffer.requests.getD s.buffer.pointer none = some x ∧
      (place_request s (some r) t).buffer.requests =
        s.buffer.requests.set s.buffer.pointer (some r) ∧
      (place_request s (some r) t).buffer.requests.getD s.buffer.pointer none = some r ∧
      (∀ k, k ≠ s.buffer.pointer →
        (place_request s (some r) t).buffer.requests.getD k none =
          s.buffer.requests.getD k none) ∧
      (place_request s (some r) t).buffer.pointer =
        (s.buffer.pointer + 1) % s.buffer.capacity ∧
      (place_request s (some r) t).buffer.capacity = s.buffer.capacity ∧
      (place_request s (some r) t).completed_requests = s.completed_requests ++ [some x] ∧
      ((place_request s (some r) t).heap x).status = "rejected" ∧
      (place_request s (some r) t).heap =
        s.heap.write x { s.heap x with status := "rejected" } ∧
      occupied (place_request s (some r) t).buffer.requests = occupied s.buffer.requests ∧
      (place_request s (some r) t).equipment_list = s.equipment_list := by
  cases hx : s.buffer.requests.getD s.buffer.pointer none with
  | none => exact absurd hx (hfull _ hp)
  | some x =>
    refine ⟨x, rfl, ?_⟩
    rw [place_request_of_full s (some r) t x hwf hp hfull hx]
    refine ⟨rfl, getD_set_same _ _ _ (by omega), fun k hk => getD_set_other _ _ _ _ hk,
      rfl, rfl, rfl, ?_, rfl, occupied_set_some_of_some _ _ _ _ hx, rfl⟩
    simp [Heap.write, Request.update_status]

/-- C1: on a buffer of capacity at least 1 whose cursor `p` is below the capacity and
whose slots are all occupied, `place_request` of a request `r` leaves the buffer as it
was except that slot `p` holds `r` and the cursor is `(p + 1) mod capacity`; the log
is the old log followed by exactly one entry, the request `x` that was in slot `p`,
whose status is now "rejected" (nothing else in the request objects changes); the
number of occupied slots is unchanged. -/
theorem place_request_full_buffer (s : Sim) (r : Ref) (t : ℚ)
    (hwf : s.buffer.requests.length = s.buffer.capacity)
    (hcap : 1 ≤ s.buffer.capacity)
    (hp : s.buffer.pointer < s.buffer.capacity)
    (hfull : ∀ k, k < s.buffer.capacity → s.buffer.requests.getD k none ≠ none) :
    ∃ x, s.buffer.requests.getD s.buffer.pointer none = some x ∧
      (place_request s (some r) t).buffer.requests =
        s.buffer.requests.set s.buffer.pointer (some r) ∧
      (place_request s (some r) t).buffer.requests.getD s.buffer.pointer none = some r ∧
      (∀ k, k ≠ s.buffer.pointer →
        (place_request s (some r) t).buffer.requests.getD k none =
          s.buffer.requests.getD k none) ∧
      (place_request s (some r) t).buffer.pointer =
        (s.buffer.pointer + 1) % s.buffer.capacity ∧
      (place_request s (some r) t).buffer.capacity = s.buffer.capacity ∧
      (place_request s (some r) t).completed_requests = s.completed_requests ++ [some x] ∧
      ((place_request s (some r) t).heap x).status = "rejected" ∧
      (place_request s (some r) t).heap =
        s.heap.write x { s.heap x with status := "rejected" } ∧
      occupied (place_request s (some r) t).buffer.requests = occupied s.buffer.requests ∧
      (place_request s (some r) t).equipment_list = s.equipment_list := by
  have _hcap := hcap
  exact place_request_full_buffer_aux s r t hwf hp hfull

theorem place_request_full_buffer_witness :
    (demo_full.buffer.requests.length = demo_full.buffer.capacity ∧
      1 ≤ demo_full.buffer.capacity ∧
      demo_full.buffer.pointer < demo_full.buffer.capacity ∧
      ∀ k, k < demo_full.buffer.capacity → demo_full.buffer.requests.getD k none ≠ none) ∧
    ∃ x, demo_full.buffer.requests.getD demo_full.buffer.pointer none = some x ∧
      (place_request demo_full (some 9) 0).buffer.requests =
        demo_full.buffer.requests.set demo_full.buffer.pointer (some 9) ∧
      (place_request demo_full (some 9) 0).completed_requests =
        demo_full.completed_requests ++ [some x] :=
  ⟨⟨by decide, by decide, by decide, by decide⟩,
   let ⟨x, h1, h2, _, _, _, _, h7, _⟩ := place_request_full_buffer demo_full 9 0
     (by decide) (by decide) (by decide) (by decide)
   ⟨x, h1, h2, h7⟩⟩

/-- C2: on a buffer of capacity at least 1 with the cursor below the capacity,
whatever its occupancy, after `place_request` of a request `r` some slot holds `r`;
and when the buffer had an empty slot, every buffered request is still in its slot
(none is evicted), the log and the request objects are unchanged, and the number of
occupied slots has grown by exactly one. -/
theorem place_request_admits (s : Sim) (r : Ref) (t : ℚ)
    (hwf : s.buffer.requests.length = s.buffer.capacity)
    (hcap : 1 ≤ s.buffer.capacity)
    (hp : s.buffer.pointer < s.buffer.capacity) :
    (∃ j, j < s.buffer.capacity ∧
      (place_request s (some r) t).buffer.requests.getD j none = some r) ∧
    ((∃ k, k < s.buffer.capacity ∧ s.buffer.requests.getD k none = none) →
      (∀ k x, s.buffer.requests.getD k none = some x →
        (place_request s (some r) t).buffer.requests.getD k none = some x) ∧
      (place_request s (some r) t).completed_requests = s.completed_requests ∧
      (place_request s (some r) t).heap = s.heap ∧
      occupied (place_request s (some r) t).buffer.requests =
        occupied s.buffer.requests + 1) := by
  have hcap1 := hcap
  have hempty_case : (∃ k, k < s.buffer.capacity ∧ s.buffer.requests.getD k none = none) →
      (∃ j, j < s.buffer.capacity ∧
        (place_request s (some r) t).buffer.requests.getD j none = some r) ∧
      (∀ k x, s.buffer.requests.getD k none = some x →
        (place_request s (some r) t).buffer.requests.getD k none = some x) ∧
      (place_request s (some r) t).completed_requests = s.completed_requests ∧
      (place_request s (some r) t).heap = s.heap ∧
      occupied (place_request s (some r) t).buffer.requests =
        occupied s.buffer.requests + 1 := by
    intro hempty
    obtain ⟨i, hi, he, hocc⟩ := exists_first_empty s.buffer hp hempty
    have hj : (s.buffer.pointer + i) % s.buffer.capacity < s.buffer.requests.length := by
      rw [hwf]; exact Nat.mod_lt _ (by omega)
    rw [place_request_of_first_empty s (some r) t i hi he hocc]
    refine ⟨⟨_, Nat.mod_lt _ (by omega), getD_set_same _ _ _ hj⟩, ?_, rfl, rfl,
      occupied_set_some_of_empty _ _ _ hj he⟩
    intro k x hk
    have hne : k ≠ (s.buffer.pointer + i) % s.buffer.capacity := by
      intro h; rw [h, he] at hk; exact Option.noConfusion hk
    show (s.buffer.requests.set _ (some r)).getD k none = some x
    rw [getD_set_other _ _ _ _ hne, hk]
  refine ⟨?_, fun h => (hempty_case h).2⟩
  by_cases hempty : ∃ k, k < s.buffer.capacity ∧ s.buffer.requests.getD k none = none
  · exact (hempty_case hempty).1
  · have hfull : ∀ k, k < s.buffer.capacity → s.buffer.requests.getD k none ≠ none :=
      fun k hk h => hempty ⟨k, hk, h⟩
    obtain ⟨x, _, _, h3, _⟩ := place_request_full_buffer_aux s r t hwf hp hfull
    exact ⟨s.buffer.pointer, hp, h3⟩

theorem place_request_admits_witness :
    (demo_sim.buffer.requests.length = demo_sim.buffer.capacity ∧
      1 ≤ demo_sim.buffer.capacity ∧
      demo_sim.buffer.pointer < demo_sim.buffer.capacity) ∧
    ∃ j, j < demo_sim.buffer.capacity ∧
      (place_request demo_sim (some 9) 0).buffer.requests.getD j none = some 9 :=
  ⟨⟨by decide, by decide, by decide⟩,
   (place_request_admits demo_sim 9 0 (by decide) (by decide) (by decide)).1⟩

/-- C3: on a buffer of capacity at least 1 with cursor `p` below the capacity and at
least one empty slot, `add_request` returns true, stores the request in slot
`j = (p + i) mod capacity` for the least `i` in `[0, capacity)` whose slot is empty,
sets the cursor to `(j + 1) mod capacity` and leaves every other slot unchanged. -/
theorem add_request_first_empty_slot (b : Buffer) (request : Option Ref)
    (hwf : b.requests.length = b.capacity)
    (hcap : 1 ≤ b.capacity)
    (hp : b.pointer < b.capacity)
    (hempty : ∃ k, k < b.capacity ∧ b.requests.getD k none = none) :
    ∃ i, i < b.capacity ∧
      b.requests.getD ((b.pointer + i) % b.capacity) none = none ∧
      (∀ k, k < i → b.requests.getD ((b.pointer + k) % b.capacity) none ≠ none) ∧
      (b.add_request request).1 = true ∧
      (b.add_request request).2.requests.getD ((b.pointer + i) % b.capacity) none = request ∧
      (b.add_request request).2.pointer = ((b.pointer + i) % b.capacity + 1) % b.capacity ∧
      (∀ k, k ≠ (b.pointer + i) % b.capacity →
        (b.add_request request).2.requests.getD k none = b.requests.getD k none) ∧
      (b.add_request request).2.requests.length = b.requests.length ∧
      (b.add_request request).2.capacity = b.capacity := by
  have hcap1 := hcap
  obtain ⟨i, hi, he, hocc⟩ := exists_first_empty b hp hempty
  have hj : (b.pointer + i) % b.capacity < b.requests.length := by
    rw [hwf]; exact Nat.mod_lt _ (by omega)
  refine ⟨i, hi, he, hocc, ?_⟩
  rw [add_request_of_first_empty b request i hi he hocc]
  exact ⟨rfl, getD_set_same _ _ _ hj, rfl, fun k hk => getD_set_other _ _ _ _ hk,
    List.length_set _ _ _, rfl⟩

theorem add_request_first_empty_slot_witness :
    (demo_sim.buffer.requests.length = demo_sim.buffer.capacity ∧
      1 ≤ demo_sim.buffer.capacity ∧
      demo_sim.buffer.pointer < demo_sim.buffer.capacity ∧
      ∃ k, k < demo_sim.buffer.capacity ∧ demo_sim.buffer.requests.getD k none = none) ∧
    ∃ i, i < demo_sim.buffer.capacity ∧
      (demo_sim.buffer.add_request (some 9)).1 = true ∧
      (demo_sim.buffer.add_request (some 9)).2.requests.getD
        ((demo_sim.buffer.pointer + i) % demo_sim.buffer.capacity) none = some 9 :=
  ⟨⟨by decide, by decide, by decide, ⟨2, by decide, by decide⟩⟩,
   let ⟨i, h1, _, _, h4, h5, _⟩ := add_request_first_empty_slot demo_sim.buffer (some 9)
     (by decide) (by decide) (by decide) ⟨2, by decide, by decide⟩
   ⟨i, h1, h4, h5⟩⟩

/-- C4: on a buffer whose cursor is below the capacity, `add_request` returns false
if and only if every slot is occupied, equivalently if and only if `is_full()` is true,
and when it returns false the buffer (slots and cursor) is unchanged. -/
theorem add_request_false_iff_full (b : Buffer) (request : Option Ref)
    (hwf : b.requests.length = b.capacity)
    (hp : b.pointer < b.capacity) :
    ((b.add_request request).1 = false ↔
      ∀ k, k < b.capacity → b.requests.getD k none ≠ none) ∧
    ((b.add_request request).1 = false ↔ b.is_full = true) ∧
    ((b.add_request request).1 = false → (b.add_request request).2 = b) := by
  have hiff : (b.add_request request).1 = false ↔
      ∀ k, k < b.capacity → b.requests.getD k none ≠ none := by
    constructor
    · intro hfalse k hk hke
      obtain ⟨i, hi, he, hocc⟩ := exists_first_empty b hp ⟨k, hk, hke⟩
      rw [add_request_of_first_empty b request i hi he hocc] at hfalse
      exact Bool.noConfusion hfalse
    · intro hfull
      rw [add_request_of_all_occupied b request hfull]
  refine ⟨hiff, ?_, ?_⟩
  · rw [hiff, Buffer.is_full, is_full_loop_iff, hwf]
  · intro hfalse
    rw [add_request_of_all_occupied b request (hiff.1 hfalse)]

theorem add_request_false_iff_full_witness :
    (demo_full.buffer.requests.length = demo_full.buffer.capacity ∧
      demo_full.buffer.pointer < demo_full.buffer.capacity) ∧
    ((demo_full.buffer.add_request (some 9)).1 = false ↔ demo_full.buffer.is_full = true) :=
  ⟨⟨by decide, by decide⟩,
   (add_request_false_iff_full demo_full.buffer (some 9) (by decide) (by decide)).2.1⟩

/-! ## The selection dispatcher: the map of packages -/

theorem packages_at_of_not_key (m : List (Int × List Nat)) (k : Int)
    (h : k ∉ m.map Prod.fst) : packages_at m k = [] := by
  induction m with
  | nil => rfl
  | cons p rest ih =>
    obtain ⟨k0, vs⟩ := p
    simp only [List.map_cons, List.mem_cons, not_or] at h
    simp only [packages_at, h.1, if_false]
    exact ih h.2

theorem packages_push_back_keys (m : List (Int × List Nat)) (k : Int) (v : Nat) (k1 : Int) :
    k1 ∈ (packages_push_back m k v).map Prod.fst ↔ k1 = k ∨ k1 ∈ m.map Prod.fst := by
  induction m with
  | nil => simp [packages_push_back]
  | cons p rest ih =>
    obtain ⟨k0, vs⟩ := p
    simp only [packages_push_back]
    split_ifs with h1 h2
    · simp
    · subst h2; simp
    · simp only [List.map_cons, List.mem_cons, ih]
      tauto

theorem packages_push_back_sorted (m : List (Int × List Nat)) (k : Int) (v : Nat)
    (hs : (m.map Prod.fst).Pairwise (· < ·)) :
    ((packages_push_back m k v).map Prod.fst).Pairwise (· < ·) := by
  induction m with
  | nil => simp [packages_push_back]
  | cons p rest ih =>
    obtain ⟨k0, vs⟩ := p
    simp only [List.map_cons, List.pairwise_cons] at hs
    simp only [packages_push_back]
    split_ifs with h1 h2
    · simp only [List.map_cons, List.pairwise_cons, List.mem_cons]
      refine ⟨?_, hs.1, hs.2⟩
      rintro a (rfl | ha)
      · exact h1
      · exact lt_trans h1 (hs.1 a ha)
    · simpa using hs
    · simp only [List.map_cons, List.pairwise_cons]
      refine ⟨?_, ih hs.2⟩
      intro a ha
      rcases (packages_push_back_keys rest k v a).1 ha with rfl | ha
      · omega
      · exact hs.1 a ha

theorem packages_at_push_back (m : List (Int × List Nat)) (k : Int) (v : Nat) (k1 : Int)
    (hs : (m.map Prod.fst).Pairwise (· < ·)) :
    packages_at (packages_push_back m k v) k1 =
      if k1 = k then packages_at m k ++ [v] else packages_at m k1 := by
  induction m with
  | nil => simp [packages_push_back, packages_at]
  | cons p rest ih =>
    obtain ⟨k0, vs⟩ := p
    simp only [List.map_cons, List.pairwise_cons] at hs
    have ih1 := ih hs.2
    by_cases hlt : k < k0
    · have hk : k ∉ rest.map Prod.fst := fun hmem => by
        have := hs.1 k hmem; omega
      have hne : k ≠ k0 := ne_of_lt hlt
      by_cases hk1 : k1 = k
      · subst hk1
        simp [packages_push_back, packages_at, hlt, hne, packages_at_of_not_key rest k1 hk]
      · simp [packages_push_back, packages_at, hlt, hk1]
    · by_cases heq : k = k0
      · subst heq
        by_cases hk1 : k1 = k
        · subst hk1
          simp [packages_push_back, packages_at]
        · simp [packages_push_back, packages_at, hk1]
      · by_cases hk1 : k1 = k
        · subst hk1
          simp [packages_push_back, packages_at, hlt, heq, ih1]
        · simp only [packages_push_back, packages_at, hlt, heq, if_false, ih1, hk1]

theorem packagesInv_skip (heap : Heap) (rs : List (Option Ref)) (n : Nat)
    (m : List (Int × List Nat)) (hn : rs.getD n none = none)
    (h : PackagesInv heap rs n m) : PackagesInv heap rs (n + 1) m := by
  obtain ⟨h1, h2, h3⟩ := h
  refine ⟨h1, ?_, ?_⟩
  · intro k
    rw [h2]
    constructor
    · rintro ⟨i, r, hi, hr, hk⟩
      exact ⟨i, r, by omega, hr, hk⟩
    · rintro ⟨i, r, hi, hr, hk⟩
      have hne : i ≠ n := by
        rintro rfl
        rw [hn] at hr
        exact Option.noConfusion hr
      exact ⟨i, r, by omega, hr, hk⟩
  · intro k
    have hf : holds_id heap rs k n = false := by simp only [holds_id, hn]
    rw [h3, List.range_succ, List.filter_append]
    simp [hf]

theorem packagesInv_push (heap : Heap) (rs : List (Option Ref)) (n : Nat)
    (m : List (Int × List Nat)) (r : Ref) (hn : rs.getD n none = some r)
    (h : PackagesInv heap rs n m) :
    PackagesInv heap rs (n + 1) (packages_push_back m (heap r).project_id n) := by
  obtain ⟨h1, h2, h3⟩ := h
  refine ⟨packages_push_back_sorted m _ n h1, ?_, ?_⟩
  · intro k
    rw [packages_push_back_keys, h2]
    constructor
    · rintro (rfl | ⟨i, r1, hi, hr, hk⟩)
      · exact ⟨n, r, by omega, hn, rfl⟩
      · exact ⟨i, r1, by omega, hr, hk⟩
    · rintro ⟨i, r1, hi, hr, hk⟩
      by_cases hin : i = n
      · subst hin
        rw [hn] at hr
        cases hr
        exact Or.inl hk.symm
      · exact Or.inr ⟨i, r1, by omega, hr, hk⟩
  · intro k
    rw [packages_at_push_back m _ n k h1, List.range_succ, List.filter_append, h3, h3]
    by_cases hk : k = (heap r).project_id
    · subst hk
      have ht : holds_id heap rs (heap r).project_id n = true := by
        simp only [holds_id, hn, decide_True]
      simp [ht]
    · have hf : holds_id heap rs k n = false := by
        simp only [holds_id, hn, decide_eq_false_iff_not]
        exact fun h => hk h.symm
      simp [hk, hf]

theorem collect_packages_inv (heap : Heap) (rs : List (Option Ref)) :
    ∀ (rest : List (Option Ref)) (i : Nat) (m : List (Int × List Nat)),
      rs.drop i = rest → i ≤ rs.length → PackagesInv heap rs i m →
      PackagesInv heap rs rs.length (collect_packages heap rest i m) := by
  intro rest
  induction rest with
  | nil =>
    intro i m hd hi h
    have : rs.length ≤ i := List.drop_eq_nil_iff.1 hd
    have hi2 : i = rs.length := by omega
    subst hi2
    exact h
  | cons c rest ih =>
    intro i m hd hi h
    have hlt : i < rs.length := by
      by_contra hge
      rw [List.drop_eq_nil_of_le (by omega)] at hd
      exact List.noConfusion hd
    rw [List.drop_eq_getElem_cons hlt] at hd
    have hc : rs.getD i none = c := by
      simp only [List.getD_eq_getElem?_getD, List.getElem?_eq_getElem hlt, Option.getD_some]
      exact (List.cons.inj hd).1
    have hrest : rs.drop (i + 1) = rest := (List.cons.inj hd).2
    cases c with
    | none => exact ih (i + 1) m hrest hlt (packagesInv_skip heap rs i m hc h)
    | some r =>
      exact ih (i + 1) _ hrest hlt (packagesInv_push heap rs i m r hc h)

theorem collect_packages_spec (heap : Heap) (rs : List (Option Ref)) :
    PackagesInv heap rs rs.length (collect_packages heap rs 0 []) := by
  apply collect_packages_inv heap rs rs 0 [] rfl (Nat.zero_le _)
  refine ⟨by simp, ?_, ?_⟩
  · intro k; simp
  · intro k; simp [packages_at]

theorem mem_buffered_ids (heap : Heap) (rs : List (Option Ref)) (k : Int) :
    k ∈ buffered_ids heap rs ↔
      ∃ i r, i < rs.length ∧ rs.getD i none = some r ∧ (heap r).project_id = k := by
  simp only [buffered_ids, List.mem_filterMap, Option.map_eq_some']
  constructor
  · rintro ⟨c, hc, r, rfl, hk⟩
    obtain ⟨i, hi⟩ := List.mem_iff_getElem?.1 hc
    obtain ⟨hlt, _⟩ := List.getElem?_eq_some.1 hi
    exact ⟨i, r, hlt, by simp [hi], hk⟩
  · rintro ⟨i, r, hi, hr, hk⟩
    refine ⟨some r, ?_, r, rfl, hk⟩
    rw [List.mem_iff_getElem?]
    refine ⟨i, ?_⟩
    simp only [List.getD_eq_getElem?_getD, List.getElem?_eq_getElem hi, Option.getD_some] at hr
    rw [List.getElem?_eq_getElem hi, hr]

theorem smallest_buffered_id_eq_some_iff (heap : Heap) (rs : List (Option Ref)) (id : Int) :
    smallest_buffered_id heap rs = some id ↔
      id ∈ buffered_ids heap rs ∧ ∀ k, k ∈ buffered_ids heap rs → id ≤ k := by
  unfold smallest_buffered_id
  haveI : Std.Antisymm (fun (x1 x2 : Int) => x1 ≤ x2) :=
    ⟨fun h1 h2 => le_antisymm h1 h2⟩
  exact List.min?_eq_some_iff (fun a => le_refl a) (fun a b => min_choice a b)
    (fun a b c => le_min_iff)

/-- The first loop of `assign_equipment` leaves an empty map exactly when the buffer
is empty; otherwise the first entry of the map is the smallest buffered source id
together with the ascending indices of the cells of that source. -/
theorem collect_packages_head (heap : Heap) (rs : List (Option Ref)) :
    (collect_packages heap rs 0 [] = [] ∧ smallest_buffered_id heap rs = none ∧
      ∀ i, rs.getD i none = none) ∨
    (∃ id tail, collect_packages heap rs 0 [] = (id, slots_of heap rs id) :: tail ∧
      smallest_buffered_id heap rs = some id) := by
  obtain ⟨h1, h2, h3⟩ := collect_packages_spec heap rs
  cases hm : collect_packages heap rs 0 [] with
  | nil =>
    left
    rw [hm] at h2
    have hnone : ∀ i, rs.getD i none = none := by
      intro i
      cases hc : rs.getD i none with
      | none => rfl
      | some r =>
        have hi : i < rs.length := by
          by_contra hge
          simp [List.getD_eq_getElem?_getD, List.getElem?_eq_none (not_lt.1 hge)] at hc
        exact absurd ((h2 _).2 ⟨i, r, hi, hc, rfl⟩) (by simp)
    refine ⟨rfl, ?_, hnone⟩
    unfold smallest_buffered_id
    rw [List.min?_eq_none_iff, List.eq_nil_iff_forall_not_mem]
    intro k hk
    obtain ⟨i, r, _, hr, _⟩ := (mem_buffered_ids heap rs k).1 hk
    rw [hnone i] at hr
    exact Option.noConfusion hr
  | cons p tail =>
    right
    obtain ⟨id, grp⟩ := p
    rw [hm] at h1 h2 h3
    have hgrp : grp = slots_of heap rs id := by
      have := h3 id
      simpa [packages_at, slots_of] using this
    refine ⟨id, tail, by rw [hgrp], ?_⟩
    rw [smallest_buffered_id_eq_some_iff]
    constructor
    · rw [mem_buffered_ids]
      exact (h2 id).1 (by simp)
    · intro k hk
      rw [mem_buffered_ids] at hk
      have hkm := (h2 k).2 hk
      simp only [List.map_cons, List.pairwise_cons] at h1
      simp only [List.map_cons, List.mem_cons] at hkm
      rcases hkm with rfl | hkm
      · exact le_refl _
      · exact le_of_lt (h1.1 k hkm)

theorem getD_set_none (rs : List (Option Ref)) (g i : Nat) :
    (rs.set g none).getD i none = if i = g then none else rs.getD i none := by
  by_cases h : i = g
  · subst h
    by_cases hl : i < rs.length
    · simp [List.getD_eq_getElem?_getD, List.getElem?_set, hl]
    · simp [List.getD_eq_getElem?_getD, List.getElem?_set, hl]
  · simp [List.getD_eq_getElem?_getD, List.getElem?_set, h, Ne.symm h]

theorem clear_slots_append (rs : List (Option Ref)) (gs : List Nat) (g : Nat) :
    clear_slots rs (gs ++ [g]) = (clear_slots rs gs).set g none := by
  simp [clear_slots, List.foldl_append]

theorem getD_clear_slots (gs : List Nat) :
    ∀ (rs : List (Option Ref)) (i : Nat),
      (clear_slots rs gs).getD i none = if i ∈ gs then none else rs.getD i none := by
  induction gs with
  | nil => intro rs i; simp [clear_slots]
  | cons g gs ih =>
    intro rs i
    have : clear_slots rs (g :: gs) = clear_slots (rs.set g none) gs := rfl
    rw [this, ih, getD_set_none]
    by_cases h1 : i ∈ gs
    · simp [h1]
    · by_cases h2 : i = g
      · simp [h2]
      · simp [h1, h2]

theorem length_clear_slots (gs : List Nat) :
    ∀ (rs : List (Option Ref)), (clear_slots rs gs).length = rs.length := by
  induction gs with
  | nil => intro rs; rfl
  | cons g gs ih =>
    intro rs
    have : clear_slots rs (g :: gs) = clear_slots (rs.set g none) gs := rfl
    rw [this, ih, List.length_set]

theorem pair_units_nil (heap : Heap) (t : ℚ) (es : List Equipment) :
    pair_units heap t es [] = es := by
  cases es <;> rfl

theorem assign_from_package_skip (id : Int) (t : ℚ) (e : Equipment) (s : Sim)
    (rest : List Nat) :
    ∀ (pre : List Nat), (∀ g, g ∈ pre → s.buffer.requests.getD g none = none) →
      assign_from_package id t e s (pre ++ rest) = assign_from_package id t e s rest := by
  intro pre
  induction pre with
  | nil => intro _; rfl
  | cons g pre ih =>
    intro h
    have hg := h g (List.mem_cons_self _ _)
    rw [List.cons_append, assign_from_package]
    simp only [hg]
    exact ih (fun g1 hg1 => h g1 (List.mem_cons_of_mem _ hg1))

theorem mark_processed_step (heap0 : Heap) (t : ℚ) (xs : List Ref) (x : Ref) :
    (((mark_processed heap0 t xs).write x
        { mark_processed heap0 t xs x with
            wait_time := t - (mark_processed heap0 t xs x).arrival_time }).write x
      (({ mark_processed heap0 t xs x with
            wait_time := t - (mark_processed heap0 t xs x).arrival_time } :
          Request).update_status "processed")) =
      mark_processed heap0 t (xs ++ [x]) := by
  funext a
  by_cases ha : a = x
  · subst ha
    by_cases hx : a ∈ xs
    · simp [Heap.write, mark_processed, Request.update_status, hx]
    · simp [Heap.write, mark_processed, Request.update_status, hx]
  · by_cases hx : a ∈ xs
    · simp [Heap.write, mark_processed, ha, hx]
    · simp [Heap.write, mark_processed, ha, hx]

theorem assign_from_package_hit (id : Int) (t : ℚ) (e : Equipment) (s : Sim)
    (g : Nat) (rest : List Nat) (x : Ref)
    (hg : s.buffer.requests.getD g none = some x) (hid : (s.heap x).project_id = id) :
    assign_from_package id t e s (g :: rest) =
      (assigned_unit s.heap t e x,
       { s with
          heap := (s.heap.write x
            { s.heap x with wait_time := t - (s.heap x).arrival_time }).write x
              (({ s.heap x with wait_time := t - (s.heap x).arrival_time } :
                Request).update_status "processed")
          completed_requests := s.completed_requests ++ [some x]
          buffer := { s.buffer with requests := s.buffer.requests.set g none } }) := by
  subst hid
  rw [assign_from_package]
  simp only [hg, if_true, Equipment.assign_request, assigned_unit, Heap.write]

theorem mark_processed_project_id (heap0 : Heap) (t : ℚ) (xs : List Ref) (x : Ref) :
    (mark_processed heap0 t xs x).project_id = (heap0 x).project_id := by
  unfold mark_processed
  split_ifs <;> rfl

theorem mark_processed_requested_period (heap0 : Heap) (t : ℚ) (xs : List Ref) (x : Ref) :
    (mark_processed heap0 t xs x).requested_period = (heap0 x).requested_period := by
  unfold mark_processed
  split_ifs <;> rfl

theorem assigned_unit_mark_processed (heap0 : Heap) (t : ℚ) (xs : List Ref) (e : Equipment)
    (x : Ref) : assigned_unit (mark_processed heap0 t xs) t e x = assigned_unit heap0 t e x := by
  simp only [assigned_unit, mark_processed_requested_period]

/-- The outer loop of `assign_equipment` in closed form.  `G` is the package of the
selected source, already emptied on `Gd` and still intact on `Gr`, whose cells hold
the requests `Xr`. -/
theorem assign_units_spec (heap0 : Heap) (rs0 : List (Option Ref)) (id : Int) (t : ℚ)
    (G : List Nat) (hnd : G.Nodup) :
    ∀ (es : List Equipment) (s : Sim) (Gd Gr : List Nat) (Xd Xr : List Ref),
      G = Gd ++ Gr →
      List.Forall₂ (fun g x => rs0.getD g none = some x ∧ (heap0 x).project_id = id) Gr Xr →
      s.buffer.requests = clear_slots rs0 Gd →
      s.heap = mark_processed heap0 t Xd →
      assign_units id G t es s =
        (pair_units heap0 t es Xr,
         { s with
            heap := mark_processed heap0 t (Xd ++ Xr.take (free_count es))
            buffer :=
              { s.buffer with requests := clear_slots rs0 (Gd ++ Gr.take (free_count es)) }
            completed_requests :=
              s.completed_requests ++ (Xr.take (free_count es)).map some }) := by
  intro es
  induction es with
  | nil =>
    intro s Gd Gr Xd Xr _ _ hb hh
    simp only [assign_units, pair_units, free_count, List.countP_nil, List.take_zero,
      List.append_nil, List.map_nil, ← hb, ← hh]
  | cons e es ih =>
    intro s Gd Gr Xd Xr hG hF hb hh
    by_cases hfree : e.status = "free"
    · cases hF with
      | nil =>
        have hskip : assign_from_package id t e s G = (e, s) := by
          have := assign_from_package_skip id t e s [] G (by
            intro g hg
            rw [hb, getD_clear_slots]
            simp only [hG, List.append_nil] at hg
            simp [hg])
          simpa [assign_from_package] using this
        have := ih s Gd [] Xd [] hG List.Forall₂.nil hb hh
        simp only [assign_units, hfree, if_true, hskip, this, pair_units_nil, pair_units,
          List.take_nil]
      | @cons g x gr xr hgx hrest =>
        have hgd : g ∉ Gd := by
          rw [hG] at hnd
          intro hmem
          exact (List.nodup_append.1 hnd).2.2 hmem (List.mem_cons_self _ _)
        have hcell : s.buffer.requests.getD g none = some x := by
          rw [hb, getD_clear_slots]
          simp only [hgd, if_false]
          exact hgx.1
        have hid : (s.heap x).project_id = id := by
          rw [hh, mark_processed_project_id]; exact hgx.2
        have hstep : assign_from_package id t e s G =
            (assigned_unit heap0 t e x,
             { s with
                heap := mark_processed heap0 t (Xd ++ [x])
                completed_requests := s.completed_requests ++ [some x]
                buffer := { s.buffer with requests := clear_slots rs0 (Gd ++ [g]) } }) := by
          rw [hG, assign_from_package_skip id t e s (g :: gr) Gd (by
            intro g1 hg1
            rw [hb, getD_clear_slots]
            simp [hg1]),
            assign_from_package_hit id t e s g gr x hcell hid]
          rw [hh, mark_processed_step, assigned_unit_mark_processed, clear_slots_append, ← hb]
        have := ih
          { s with
              heap := mark_processed heap0 t (Xd ++ [x])
              completed_requests := s.completed_requests ++ [some x]
              buffer := { s.buffer with requests := clear_slots rs0 (Gd ++ [g]) } }
          (Gd ++ [g]) gr (Xd ++ [x]) xr (by simp [hG]) hrest rfl rfl
        have hfc : free_count (e :: es) = free_count es + 1 := by
          simp [free_count, hfree]
        simp only [assign_units, hfree, if_true, hstep, this, pair_units, hfc, List.take_succ_cons,
          List.append_assoc, List.singleton_append, List.map_cons]
    · have hfc : free_count (e :: es) = free_count es := by
        simp [free_count, hfree]
      have := ih s Gd Gr Xd Xr hG hF hb hh
      simp only [assign_units, hfree, if_false, this, hfc]
      cases Xr with
      | nil => simp [pair_units, pair_units_nil]
      | cons x xr => simp [pair_units, hfree]

theorem holds_id_iff (heap : Heap) (rs : List (Option Ref)) (id : Int) (g : Nat) :
    holds_id heap rs id g = true ↔
      ∃ x, rs.getD g none = some x ∧ (heap x).project_id = id := by
  unfold holds_id
  cases h : rs.getD g none with
  | none => simp
  | some x => simp

theorem mem_slots_of (heap : Heap) (rs : List (Option Ref)) (id : Int) (g : Nat) :
    g ∈ slots_of heap rs id ↔
      ∃ x, rs.getD g none = some x ∧ (heap x).project_id = id := by
  simp only [slots_of, List.mem_filter, List.mem_range, holds_id_iff]
  constructor
  · rintro ⟨_, h⟩; exact h
  · rintro ⟨x, hx, hid⟩
    refine ⟨?_, x, hx, hid⟩
    by_contra hge
    simp [List.getD_eq_getElem?_getD, List.getElem?_eq_none (not_lt.1 hge)] at hx

theorem slots_of_nodup (heap : Heap) (rs : List (Option Ref)) (id : Int) :
    (slots_of heap rs id).Nodup :=
  (List.nodup_range _).filter _

theorem package_refs_forall2 (heap : Heap) (rs : List (Option Ref)) (id : Int) :
    ∀ (gs : List Nat), (∀ g, g ∈ gs → ∃ x, rs.getD g none = some x ∧ (heap x).project_id = id) →
      List.Forall₂ (fun g x => rs.getD g none = some x ∧ (heap x).project_id = id) gs
        (package_refs rs gs) := by
  intro gs
  induction gs with
  | nil => intro _; exact List.Forall₂.nil
  | cons g gs ih =>
    intro h
    obtain ⟨x, hx, hid⟩ := h g (List.mem_cons_self _ _)
    have : package_refs rs (g :: gs) = x :: package_refs rs gs := by
      simp only [package_refs, List.filterMap_cons, hx]
    rw [this]
    exact List.Forall₂.cons ⟨hx, hid⟩ (ih (fun g1 hg1 => h g1 (List.mem_cons_of_mem _ hg1)))

theorem mark_processed_nil (heap : Heap) (t : ℚ) : mark_processed heap t [] = heap := by
  funext a
  simp [mark_processed]

theorem smallest_group_cases (heap : Heap) (rs : List (Option Ref)) :
    (collect_packages heap rs 0 [] = [] ∧ smallest_group heap rs = [] ∧
      ∀ i, rs.getD i none = none) ∨
    (∃ id tail, collect_packages heap rs 0 [] = (id, smallest_group heap rs) :: tail ∧
      smallest_buffered_id heap rs = some id ∧ smallest_group heap rs = slots_of heap rs id) := by
  rcases collect_packages_head heap rs with ⟨h1, h2, h3⟩ | ⟨id, tail, h1, h2⟩
  · left
    exact ⟨h1, by simp only [smallest_group, h2], h3⟩
  · right
    have hg : smallest_group heap rs = slots_of heap rs id := by
      simp only [smallest_group, h2]
    exact ⟨id, tail, by rw [hg]; exact h1, h2, hg⟩

/-- One call of `assign_equipment` in closed form: the free units take, in list
order, the requests of the package of the smallest buffered source id, in cell
order, as long as both last. -/
theorem assign_equipment_closed (s : Sim) (t : ℚ) :
    assign_equipment s t =
      { heap := mark_processed s.heap t
          ((package_refs s.buffer.requests
            (smallest_group s.heap s.buffer.requests)).take (free_count s.equipment_list))
        buffer :=
          { s.buffer with
              requests := clear_slots s.buffer.requests
                ((smallest_group s.heap s.buffer.requests).take (free_count s.equipment_list)) }
        equipment_list := pair_units s.heap t s.equipment_list
          (package_refs s.buffer.requests (smallest_group s.heap s.buffer.requests))
        completed_requests := s.completed_requests ++
          ((package_refs s.buffer.requests
            (smallest_group s.heap s.buffer.requests)).take
              (free_count s.equipment_list)).map some } := by
  rcases smallest_group_cases s.heap s.buffer.requests with ⟨h1, h2, _⟩ | ⟨id, tail, h1, _, h3⟩
  · simp only [assign_equipment, h1, h2, package_refs, List.filterMap_nil, List.take_nil,
      mark_processed_nil, clear_slots, List.foldl_nil, pair_units_nil, List.map_nil,
      List.append_nil]
  · have hspec := assign_units_spec s.heap s.buffer.requests id t
      (smallest_group s.heap s.buffer.requests) (by rw [h3]; exact slots_of_nodup _ _ _)
      s.equipment_list s [] (smallest_group s.heap s.buffer.requests) []
      (package_refs s.buffer.requests (smallest_group s.heap s.buffer.requests))
      (by simp)
      (package_refs_forall2 s.heap s.buffer.requests id _ (by
        intro g hg
        rw [h3] at hg
        exact (mem_slots_of _ _ _ _).1 hg))
      (by simp [clear_slots])
      (by rw [mark_processed_nil])
    simp only [assign_equipment, h1, hspec, List.nil_append]

theorem mem_free_units (es : List Equipment) (j : Nat) :
    j ∈ free_units es ↔ ∃ e, es[j]? = some e ∧ e.status = "free" := by
  simp only [free_units, List.mem_filter, List.mem_range, is_free_at]
  constructor
  · rintro ⟨hj, h⟩
    rw [List.getElem?_eq_getElem hj] at h
    exact ⟨es[j], List.getElem?_eq_getElem hj, by simpa using h⟩
  · rintro ⟨e, he, hfree⟩
    obtain ⟨hj, _⟩ := List.getElem?_eq_some.1 he
    refine ⟨hj, ?_⟩
    rw [he]
    simpa using hfree

theorem free_units_cons (e : Equipment) (es : List Equipment) :
    free_units (e :: es) =
      (if e.status = "free" then [0] else []) ++ (free_units es).map Nat.succ := by
  have h0 : is_free_at (e :: es) 0 = decide (e.status = "free") := by
    simp [is_free_at]
  have hs : (is_free_at (e :: es)) ∘ Nat.succ = is_free_at es := by
    funext j
    simp [is_free_at]
  simp only [free_units, List.length_cons, List.range_succ_eq_map, List.filter_cons, h0,
    List.filter_map, hs]
  by_cases hfree : e.status = "free"
  · simp [hfree]
  · simp [hfree]

theorem free_count_eq_length (es : List Equipment) :
    free_count es = (free_units es).length := by
  induction es with
  | nil => simp [free_count, free_units]
  | cons e es ih =>
    rw [free_units_cons]
    simp only [free_count] at ih ⊢
    by_cases hfree : e.status = "free"
    · simp [hfree, ih]
    · simp [hfree, ih]

theorem pair_units_length (heap : Heap) (t : ℚ) :
    ∀ (es : List Equipment) (xs : List Ref), (pair_units heap t es xs).length = es.length := by
  intro es
  induction es with
  | nil => intro xs; rfl
  | cons e es ih =>
    intro xs
    cases xs with
    | nil => rfl
    | cons x xs =>
      simp only [pair_units]
      split_ifs <;> simp [ih]

theorem pair_units_assigned (heap : Heap) (t : ℚ) :
    ∀ (es : List Equipment) (xs : List Ref) (k j : Nat) (x : Ref),
      (free_units es)[k]? = some j → xs[k]? = some x →
      ∃ e, es[j]? = some e ∧ e.status = "free" ∧
        (pair_units heap t es xs)[j]? = some (assigned_unit heap t e x) := by
  intro es
  induction es with
  | nil => intro xs k j x hF _; simp [free_units] at hF
  | cons e es ih =>
    intro xs k j x hF hX
    rw [free_units_cons] at hF
    cases xs with
    | nil => simp at hX
    | cons x0 xs =>
      by_cases hfree : e.status = "free"
      · simp only [hfree, if_true, List.singleton_append] at hF
        cases k with
        | zero =>
          simp only [List.getElem?_cons_zero, Option.some.injEq] at hF hX
          subst hF hX
          exact ⟨e, by simp, hfree, by simp [pair_units, hfree]⟩
        | succ k =>
          simp only [List.getElem?_cons_succ, List.getElem?_map, Option.map_eq_some'] at hF hX
          obtain ⟨j1, hj1, rfl⟩ := hF
          obtain ⟨e1, h1, h2, h3⟩ := ih xs k j1 x hj1 hX
          exact ⟨e1, by simpa using h1, h2, by simpa [pair_units, hfree] using h3⟩
      · simp only [hfree, if_false, List.nil_append, List.getElem?_map,
          Option.map_eq_some'] at hF
        obtain ⟨j1, hj1, rfl⟩ := hF
        obtain ⟨e1, h1, h2, h3⟩ := ih (x0 :: xs) k j1 x hj1 hX
        exact ⟨e1, by simpa using h1, h2, by simpa [pair_units, hfree] using h3⟩

theorem pair_units_unchanged (heap : Heap) (t : ℚ) :
    ∀ (es : List Equipment) (xs : List Ref) (j : Nat),
      (∀ k, (free_units es)[k]? = some j → xs.length ≤ k) →
      (pair_units heap t es xs)[j]? = es[j]? := by
  intro es
  induction es with
  | nil => intro xs j _; rfl
  | cons e es ih =>
    intro xs j h
    cases xs with
    | nil => rfl
    | cons x0 xs =>
      rw [free_units_cons] at h
      by_cases hfree : e.status = "free"
      · simp only [hfree, if_true, List.singleton_append] at h
        cases j with
        | zero =>
          have := h 0 (by simp)
          simp at this
        | succ j =>
          simp only [pair_units, hfree, if_true, List.getElem?_cons_succ]
          apply ih
          intro k hk
          have := h (k + 1) (by simp [hk])
          simpa using this
      · simp only [hfree, if_false, List.nil_append] at h
        cases j with
        | zero => simp [pair_units, hfree]
        | succ j =>
          simp only [pair_units, hfree, if_false, List.getElem?_cons_succ]
          apply ih
          intro k hk
          exact h k (by simp [hk])

theorem pair_units_cases (heap : Heap) (t : ℚ) :
    ∀ (es : List Equipment) (xs : List Ref) (j : Nat) (e1 : Equipment),
      (pair_units heap t es xs)[j]? = some e1 →
      es[j]? = some e1 ∨
        ∃ e x, es[j]? = some e ∧ e.status = "free" ∧ x ∈ xs ∧
          e1 = assigned_unit heap t e x := by
  intro es
  induction es with
  | nil => intro xs j e1 h; simp [pair_units] at h
  | cons e es ih =>
    intro xs j e1 h
    cases xs with
    | nil => left; exact h
    | cons x0 xs =>
      by_cases hfree : e.status = "free"
      · simp only [pair_units, hfree, if_true] at h
        cases j with
        | zero =>
          right
          simp only [List.getElem?_cons_zero, Option.some.injEq] at h
          exact ⟨e, x0, by simp, hfree, by simp, h.symm⟩
        | succ j =>
          simp only [List.getElem?_cons_succ] at h ⊢
          rcases ih xs j e1 h with h1 | ⟨e2, x, h1, h2, h3, h4⟩
          · exact Or.inl h1
          · exact Or.inr ⟨e2, x, h1, h2, List.mem_cons_of_mem _ h3, h4⟩
      · simp only [pair_units, hfree, if_false] at h
        cases j with
        | zero =>
          left
          simp only [List.getElem?_cons_zero] at h ⊢
          exact h
        | succ j =>
          simp only [List.getElem?_cons_succ] at h ⊢
          exact ih (x0 :: xs) j e1 h

theorem forall2_getElem_some {P : Nat → Ref → Prop} :
    ∀ (gs : List Nat) (xs : List Ref), List.Forall₂ P gs xs →
      ∀ (k g : Nat), gs[k]? = some g → ∃ x, xs[k]? = some x ∧ P g x := by
  intro gs xs h
  induction h with
  | nil => intro k g hk; simp at hk
  | @cons g0 x0 gr xr h0 _ ih =>
    intro k g hk
    cases k with
    | zero =>
      simp only [List.getElem?_cons_zero, Option.some.injEq] at hk
      subst hk
      exact ⟨x0, by simp, h0⟩
    | succ k =>
      simp only [List.getElem?_cons_succ] at hk ⊢
      exact ih k g hk

theorem forall2_mem_right {P : Nat → Ref → Prop} :
    ∀ (gs : List Nat) (xs : List Ref), List.Forall₂ P gs xs →
      ∀ x, x ∈ xs → ∃ g, g ∈ gs ∧ P g x := by
  intro gs xs h
  induction h with
  | nil => intro x hx; simp at hx
  | @cons g0 x0 gr xr h0 _ ih =>
    intro x hx
    rcases List.mem_cons.1 hx with rfl | hx
    · exact ⟨g0, List.mem_cons_self _ _, h0⟩
    · obtain ⟨g, hg, hp⟩ := ih x hx
      exact ⟨g, List.mem_cons_of_mem _ hg, hp⟩

theorem nodup_mem_take_iff (gs : List Nat) (hnd : gs.Nodup) (k n g : Nat)
    (hk : gs[k]? = some g) : g ∈ gs.take n ↔ k < n := by
  constructor
  · intro hmem
    obtain ⟨i, hi⟩ := List.mem_iff_getElem?.1 hmem
    rw [List.getElem?_take] at hi
    split_ifs at hi with hin
    obtain ⟨hil, hig⟩ := List.getElem?_eq_some.1 hi
    obtain ⟨hkl, hkg⟩ := List.getElem?_eq_some.1 hk
    have : i = k := (List.Nodup.getElem_inj_iff hnd).1 (hig.trans hkg.symm)
    omega
  · intro hlt
    rw [List.mem_iff_getElem?]
    exact ⟨k, by rw [List.getElem?_take_of_lt hlt]; exact hk⟩

/-! ## The selection dispatcher: what one call does -/

theorem mem_smallest_group (heap : Heap) (rs : List (Option Ref)) (g : Nat) :
    g ∈ smallest_group heap rs ↔
      ∃ x, rs.getD g none = some x ∧
        smallest_buffered_id heap rs = some (heap x).project_id := by
  rcases smallest_group_cases heap rs with ⟨_, h2, h3⟩ | ⟨id, _, _, h2, h3⟩
  · rw [h2]
    simp only [List.not_mem_nil, false_iff, not_exists, not_and]
    intro x hx
    rw [h3 g] at hx
    exact Option.noConfusion hx
  · rw [h3, mem_slots_of, h2]
    constructor
    · rintro ⟨x, hx, hid⟩; exact ⟨x, hx, by rw [hid]⟩
    · rintro ⟨x, hx, hid⟩; exact ⟨x, hx, (Option.some.inj hid).symm⟩

theorem smallest_group_nodup (heap : Heap) (rs : List (Option Ref)) :
    (smallest_group heap rs).Nodup := by
  rcases smallest_group_cases heap rs with ⟨_, h2, _⟩ | ⟨id, _, _, _, h3⟩
  · rw [h2]; exact List.nodup_nil
  · rw [h3]; exact slots_of_nodup _ _ _

theorem smallest_group_forall2 (heap : Heap) (rs : List (Option Ref)) :
    List.Forall₂ (fun g x => rs.getD g none = some x ∧
        smallest_buffered_id heap rs = some (heap x).project_id)
      (smallest_group heap rs) (package_refs rs (smallest_group heap rs)) := by
  have := package_refs_forall2
    (fun x => { heap x with project_id :=
      if smallest_buffered_id heap rs = some (heap x).project_id then 0 else 1 }) rs 0
    (smallest_group heap rs) (by
      intro g hg
      obtain ⟨x, hx, hid⟩ := (mem_smallest_group heap rs g).1 hg
      exact ⟨x, hx, by simp [hid]⟩)
  refine List.Forall₂.imp ?_ this
  intro g x h
  refine ⟨h.1, ?_⟩
  by_contra hne
  have := h.2
  simp [hne] at this

theorem package_refs_map_some (heap : Heap) (rs : List (Option Ref)) :
    (package_refs rs (smallest_group heap rs)).map some =
      (smallest_group heap rs).map (fun g => rs.getD g none) := by
  have h := smallest_group_forall2 heap rs
  generalize smallest_group heap rs = gs at h
  generalize package_refs rs gs = xs at h
  induction h with
  | nil => rfl
  | cons h0 _ ih => simp only [List.map_cons, ih, h0.1]

theorem package_refs_length (heap : Heap) (rs : List (Option Ref)) :
    (package_refs rs (smallest_group heap rs)).length = (smallest_group heap rs).length :=
  (List.Forall₂.length_eq (smallest_group_forall2 heap rs)).symm

theorem mark_processed_status (heap : Heap) (t : ℚ) (xs : List Ref) (x : Ref) (hx : x ∈ xs) :
    (mark_processed heap t xs x).status = "processed" := by
  simp [mark_processed, hx]

/-- C6: with `G` the slot indices (ascending) holding requests of the smallest buffered
source id and `F` the indices (in list order) of the units whose status is "free",
after one call of `assign_equipment`: for every `k` below both lengths, unit `F[k]`
is what `assign_request` makes of it with the request that was in slot `G[k]` (busy,
holding that request) and that slot is empty; every unit `F[k]` with `k ≥ |G|` is
unchanged (still free); every slot `G[k]` with `k ≥ |F|` is unchanged; every unit that
was busy is unchanged; the log is the old log followed by the requests of the slots
`G[0], …, G[min(|F|,|G|)-1]` in that order, each with status "processed"; the
equipment list and the buffer keep their lengths. -/
theorem assign_equipment_pairs_free_units (s : Sim) (t : ℚ) :
    (∀ (k j g : Nat), (free_units s.equipment_list)[k]? = some j →
      (smallest_group s.heap s.buffer.requests)[k]? = some g →
      ∃ x e e1, s.buffer.requests.getD g none = some x ∧
        s.equipment_list[j]? = some e ∧
        (assign_equipment s t).equipment_list[j]? = some e1 ∧
        e1 = assigned_unit s.heap t e x ∧
        e1.status = "busy" ∧ e1.current_request = some x ∧
        (assign_equipment s t).buffer.requests.getD g none = none) ∧
    (∀ (k j : Nat), (free_units s.equipment_list)[k]? = some j →
      (smallest_group s.heap s.buffer.requests).length ≤ k →
      (assign_equipment s t).equipment_list[j]? = s.equipment_list[j]? ∧
      ∃ e, s.equipment_list[j]? = some e ∧ e.status = "free") ∧
    (∀ (k g : Nat), (smallest_group s.heap s.buffer.requests)[k]? = some g →
      (free_units s.equipment_list).length ≤ k →
      (assign_equipment s t).buffer.requests.getD g none = s.buffer.requests.getD g none) ∧
    (∀ (j : Nat) (e : Equipment), s.equipment_list[j]? = some e → e.status = "busy" →
      (assign_equipment s t).equipment_list[j]? = some e) ∧
    (assign_equipment s t).completed_requests =
      s.completed_requests ++
        ((smallest_group s.heap s.buffer.requests).take
          (min (free_units s.equipment_list).length
            (smallest_group s.heap s.buffer.requests).length)).map
          (fun g => s.buffer.requests.getD g none) ∧
    (∀ (k g : Nat) (x : Ref), (smallest_group s.heap s.buffer.requests)[k]? = some g →
      k < (free_units s.equipment_list).length →
      s.buffer.requests.getD g none = some x →
      ((assign_equipment s t).heap x).status = "processed") ∧
    (assign_equipment s t).equipment_list.length = s.equipment_list.length ∧
    (assign_equipment s t).buffer.requests.length = s.buffer.requests.length := by
  have hF2 := smallest_group_forall2 s.heap s.buffer.requests
  have hnd := smallest_group_nodup s.heap s.buffer.requests
  have hlen := package_refs_length s.heap s.buffer.requests
  rw [assign_equipment_closed s t, free_count_eq_length]
  refine ⟨?_, ?_, ?_, ?_, ?_, ?_, pair_units_length _ _ _ _, length_clear_slots _ _⟩
  · intro k j g hFk hGk
    obtain ⟨x, hXk, hx, _⟩ := forall2_getElem_some _ _ hF2 k g hGk
    obtain ⟨e, he, _, hpair⟩ := pair_units_assigned s.heap t s.equipment_list _ k j x hFk hXk
    have hklt : k < (free_units s.equipment_list).length :=
      (List.getElem?_eq_some.1 hFk).1
    refine ⟨x, e, _, hx, he, hpair, rfl, rfl, rfl, ?_⟩
    show (clear_slots _ _).getD g none = none
    rw [getD_clear_slots, if_pos ((nodup_mem_take_iff _ hnd k _ g hGk).2 hklt)]
  · intro k j hFk hle
    refine ⟨?_, (mem_free_units _ _).1 (List.mem_iff_getElem?.2 ⟨k, hFk⟩)⟩
    show (pair_units _ _ _ _)[j]? = _
    apply pair_units_unchanged
    intro k1 hk1
    have hkk : k1 = k := by
      obtain ⟨h1, h1e⟩ := List.getElem?_eq_some.1 hk1
      obtain ⟨h2, h2e⟩ := List.getElem?_eq_some.1 hFk
      exact (List.Nodup.getElem_inj_iff ((List.nodup_range _).filter _)).1 (h1e.trans h2e.symm)
    rw [hlen, hkk]
    exact hle
  · intro k g hGk hle
    show (clear_slots _ _).getD g none = _
    rw [getD_clear_slots, if_neg]
    rw [nodup_mem_take_iff _ hnd k _ g hGk]
    omega
  · intro j e he hbusy
    rw [← he]
    show (pair_units _ _ _ _)[j]? = _
    apply pair_units_unchanged
    intro k hk
    obtain ⟨e1, he1, hfree⟩ := (mem_free_units _ _).1 (List.mem_iff_getElem?.2 ⟨k, hk⟩)
    rw [he] at he1
    cases he1
    rw [hbusy] at hfree
    exact absurd hfree (by decide)
  · show _ ++ _ = _ ++ _
    rw [List.map_take, package_refs_map_some, ← List.map_take]
    congr 2
    rw [List.take_eq_take]
    simp
  · intro k g x hGk hk hx
    apply mark_processed_status
    obtain ⟨x1, hXk, hx1, _⟩ := forall2_getElem_some _ _ hF2 k g hGk
    rw [hx] at hx1
    cases hx1
    rw [List.mem_iff_getElem?]
    exact ⟨k, by rw [List.getElem?_take_of_lt hk]; exact hXk⟩

theorem getD_some_lt (rs : List (Option Ref)) (i : Nat) (x : Ref)
    (h : rs.getD i none = some x) : i < rs.length := by
  by_contra hge
  simp [List.getD_eq_getElem?_getD, List.getElem?_eq_none (not_lt.1 hge)] at h

theorem smallest_buffered_id_le (heap : Heap) (rs : List (Option Ref)) (x : Ref)
    (hx : smallest_buffered_id heap rs = some (heap x).project_id) (i : Nat) (y : Ref)
    (hy : rs.getD i none = some y) : (heap x).project_id ≤ (heap y).project_id :=
  ((smallest_buffered_id_eq_some_iff heap rs _).1 hx).2 _
    ((mem_buffered_ids heap rs _).2 ⟨i, y, getD_some_lt rs i y hy, hy, rfl⟩)

theorem smallest_buffered_id_of_le (heap : Heap) (rs : List (Option Ref)) (x : Ref) (i : Nat)
    (hx : rs.getD i none = some x)
    (hle : ∀ (i2 : Nat) (y : Ref), rs.getD i2 none = some y →
      (heap x).project_id ≤ (heap y).project_id) :
    smallest_buffered_id heap rs = some (heap x).project_id := by
  rw [smallest_buffered_id_eq_some_iff]
  refine ⟨(mem_buffered_ids heap rs _).2 ⟨i, x, getD_some_lt rs i x hx, hx, rfl⟩, ?_⟩
  intro k hk
  obtain ⟨i2, y, _, hy, rfl⟩ := (mem_buffered_ids heap rs k).1 hk
  exact hle i2 y hy

theorem mem_package_refs (heap : Heap) (rs : List (Option Ref)) (x : Ref) :
    x ∈ package_refs rs (smallest_group heap rs) ↔
      ∃ i, rs.getD i none = some x ∧
        smallest_buffered_id heap rs = some (heap x).project_id := by
  constructor
  · intro hx
    obtain ⟨g, _, hg1, hg2⟩ := forall2_mem_right _ _ (smallest_group_forall2 heap rs) x hx
    exact ⟨g, hg1, hg2⟩
  · rintro ⟨i, hi, hid⟩
    have hmem : i ∈ smallest_group heap rs := (mem_smallest_group heap rs i).2 ⟨x, hi, hid⟩
    simp only [package_refs, List.mem_filterMap]
    exact ⟨i, hmem, hi⟩

/-- C5: every request that one call of `assign_equipment` assigns (appends to the log,
hands to a unit) was in the buffer at the start of the call and has a source id not
larger than that of any buffered request; every slot holding a request whose source
id is not the smallest buffered one is unchanged by the call; and when the buffer is
empty the call changes nothing. -/
theorem assign_equipment_serves_smallest_id (s : Sim) (t : ℚ) :
    (∃ added : List Ref,
      (assign_equipment s t).completed_requests = s.completed_requests ++ added.map some ∧
      ∀ x, x ∈ added →
        (∃ i, s.buffer.requests.getD i none = some x) ∧
        ∀ (i : Nat) (y : Ref), s.buffer.requests.getD i none = some y →
          (s.heap x).project_id ≤ (s.heap y).project_id) ∧
    (∀ (j : Nat) (e1 : Equipment), (assign_equipment s t).equipment_list[j]? = some e1 →
      s.equipment_list[j]? ≠ some e1 →
      ∃ x, e1.current_request = some x ∧
        (∃ i, s.buffer.requests.getD i none = some x) ∧
        ∀ (i : Nat) (y : Ref), s.buffer.requests.getD i none = some y →
          (s.heap x).project_id ≤ (s.heap y).project_id) ∧
    (∀ (i i2 : Nat) (y y2 : Ref), s.buffer.requests.getD i none = some y →
      s.buffer.requests.getD i2 none = some y2 →
      (s.heap y2).project_id < (s.heap y).project_id →
      (assign_equipment s t).buffer.requests.getD i none = some y) ∧
    ((∀ i, s.buffer.requests.getD i none = none) → assign_equipment s t = s) := by
  refine ⟨?_, ?_, ?_, ?_⟩
  · rw [assign_equipment_closed s t]
    refine ⟨_, rfl, ?_⟩
    intro x hx
    obtain ⟨i, hi, hid⟩ := (mem_package_refs s.heap s.buffer.requests x).1
      (List.mem_of_mem_take hx)
    exact ⟨⟨i, hi⟩, smallest_buffered_id_le _ _ x hid⟩
  · rw [assign_equipment_closed s t]
    intro j e1 h1 hne
    rcases pair_units_cases s.heap t s.equipment_list _ j e1 h1 with h | ⟨e, x, _, _, hx, he1⟩
    · exact absurd h hne
    · obtain ⟨i, hi, hid⟩ := (mem_package_refs s.heap s.buffer.requests x).1 hx
      exact ⟨x, by rw [he1]; rfl, ⟨i, hi⟩, smallest_buffered_id_le _ _ x hid⟩
  · rw [assign_equipment_closed s t]
    intro i i2 y y2 hy hy2 hlt
    show (clear_slots _ _).getD i none = some y
    rw [getD_clear_slots, if_neg, hy]
    intro hmem
    obtain ⟨x, hx, hid⟩ := (mem_smallest_group s.heap s.buffer.requests i).1
      (List.mem_of_mem_take hmem)
    rw [hy] at hx
    cases hx
    have := smallest_buffered_id_le _ _ y hid i2 y2 hy2
    omega
  · intro hempty
    rcases smallest_group_cases s.heap s.buffer.requests with ⟨h1, _, _⟩ | ⟨id, _, _, h2, _⟩
    · simp only [assign_equipment, h1]
    · obtain ⟨i, r, _, hr, _⟩ := (mem_buffered_ids _ _ _).1
        ((smallest_buffered_id_eq_some_iff _ _ _).1 h2).1
      rw [hempty i] at hr
      exact Option.noConfusion hr

/-- C7, as stated, fails: with one unit, busy, and one buffered request (so the
number of units is at least the number of buffered requests of the smallest buffered
source id), one call of `assign_equipment` assigns nothing: the request is still in
its slot and the log is unchanged. -/
theorem assign_equipment_busy_units_counterexample :
    (smallest_group demo_busy.heap demo_busy.buffer.requests).length ≤
      demo_busy.equipment_list.length ∧
    smallest_group demo_busy.heap demo_busy.buffer.requests = [0] ∧
    (assign_equipment demo_busy 1).buffer.requests.getD 0 none = some 0 ∧
    (assign_equipment demo_busy 1).completed_requests = demo_busy.completed_requests := by
  refine ⟨by decide, by decide, by decide, by decide⟩

/-- C7, amended: when the number of free units is at least the number of buffered
requests of the smallest buffered source id, one call of `assign_equipment` assigns
exactly the buffered requests of that source: the log grows by exactly those
requests, each of them is held by a unit afterwards and none of them remains in the
buffer, while every slot holding a request of another source is unchanged and every
unit that changed holds one of those requests. -/
theorem assign_equipment_enough_free_units (s : Sim) (t : ℚ)
    (h : (smallest_group s.heap s.buffer.requests).length ≤
      (free_units s.equipment_list).length) :
    ∃ added : List Ref,
      (assign_equipment s t).completed_requests = s.completed_requests ++ added.map some ∧
      (∀ x, x ∈ added ↔
        (∃ i, s.buffer.requests.getD i none = some x) ∧
        ∀ (i : Nat) (y : Ref), s.buffer.requests.getD i none = some y →
          (s.heap x).project_id ≤ (s.heap y).project_id) ∧
      (∀ (i : Nat) (x : Ref), s.buffer.requests.getD i none = some x →
        (x ∈ added → (assign_equipment s t).buffer.requests.getD i none = none) ∧
        (x ∉ added → (assign_equipment s t).buffer.requests.getD i none = some x)) ∧
      (∀ x, x ∈ added → ∃ (j : Nat) (e1 : Equipment),
        (assign_equipment s t).equipment_list[j]? = some e1 ∧
        e1.status = "busy" ∧ e1.current_request = some x) ∧
      (∀ (j : Nat) (e1 : Equipment), (assign_equipment s t).equipment_list[j]? = some e1 →
        s.equipment_list[j]? ≠ some e1 →
        ∃ x, x ∈ added ∧ e1.current_request = some x) := by
  have hlen := package_refs_length s.heap s.buffer.requests
  have hX : (package_refs s.buffer.requests (smallest_group s.heap s.buffer.requests)).take
      (free_units s.equipment_list).length =
      package_refs s.buffer.requests (smallest_group s.heap s.buffer.requests) :=
    List.take_of_length_le (by omega)
  have hG : (smallest_group s.heap s.buffer.requests).take
      (free_units s.equipment_list).length = smallest_group s.heap s.buffer.requests :=
    List.take_of_length_le h
  rw [assign_equipment_closed s t, free_count_eq_length, hX, hG]
  refine ⟨package_refs s.buffer.requests (smallest_group s.heap s.buffer.requests), rfl,
    ?_, ?_, ?_, ?_⟩
  · intro x
    rw [mem_package_refs]
    constructor
    · rintro ⟨i, hi, hid⟩
      exact ⟨⟨i, hi⟩, smallest_buffered_id_le _ _ x hid⟩
    · rintro ⟨⟨i, hi⟩, hle⟩
      exact ⟨i, hi, smallest_buffered_id_of_le _ _ x i hi hle⟩
  · intro i x hi
    constructor
    · intro hx
      obtain ⟨_, _, hid⟩ := (mem_package_refs _ _ x).1 hx
      show (clear_slots _ _).getD i none = none
      rw [getD_clear_slots, if_pos ((mem_smallest_group _ _ i).2 ⟨x, hi, hid⟩)]
    · intro hx
      show (clear_slots _ _).getD i none = some x
      rw [getD_clear_slots, if_neg, hi]
      intro hmem
      obtain ⟨x1, hx1, hid⟩ := (mem_smallest_group _ _ i).1 hmem
      rw [hi] at hx1
      cases hx1
      exact hx ((mem_package_refs _ _ x).2 ⟨i, hi, hid⟩)
  · intro x hx
    obtain ⟨k, hk⟩ := List.mem_iff_getElem?.1 hx
    have hklt : k < (free_units s.equipment_list).length := by
      have := (List.getElem?_eq_some.1 hk).1
      omega
    obtain ⟨e, _, _, hpair⟩ := pair_units_assigned s.heap t s.equipment_list _ k
      ((free_units s.equipment_list)[k]) x (List.getElem?_eq_getElem hklt) hk
    exact ⟨_, _, hpair, rfl, rfl⟩
  · intro j e1 h1 hne
    rcases pair_units_cases s.heap t s.equipment_list _ j e1 h1 with h | ⟨e, x, _, _, hx, he1⟩
    · exact absurd h hne
    · exact ⟨x, hx, by rw [he1]; rfl⟩

theorem assign_equipment_enough_free_units_witness :
    (smallest_group demo_sim.heap demo_sim.buffer.requests).length ≤
      (free_units demo_sim.equipment_list).length ∧
    ∃ added : List Ref,
      (assign_equipment demo_sim 1).completed_requests =
        demo_sim.completed_requests ++ added.map some ∧
      (∀ (i : Nat) (x : Ref), demo_sim.buffer.requests.getD i none = some x →
        (x ∈ added → (assign_equipment demo_sim 1).buffer.requests.getD i none = none) ∧
        (x ∉ added → (assign_equipment demo_sim 1).buffer.requests.getD i none = some x)) :=
  ⟨by decide,
   let ⟨added, h1, _, h3, _⟩ := assign_equipment_enough_free_units demo_sim 1 (by decide)
   ⟨added, h1, h3⟩⟩

theorem forall2_nodup_right {P : Nat → Ref → Prop}
    (hinj : ∀ g1 g2 x, P g1 x → P g2 x → g1 = g2) :
    ∀ (gs : List Nat) (xs : List Ref), List.Forall₂ P gs xs → gs.Nodup → xs.Nodup := by
  intro gs xs h
  induction h with
  | nil => intro _; exact List.nodup_nil
  | @cons g0 x0 gr xr h0 hrest ih =>
    intro hnd
    rw [List.nodup_cons] at hnd ⊢
    refine ⟨?_, ih hnd.2⟩
    intro hmem
    obtain ⟨g, hg, hp⟩ := forall2_mem_right _ _ hrest x0 hmem
    have := hinj g g0 x0 hp h0
    subst this
    exact hnd.1 hg

theorem free_units_nodup (es : List Equipment) : (free_units es).Nodup :=
  (List.nodup_range _).filter _

/-- C8: when the occupied slots of the buffer hold pairwise distinct requests, the
assignments made by one call of `assign_equipment` form a list of (unit index,
request) pairs: the log grows by exactly the requests of these pairs, each pair's unit
was free and afterwards holds that pair's request, every unit outside the pairs is
unchanged; no unit occurs in two pairs, no request occurs in two pairs, and no unit
that was busy at the start occurs in a pair. -/
theorem assign_equipment_one_to_one (s : Sim) (t : ℚ)
    (hdist : ∀ (i j : Nat) (x : Ref), s.buffer.requests.getD i none = some x →
      s.buffer.requests.getD j none = some x → i = j) :
    ∃ asg : List (Nat × Ref),
      (assign_equipment s t).completed_requests =
        s.completed_requests ++ asg.map (fun p => some p.2) ∧
      (∀ p, p ∈ asg → ∃ e, s.equipment_list[p.1]? = some e ∧ e.status = "free" ∧
        (assign_equipment s t).equipment_list[p.1]? = some (assigned_unit s.heap t e p.2) ∧
        ∃ i, s.buffer.requests.getD i none = some p.2) ∧
      (∀ (j : Nat), j ∉ asg.map Prod.fst →
        (assign_equipment s t).equipment_list[j]? = s.equipment_list[j]?) ∧
      (asg.map Prod.fst).Nodup ∧
      (asg.map Prod.snd).Nodup ∧
      (∀ (j : Nat) (e : Equipment), s.equipment_list[j]? = some e → e.status = "busy" →
        j ∉ asg.map Prod.fst) := by
  have hF2 := smallest_group_forall2 s.heap s.buffer.requests
  have hXnd : (package_refs s.buffer.requests
      (smallest_group s.heap s.buffer.requests)).Nodup :=
    forall2_nodup_right (fun g1 g2 x h1 h2 => hdist g1 g2 x h1.1 h2.1) _ _ hF2
      (smallest_group_nodup _ _)
  have hFnd := free_units_nodup s.equipment_list
  generalize hX : package_refs s.buffer.requests (smallest_group s.heap s.buffer.requests) = X
    at hXnd hF2
  generalize hF : free_units s.equipment_list = F at hFnd
  have hfst : ((F.take (min F.length X.length)).zip (X.take (min F.length X.length))).map
      Prod.fst = F.take (min F.length X.length) :=
    List.map_fst_zip _ _ (by simp)
  have hsnd : ((F.take (min F.length X.length)).zip (X.take (min F.length X.length))).map
      Prod.snd = X.take (min F.length X.length) :=
    List.map_snd_zip _ _ (by simp)
  have hXmem : ∀ x, x ∈ X → ∃ i, s.buffer.requests.getD i none = some x := by
    intro x hx
    obtain ⟨g, _, hg, _⟩ := forall2_mem_right _ _ hF2 x hx
    exact ⟨g, hg⟩
  refine ⟨(F.take (min F.length X.length)).zip (X.take (min F.length X.length)),
    ?_, ?_, ?_, ?_, ?_, ?_⟩
  · rw [assign_equipment_closed s t, free_count_eq_length, hX, hF]
    show _ ++ _ = _ ++ _
    congr 1
    have : (fun p : Nat × Ref => some p.2) = some ∘ Prod.snd := rfl
    have htk : X.take F.length = X.take (min F.length X.length) :=
      List.take_eq_take.2 (by omega)
    rw [this, ← List.map_map, hsnd, htk]
  · rintro ⟨j, x⟩ hp
    obtain ⟨k, hk⟩ := List.mem_iff_getElem?.1 hp
    obtain ⟨hk1, hk2⟩ := List.getElem?_zip_eq_some.1 hk
    have hklt : k < min F.length X.length := by
      by_contra hge
      rw [List.getElem?_take_eq_none (not_lt.1 hge)] at hk1
      exact Option.noConfusion hk1
    rw [List.getElem?_take_of_lt hklt] at hk1 hk2
    obtain ⟨e, he, hfree, hpair⟩ := pair_units_assigned s.heap t s.equipment_list X k j x
      (by rw [hF]; exact hk1) hk2
    refine ⟨e, he, hfree, ?_, hXmem x (List.mem_iff_getElem?.2 ⟨k, hk2⟩)⟩
    rw [assign_equipment_closed s t, hX]
    exact hpair
  · intro j hj
    rw [hfst] at hj
    rw [assign_equipment_closed s t, hX]
    show (pair_units _ _ _ _)[j]? = _
    apply pair_units_unchanged
    intro k hk
    rw [hF] at hk
    by_contra hlt
    apply hj
    rw [List.mem_iff_getElem?]
    have hkF : k < F.length := (List.getElem?_eq_some.1 hk).1
    exact ⟨k, by rw [List.getElem?_take_of_lt (by omega)]; exact hk⟩
  · rw [hfst]
    exact hFnd.sublist (List.take_sublist _ _)
  · rw [hsnd]
    exact hXnd.sublist (List.take_sublist _ _)
  · intro j e he hbusy hj
    rw [hfst] at hj
    have hjF : j ∈ free_units s.equipment_list := by
      rw [hF]; exact List.mem_of_mem_take hj
    obtain ⟨e1, he1, hfree⟩ := (mem_free_units _ _).1 hjF
    rw [he] at he1
    cases he1
    rw [hbusy] at hfree
    exact absurd hfree (by decide)

theorem assign_equipment_one_to_one_witness :
    (∀ (i j : Nat) (x : Ref), demo_sim.buffer.requests.getD i none = some x →
      demo_sim.buffer.requests.getD j none = some x → i = j) ∧
    ∃ asg : List (Nat × Ref),
      (assign_equipment demo_sim 1).completed_requests =
        demo_sim.completed_requests ++ asg.map (fun p => some p.2) ∧
      (asg.map Prod.fst).Nodup ∧ (asg.map Prod.snd).Nodup :=
  have hdist : ∀ (i j : Nat) (x : Ref), demo_sim.buffer.requests.getD i none = some x →
      demo_sim.buffer.requests.getD j none = some x → i = j := by
    intro i j x hi hj
    have key : ∀ i, i < 6 → ∀ j, j < 6 → demo_sim.buffer.requests.getD i none ≠ none →
        demo_sim.buffer.requests.getD i none = demo_sim.buffer.requests.getD j none →
        i = j := by decide
    exact key i (getD_some_lt _ _ _ hi) j (getD_some_lt _ _ _ hj)
      (by rw [hi]; exact Option.some_ne_none x) (by rw [hi, hj])
  ⟨hdist,
   let ⟨asg, h1, _, _, h4, h5, _⟩ := assign_equipment_one_to_one demo_sim 1 hdist
   ⟨asg, h1, h4, h5⟩⟩

/-! ## Equipment units -/

theorem busy_iff_holding_assigned_unit (heap : Heap) (t : ℚ) (e : Equipment) (x : Ref) :
    busy_iff_holding (assigned_unit heap t e x) := by
  simp [busy_iff_holding, assigned_unit]

theorem assign_request_fst (e : Equipment) (heap : Heap) (r : Ref) (t : ℚ) :
    (e.assign_request heap r t).1 = assigned_unit heap t e r := by
  simp [Equipment.assign_request, assigned_unit, Heap.write]

/-- C9: the predicate "status = busy iff current_request is set" holds for a newly
constructed `Equipment` and, when it holds before, it holds after
`Equipment::assign_request`, after `Equipment::complete_request` and, for every unit
of the list, after `assign_equipment`; and when every request's service duration is
non-negative none of these operations decreases a unit's `busy_time`. -/
theorem busy_iff_holding_invariant (s : Sim) (t : ℚ) (e : Equipment) (r : Ref)
    (eid : Int) (eq_type : String)
    (he : busy_iff_holding e)
    (hall : ∀ e0, e0 ∈ s.equipment_list → busy_iff_holding e0)
    (hdur : ∀ x, 0 ≤ (s.heap x).requested_period) :
    busy_iff_holding (Equipment.new eid eq_type) ∧
    busy_iff_holding (e.assign_request s.heap r t).1 ∧
    busy_iff_holding (e.complete_request s.heap t).1 ∧
    (∀ e1, e1 ∈ (assign_equipment s t).equipment_list → busy_iff_holding e1) ∧
    e.busy_time ≤ (e.assign_request s.heap r t).1.busy_time ∧
    e.busy_time ≤ (e.complete_request s.heap t).1.busy_time ∧
    (assign_equipment s t).equipment_list.length = s.equipment_list.length ∧
    (∀ (j : Nat) (e0 e1 : Equipment), s.equipment_list[j]? = some e0 →
      (assign_equipment s t).equipment_list[j]? = some e1 →
      e0.busy_time ≤ e1.busy_time) := by
  refine ⟨?_, ?_, ?_, ?_, ?_, ?_, ?_, ?_⟩
  · simp [busy_iff_holding, Equipment.new]
  · rw [assign_request_fst]
    exact busy_iff_holding_assigned_unit _ _ _ _
  · unfold Equipment.complete_request
    cases hc : e.current_request with
    | none => simpa using he
    | some x =>
      simp only
      split_ifs
      · simp [busy_iff_holding]
      · exact he
  · rw [assign_equipment_closed s t]
    intro e1 he1
    obtain ⟨j, hj⟩ := List.mem_iff_getElem?.1 he1
    rcases pair_units_cases s.heap t s.equipment_list _ j e1 hj with h | ⟨e0, x, _, _, _, h⟩
    · exact hall e1 (List.mem_iff_getElem?.2 ⟨j, h⟩)
    · rw [h]
      exact busy_iff_holding_assigned_unit _ _ _ _
  · rw [assign_request_fst]
    simp only [assigned_unit]
    linarith [hdur r]
  · unfold Equipment.complete_request
    cases hc : e.current_request with
    | none => simp
    | some x =>
      simp only
      split_ifs <;> simp
  · rw [assign_equipment_closed s t]
    exact pair_units_length _ _ _ _
  · rw [assign_equipment_closed s t]
    intro j e0 e1 h0 h1
    rcases pair_units_cases s.heap t s.equipment_list _ j e1 h1 with h | ⟨e2, x, h2, _, _, h⟩
    · rw [h0] at h
      cases h
      exact le_refl _
    · rw [h0] at h2
      cases h2
      rw [h]
      simp only [assigned_unit]
      linarith [hdur x]

theorem busy_iff_holding_invariant_witness :
    (busy_iff_holding (Equipment.new 1 "crane") ∧
      (∀ e0, e0 ∈ demo_sim.equipment_list → busy_iff_holding e0) ∧
      (∀ x, 0 ≤ (demo_sim.heap x).requested_period)) ∧
    (∀ e1, e1 ∈ (assign_equipment demo_sim 1).equipment_list → busy_iff_holding e1) ∧
    (∀ (j : Nat) (e0 e1 : Equipment), demo_sim.equipment_list[j]? = some e0 →
      (assign_equipment demo_sim 1).equipment_list[j]? = some e1 →
      e0.busy_time ≤ e1.busy_time) :=
  have h1 : busy_iff_holding (Equipment.new 1 "crane") := by
    simp [busy_iff_holding, Equipment.new]
  have h2 : ∀ e0, e0 ∈ demo_sim.equipment_list → busy_iff_holding e0 := by
    intro e0 h
    simp only [demo_sim, List.mem_cons, List.mem_singleton, List.not_mem_nil, or_false] at h
    rcases h with rfl | rfl | rfl | rfl <;> simp [busy_iff_holding, Equipment.new]
  have h3 : ∀ x, 0 ≤ (demo_sim.heap x).requested_period := by
    intro x
    simp [demo_sim, demo_heap, Request.new]
  ⟨⟨h1, h2, h3⟩,
   (busy_iff_holding_invariant demo_sim 1 (Equipment.new 1 "crane") 0 1 "crane" h1 h2 h3).2.2.2.1,
   (busy_iff_holding_invariant demo_sim 1 (Equipment.new 1 "crane") 0 1 "crane"
      h1 h2 h3).2.2.2.2.2.2.2⟩

/-- C10: when the unit holds a request `r` and `t ≥ completion_time`,
`complete_request(t)` sets that request's `completion_time` to `t` and its status to
"processed" (no other request object changes), clears `current_request` and sets the
status to "free", leaving `busy_time` and the unit's `completion_time` unchanged; in
every other case (no request held, or `t < completion_time`) the unit and the request
objects are unchanged.  No other operation sets a unit's status to "free":
`assign_request` leaves the status "busy", a unit that is free after
`assign_equipment` is a unit the call left unchanged, and `place_request` does not
touch the equipment list. -/
theorem complete_request_effect (e : Equipment) (heap : Heap) (t : ℚ) (s : Sim)
    (r0 : Ref) (req : Option Ref) :
    (∀ r, e.current_request = some r → t ≥ e.completion_time →
      (e.complete_request heap t).1 = { e with current_request := none, status := "free" } ∧
      (e.complete_request heap t).1.status = "free" ∧
      (e.complete_request heap t).1.current_request = none ∧
      (e.complete_request heap t).1.busy_time = e.busy_time ∧
      (e.complete_request heap t).1.completion_time = e.completion_time ∧
      (e.complete_request heap t).2 r =
        { heap r with completion_time := t, status := "processed" } ∧
      (∀ a, a ≠ r → (e.complete_request heap t).2 a = heap a)) ∧
    ((e.current_request = none ∨ t < e.completion_time) →
      e.complete_request heap t = (e, heap)) ∧
    (e.assign_request heap r0 t).1.status = "busy" ∧
    (∀ (j : Nat) (e1 : Equipment), (assign_equipment s t).equipment_list[j]? = some e1 →
      e1.status = "free" → s.equipment_list[j]? = some e1) ∧
    (place_request s req t).equipment_list = s.equipment_list := by
  refine ⟨?_, ?_, ?_, ?_, ?_⟩
  · intro r hr ht
    have hc : e.complete_request heap t =
        ({ e with current_request := none, status := "free" },
         (heap.write r { heap r with completion_time := t }).write r
           (((heap.write r { heap r with completion_time := t }) r).update_status
             "processed")) := by
      simp only [Equipment.complete_request, hr, ht, if_true]
    rw [hc]
    refine ⟨rfl, rfl, rfl, rfl, rfl, ?_, ?_⟩
    · simp [Heap.write, Request.update_status]
    · intro a ha
      simp [Heap.write, ha]
  · rintro (hnone | hlt)
    · simp only [Equipment.complete_request, hnone]
    · unfold Equipment.complete_request
      cases e.current_request with
      | none => rfl
      | some x => simp only [ge_iff_le, not_le.2 hlt, if_false]
  · rw [assign_request_fst]; rfl
  · rw [assign_equipment_closed s t]
    intro j e1 h1 hfree
    rcases pair_units_cases s.heap t s.equipment_list _ j e1 h1 with h | ⟨e2, x, _, _, _, h⟩
    · exact h
    · rw [h] at hfree
      simp [assigned_unit] at hfree
  · unfold place_request
    simp only
    split_ifs
    · split <;> rfl
    · rfl

theorem complete_request_effect_witness :
    (demo_unit.current_request = some 2 ∧ (8 : ℚ) ≥ demo_unit.completion_time) ∧
    (demo_unit.complete_request demo_busy.heap 8).1.status = "free" ∧
    (demo_unit.complete_request demo_busy.heap 8).1.current_request = none :=
  have hdue : (8 : ℚ) ≥ demo_unit.completion_time := by
    simp only [demo_unit, Equipment.new]
    norm_num
  ⟨⟨rfl, hdue⟩,
   ((complete_request_effect demo_unit demo_busy.heap 8 demo_busy 0 none).1 2 rfl hdue).2.1,
   ((complete_request_effect demo_unit demo_busy.heap 8 demo_busy 0 none).1 2 rfl hdue).2.2.1⟩

/-- C11: for a free unit `e`, a request `r` and a time `t`, `assign_request(r, t)` sets
the status to "busy", makes `r` the unit's current request, sets `r.wait_time` to
`t - r.arrival_time`, sets the unit's `completion_time` to `t + r.requested_period`
and increases `busy_time` by exactly `r.requested_period`; the other fields of the
unit, the other fields of `r` (arrival time, service duration, source id, status,
equipment type, priority, completion time) and every other request object are
unchanged. -/
theorem assign_request_effect (e : Equipment) (heap : Heap) (r : Ref) (t : ℚ)
    (hfree : e.status = "free") :
    (e.assign_request heap r t).1.status = "busy" ∧
    (e.assign_request heap r t).1.current_request = some r ∧
    ((e.assign_request heap r t).2 r).wait_time = t - (heap r).arrival_time ∧
    (e.assign_request heap r t).1.completion_time = t + (heap r).requested_period ∧
    (e.assign_request heap r t).1.busy_time = e.busy_time + (heap r).requested_period ∧
    ((e.assign_request heap r t).2 r).arrival_time = (heap r).arrival_time ∧
    ((e.assign_request heap r t).2 r).requested_period = (heap r).requested_period ∧
    ((e.assign_request heap r t).2 r).project_id = (heap r).project_id ∧
    ((e.assign_request heap r t).2 r).status = (heap r).status ∧
    (e.assign_request heap r t).2 r =
      { heap r with wait_time := t - (heap r).arrival_time } ∧
    (∀ a, a ≠ r → (e.assign_request heap r t).2 a = heap a) ∧
    (e.assign_request heap r t).1 =
      { e with
          status := "busy"
          current_request := some r
          completion_time := t + (heap r).requested_period
          busy_time := e.busy_time + (heap r).requested_period } := by
  have _hfree := hfree
  refine ⟨rfl, rfl, ?_, ?_, ?_, ?_, ?_, ?_, ?_, ?_, ?_, ?_⟩ <;>
    simp [Equipment.assign_request, Heap.write]
  intro a ha
  simp [ha]

theorem assign_request_effect_witness :
    (Equipment.new 1 "crane").status = "free" ∧
    ((Equipment.new 1 "crane").assign_request demo_heap 3 5).1.status = "busy" ∧
    ((Equipment.new 1 "crane").assign_request demo_heap 3 5).1.current_request = some 3 ∧
    (((Equipment.new 1 "crane").assign_request demo_heap 3 5).2 3).wait_time =
      5 - (demo_heap 3).arrival_time :=
  ⟨rfl,
   (assign_request_effect (Equipment.new 1 "crane") demo_heap 3 5 rfl).1,
   (assign_request_effect (Equipment.new 1 "crane") demo_heap 3 5 rfl).2.1,
   (assign_request_effect (Equipment.new 1 "crane") demo_heap 3 5 rfl).2.2.1⟩

/-- C12: starting from the empty buffer of capacity 1 and an empty log, placing three
requests `r1`, `r2`, `r3` in sequence with `place_request` (no selection in between)
ends with the single slot holding `r3` and the log equal to `[r1, r2]`, both with
status "rejected"; after the second placement the slot holds `r2` and the log is
`[r1]` (`r1` is evicted by the arrival of `r2`, and `r2` by that of `r3`). -/
theorem place_three_into_capacity_one (heap : Heap) (es : List Equipment)
    (r1 r2 r3 : Ref) (t1 t2 t3 : ℚ) :
    (place_request
      { heap := heap, buffer := Buffer.new 1, equipment_list := es,
        completed_requests := [] } (some r1) t1).buffer.requests = [some r1] ∧
    (place_request
      { heap := heap, buffer := Buffer.new 1, equipment_list := es,
        completed_requests := [] } (some r1) t1).completed_requests = [] ∧
    (place_request (place_request
      { heap := heap, buffer := Buffer.new 1, equipment_list := es,
        completed_requests := [] } (some r1) t1) (some r2) t2).buffer.requests = [some r2] ∧
    (place_request (place_request
      { heap := heap, buffer := Buffer.new 1, equipment_list := es,
        completed_requests := [] } (some r1) t1) (some r2) t2).completed_requests =
      [some r1] ∧
    (place_request (place_request (place_request
      { heap := heap, buffer := Buffer.new 1, equipment_list := es,
        completed_requests := [] } (some r1) t1) (some r2) t2) (some r3) t3).buffer.requests =
      [some r3] ∧
    (place_request (place_request (place_request
      { heap := heap, buffer := Buffer.new 1, equipment_list := es,
        completed_requests := [] } (some r1) t1) (some r2) t2) (some r3) t3).completed_requests =
      [some r1, some r2] ∧
    ((place_request (place_request (place_request
      { heap := heap, buffer := Buffer.new 1, equipment_list := es,
        completed_requests := [] } (some r1) t1) (some r2) t2) (some r3) t3).heap r1).status =
      "rejected" ∧
    ((place_request (place_request (place_request
      { heap := heap, buffer := Buffer.new 1, equipment_list := es,
        completed_requests := [] } (some r1) t1) (some r2) t2) (some r3) t3).heap r2).status =
      "rejected" := by
  have h1 : place_request
      { heap := heap, buffer := Buffer.new 1, equipment_list := es,
        completed_requests := [] } (some r1) t1 =
      { heap := heap, buffer := { requests := [some r1], capacity := 1, pointer := 0 },
        equipment_list := es, completed_requests := [] } := by
    simp [place_request, Buffer.new, Buffer.add_request, Buffer.add_request_loop]
  have h2 : ∀ (hp : Heap) (x y : Ref) (l : List (Option Ref)) (t : ℚ),
      place_request
        { heap := hp, buffer := { requests := [some x], capacity := 1, pointer := 0 },
          equipment_list := es, completed_requests := l } (some y) t =
        { heap := hp.write x ((hp x).update_status "rejected"),
          buffer := { requests := [some y], capacity := 1, pointer := 0 },
          equipment_list := es, completed_requests := l ++ [some x] } := by
    intro hp x y l t
    simp [place_request, Buffer.add_request, Buffer.add_request_loop, Buffer.remove_request]
  rw [h1, h2, h2]
  refine ⟨rfl, rfl, rfl, rfl, rfl, rfl, ?_, ?_⟩
  · by_cases h : r1 = r2 <;> simp [Heap.write, Request.update_status, h]
  · simp [Heap.write, Request.update_status]

/-! ## The statistics -/

theorem stats_at_of_not_key (m : List (Int × SourceStats)) (k : Int)
    (h : k ∉ m.map Prod.fst) : stats_at m k = SourceStats.zero := by
  induction m with
  | nil => rfl
  | cons p rest ih =>
    obtain ⟨k0, v⟩ := p
    simp only [List.map_cons, List.mem_cons, not_or] at h
    simp only [stats_at, h.1, if_false]
    exact ih h.2

theorem source_stats_update_keys (m : List (Int × SourceStats)) (k : Int) (q : Request)
    (k1 : Int) :
    k1 ∈ (source_stats_update m k q).map Prod.fst ↔ k1 = k ∨ k1 ∈ m.map Prod.fst := by
  induction m with
  | nil => simp [source_stats_update]
  | cons p rest ih =>
    obtain ⟨k0, v⟩ := p
    simp only [source_stats_update]
    split_ifs with h1 h2
    · simp
    · subst h2; simp
    · simp only [List.map_cons, List.mem_cons, ih]
      tauto

theorem source_stats_update_sorted (m : List (Int × SourceStats)) (k : Int) (q : Request)
    (hs : (m.map Prod.fst).Pairwise (· < ·)) :
    ((source_stats_update m k q).map Prod.fst).Pairwise (· < ·) := by
  induction m with
  | nil => simp [source_stats_update]
  | cons p rest ih =>
    obtain ⟨k0, v⟩ := p
    simp only [List.map_cons, List.pairwise_cons] at hs
    simp only [source_stats_update]
    split_ifs with h1 h2
    · simp only [List.map_cons, List.pairwise_cons, List.mem_cons]
      refine ⟨?_, hs.1, hs.2⟩
      rintro a (rfl | ha)
      · exact h1
      · exact lt_trans h1 (hs.1 a ha)
    · simpa using hs
    · simp only [List.map_cons, List.pairwise_cons]
      refine ⟨?_, ih hs.2⟩
      intro a ha
      rcases (source_stats_update_keys rest k q a).1 ha with rfl | ha
      · omega
      · exact hs.1 a ha

theorem stats_at_update (m : List (Int × SourceStats)) (k : Int) (q : Request) (k1 : Int)
    (hs : (m.map Prod.fst).Pairwise (· < ·)) :
    stats_at (source_stats_update m k q) k1 =
      if k1 = k then stats_update (stats_at m k) q else stats_at m k1 := by
  induction m with
  | nil =>
    by_cases hk1 : k1 = k <;> simp [source_stats_update, stats_at, hk1]
  | cons p rest ih =>
    obtain ⟨k0, v⟩ := p
    simp only [List.map_cons, List.pairwise_cons] at hs
    have ih1 := ih hs.2
    by_cases hlt : k < k0
    · have hk : k ∉ rest.map Prod.fst := fun hmem => by
        have := hs.1 k hmem; omega
      have hne : k ≠ k0 := ne_of_lt hlt
      by_cases hk1 : k1 = k
      · subst hk1
        simp [source_stats_update, stats_at, hlt, hne, stats_at_of_not_key rest k1 hk]
      · simp [source_stats_update, stats_at, hlt, hk1]
    · by_cases heq : k = k0
      · subst heq
        by_cases hk1 : k1 = k
        · subst hk1
          simp [source_stats_update, stats_at]
        · simp [source_stats_update, stats_at, hk1]
      · by_cases hk1 : k1 = k
        · subst hk1
          simp [source_stats_update, stats_at, hlt, heq, ih1]
        · simp only [source_stats_update, stats_at, hlt, heq, if_false, ih1, hk1]

/-- The first loop of `calculate_statistics` in closed form: the keys stay ascending,
a key is present exactly when it was present before or a logged request has it as
source id, and the entry of a key is the fold of the loop body over the logged
requests of that source. -/
theorem accumulate_stats_spec (heap : Heap) :
    ∀ (log : List (Option Ref)) (m : List (Int × SourceStats)),
      (m.map Prod.fst).Pairwise (· < ·) →
      ((accumulate_stats heap log m).map Prod.fst).Pairwise (· < ·) ∧
      (∀ k, k ∈ (accumulate_stats heap log m).map Prod.fst ↔
        k ∈ m.map Prod.fst ∨ source_requests heap log k ≠ []) ∧
      (∀ k, stats_at (accumulate_stats heap log m) k =
        (source_requests heap log k).foldl stats_update (stats_at m k)) := by
  intro log
  induction log with
  | nil => intro m hs; simp [accumulate_stats, source_requests, hs]
  | cons c rest ih =>
    intro m hs
    cases c with
    | none =>
      have := ih m hs
      simpa [accumulate_stats, source_requests] using this
    | some r =>
      obtain ⟨h1, h2, h3⟩ := ih (source_stats_update m (heap r).project_id (heap r))
        (source_stats_update_sorted m _ _ hs)
      refine ⟨h1, ?_, ?_⟩
      · intro k
        simp only [accumulate_stats, h2, source_stats_update_keys]
        by_cases hk : (heap r).project_id = k
        · subst hk
          simp [source_requests]
        · have hk2 : k ≠ (heap r).project_id := fun h => hk h.symm
          simp [source_requests, hk, hk2]
      · intro k
        simp only [accumulate_stats, h3, stats_at_update m _ _ k hs]
        by_cases hk : (heap r).project_id = k
        · subst hk
          simp [source_requests]
        · have hk2 : k ≠ (heap r).project_id := fun h => hk h.symm
          simp [source_requests, hk, hk2]

theorem foldl_stats_update_counts :
    ∀ (qs : List Request) (s : SourceStats),
      (qs.foldl stats_update s).total = s.total + (qs.length : Int) ∧
      (qs.foldl stats_update s).rejected =
        s.rejected + ((qs.countP (fun q => decide (q.status = "rejected")) : Nat) : Int) := by
  intro qs
  induction qs with
  | nil => intro s; simp
  | cons q qs ih =>
    intro s
    obtain ⟨h1, h2⟩ := ih (stats_update s q)
    simp only [List.foldl_cons, h1, h2, List.length_cons]
    by_cases hq : q.status = "rejected"
    · simp [stats_update, hq]
      constructor <;> ring
    · simp [stats_update, hq]
      ring

theorem stats_at_of_mem (m : List (Int × SourceStats)) (k : Int) (v : SourceStats)
    (hs : (m.map Prod.fst).Pairwise (· < ·)) (hmem : (k, v) ∈ m) : stats_at m k = v := by
  induction m with
  | nil => simp at hmem
  | cons p rest ih =>
    obtain ⟨k0, v0⟩ := p
    simp only [List.map_cons, List.pairwise_cons] at hs
    rcases List.mem_cons.1 hmem with h | h
    · cases h
      simp [stats_at]
    · have hk : k ∈ rest.map Prod.fst := List.mem_map.2 ⟨(k, v), h, rfl⟩
      have hne : k ≠ k0 := ne_of_gt (hs.1 k hk)
      simp only [stats_at, hne, if_false]
      exact ih hs.2 h

theorem source_entry_counts (heap : Heap) (log : List (Option Ref)) (k : Int)
    (v : SourceStats) (hmem : (k, v) ∈ accumulate_stats heap log []) :
    0 < logged_total heap log k ∧
    v.total = (logged_total heap log k : Int) ∧
    v.rejected = (logged_rejected heap log k : Int) := by
  obtain ⟨h1, h2, h3⟩ := accumulate_stats_spec heap log [] (by simp)
  have hv := stats_at_of_mem _ k v h1 hmem
  rw [h3] at hv
  have hc := foldl_stats_update_counts (source_requests heap log k) (stats_at [] k)
  rw [hv] at hc
  have hk : k ∈ (accumulate_stats heap log []).map Prod.fst :=
    List.mem_map.2 ⟨(k, v), hmem, rfl⟩
  have hne := (h2 k).1 hk
  simp only [List.map_nil, List.not_mem_nil, false_or] at hne
  refine ⟨?_, ?_, ?_⟩
  · exact List.length_pos.2 hne
  · simpa [stats_at, SourceStats.zero, logged_total] using hc.1
  · simpa [stats_at, SourceStats.zero, logged_rejected] using hc.2

theorem logged_rejected_le_total (heap : Heap) (log : List (Option Ref)) (k : Int) :
    logged_rejected heap log k ≤ logged_total heap log k :=
  List.countP_le_length _

/-- C17: every line of the source table that `calculate_statistics` computes belongs
to a source id with at least one logged request, carries that source's number of
logged requests and of logged rejected requests, and its rejection probability is
the exact ratio rejected / total, which lies in `[0, 1]`; every source id with a
logged request has a line; the formula gives 0 when the total is 0, and 3/10 for
total 10 and rejected 3. -/
theorem rejection_probability_is_ratio (heap : Heap) (log : List (Option Ref))
    (es : List Equipment) (total_time : ℚ) :
    (∀ row, row ∈ (calculate_statistics heap log es total_time).sources →
      0 < logged_total heap log row.project_id ∧
      row.total = (logged_total heap log row.project_id : Int) ∧
      row.rejected = (logged_rejected heap log row.project_id : Int) ∧
      row.p_reject =
        (logged_rejected heap log row.project_id : ℚ) /
          (logged_total heap log row.project_id : ℚ) ∧
      0 ≤ row.p_reject ∧ row.p_reject ≤ 1) ∧
    (∀ id, 0 < logged_total heap log id →
      ∃ row, row ∈ (calculate_statistics heap log es total_time).sources ∧
        row.project_id = id) ∧
    (∀ id, p_reject (logged_total heap log id) (logged_rejected heap log id) =
      (logged_rejected heap log id : ℚ) / (logged_total heap log id : ℚ)) ∧
    (∀ rejected, p_reject 0 rejected = 0) ∧
    p_reject 10 3 = 3 / 10 := by
  refine ⟨?_, ?_, ?_, ?_, ?_⟩
  · intro row hrow
    simp only [calculate_statistics, List.mem_map] at hrow
    obtain ⟨⟨k, v⟩, hmem, rfl⟩ := hrow
    obtain ⟨hpos, htot, hrej⟩ := source_entry_counts heap log k v hmem
    have hle := logged_rejected_le_total heap log k
    have hposq : (0 : ℚ) < (logged_total heap log k : ℚ) := by exact_mod_cast hpos
    have hp : (source_row k v).p_reject =
        (logged_rejected heap log k : ℚ) / (logged_total heap log k : ℚ) := by
      simp only [source_row, p_reject, htot, hrej]
      rw [if_pos (by exact_mod_cast hpos)]
      push_cast
      rfl
    refine ⟨hpos, htot, hrej, hp, ?_, ?_⟩
    · rw [hp]; positivity
    · rw [hp, div_le_one hposq]
      exact_mod_cast hle
  · intro id hpos
    obtain ⟨_, h2, _⟩ := accumulate_stats_spec heap log [] (by simp)
    have hk : id ∈ (accumulate_stats heap log []).map Prod.fst :=
      (h2 id).2 (Or.inr (List.length_pos.1 hpos))
    obtain ⟨⟨k, v⟩, hmem, hkv⟩ := List.mem_map.1 hk
    simp only at hkv
    subst hkv
    exact ⟨source_row k v, by
      simp only [calculate_statistics, List.mem_map]
      exact ⟨(k, v), hmem, rfl⟩, rfl⟩
  · intro id
    unfold p_reject
    split_ifs with h
    · push_cast; rfl
    · have h0 : logged_total heap log id = 0 := by omega
      simp [h0]
  · intro rejected
    simp [p_reject]
  · norm_num [p_reject]

/-- The run on `demo_draws` exits after two iterations with the single request
logged as processed and the unit free again. -/
theorem demo_run_final :
    loop_condition demo_config (run_loop demo_config demo_draws
      (initial_run demo_config (fun _ => "crane") demo_heap)) = false ∧
    (run_loop demo_config demo_draws
      (initial_run demo_config (fun _ => "crane") demo_heap)).sim.completed_requests =
      [some 0] ∧
    (run_loop demo_config demo_draws
      (initial_run demo_config (fun _ => "crane") demo_heap)).sim.heap 0 =
      { Request.new 1 "crane" 0 (13 / 2) 1 with
          status := "processed", completion_time := 7 } := by
  norm_num [run_loop, loop_condition, tick, generate_and_place, complete_units, complete_all,
    initial_run, initial_projects, initial_equipment, demo_config, demo_draws,
    is_simulation_complete, no_request_loop, no_busy_loop, Buffer.new, Equipment.new,
    Project.new, Project.generate_request, Request.new, place_request, Buffer.add_request,
    Buffer.add_request_loop, Buffer.remove_request, Equipment.complete_request,
    assign_equipment, collect_packages, packages_push_back, assign_units,
    assign_from_package, Equipment.assign_request, Heap.write, Request.update_status,
    List.range, List.range.loop]
  decide

/-- C15 at a failing input: the run of `run_simulation` with one unit, capacity 1 and
budget 1 whose only request has service duration 6.5 exits with that request logged
as processed; `calculate_statistics` then reports the mean service time 6 for its
source, while the arithmetic mean of the service durations of the source's
non-rejected logged requests is 6.5: the running sum is kept in an `int` and loses
its fraction. -/
theorem mean_service_time_truncated :
    (run_simulation demo_config (fun _ => "crane") demo_heap demo_draws).map
      (fun stats => stats.sources.map (fun row => (row.project_id, row.avg_processing_time))) =
      some [(1, 6)] ∧
    mean ((accepted_requests
      (run_loop demo_config demo_draws
        (initial_run demo_config (fun _ => "crane") demo_heap)).sim.heap
      (run_loop demo_config demo_draws
        (initial_run demo_config (fun _ => "crane") demo_heap)).sim.completed_requests 1).map
      (fun q => q.requested_period)) = 13 / 2 := by
  obtain ⟨hloop, hlog, hreq⟩ := demo_run_final
  unfold run_simulation
  generalize run_loop demo_config demo_draws
    (initial_run demo_config (fun _ => "crane") demo_heap) = st at hloop hlog hreq ⊢
  have hfloor : ⌊(13 / 2 : ℚ)⌋ = 6 := by
    rw [Int.floor_eq_iff]; norm_num
  have hfloor2 : ⌊(13 / 2 : ℚ) * (13 / 2)⌋ = 42 := by
    rw [Int.floor_eq_iff]; norm_num
  have hpos : ¬ ((13 / 2 : ℚ) < 0) := by norm_num
  constructor
  · simp [hloop, hlog, calculate_statistics, accumulate_stats, hreq,
      source_stats_update, stats_update, SourceStats.zero, source_row, Request.new,
      int_add_assign, double_to_int, hfloor, hfloor2, hpos]
  · simp [hlog, mean, accepted_requests, source_requests, hreq, Request.new]

/-- C16 at a failing input: for the same run, `calculate_statistics` reports the
service-time dispersion 42 - 6 * 6 = 6, while the population variance
`E[X^2] - E[X]^2` of the single service duration 6.5 is 0. -/
theorem service_time_dispersion_truncated :
    (run_simulation demo_config (fun _ => "crane") demo_heap demo_draws).map
      (fun stats => stats.sources.map
        (fun row => (row.project_id, row.processing_time_dispersion))) = some [(1, 6)] ∧
    variance ((accepted_requests
      (run_loop demo_config demo_draws
        (initial_run demo_config (fun _ => "crane") demo_heap)).sim.heap
      (run_loop demo_config demo_draws
        (initial_run demo_config (fun _ => "crane") demo_heap)).sim.completed_requests 1).map
      (fun q => q.requested_period)) = 0 := by
  obtain ⟨hloop, hlog, hreq⟩ := demo_run_final
  unfold run_simulation
  generalize run_loop demo_config demo_draws
    (initial_run demo_config (fun _ => "crane") demo_heap) = st at hloop hlog hreq ⊢
  have hfloor : ⌊(13 / 2 : ℚ)⌋ = 6 := by
    rw [Int.floor_eq_iff]; norm_num
  have hfloor2 : ⌊(13 / 2 : ℚ) * (13 / 2)⌋ = 42 := by
    rw [Int.floor_eq_iff]; norm_num
  have hpos : ¬ ((13 / 2 : ℚ) < 0) := by norm_num
  constructor
  · simp [hloop, hlog, calculate_statistics, accumulate_stats, hreq,
      source_stats_update, stats_update, SourceStats.zero, source_row, Request.new,
      int_add_assign, double_to_int, hfloor, hfloor2, hpos]
    norm_num
  · simp [hlog, variance, mean, accepted_requests, source_requests, hreq, Request.new]

/-! ## The simulation driver -/

theorem no_request_loop_iff (rs : List (Option Ref)) :
    no_request_loop rs = true ↔ ∀ i, rs.getD i none = none := by
  induction rs with
  | nil => simp [no_request_loop]
  | cons c rest ih =>
    cases c with
    | some x =>
      simp only [no_request_loop, Bool.false_eq_true, false_iff, not_forall]
      exact ⟨0, by simp⟩
    | none =>
      simp only [no_request_loop, ih]
      constructor
      · intro h i
        cases i with
        | zero => simp
        | succ i => simpa using h i
      · intro h i
        simpa using h (i + 1)

theorem no_busy_loop_iff (es : List Equipment) :
    no_busy_loop es = true ↔ ∀ e, e ∈ es → e.status ≠ "busy" := by
  induction es with
  | nil => simp [no_busy_loop]
  | cons e rest ih =>
    simp only [no_busy_loop, List.mem_cons]
    split_ifs with h
    · simp only [Bool.false_eq_true, false_iff, not_forall]
      exact ⟨e, Or.inl rfl, fun hne => hne h⟩
    · rw [ih]
      constructor
      · rintro h1 e1 (rfl | h2)
        · exact h
        · exact h1 e1 h2
      · intro h1 e1 h2
        exact h1 e1 (Or.inr h2)

theorem is_simulation_complete_iff (buffer : Buffer) (es : List Equipment) :
    is_simulation_complete buffer es = true ↔
      (∀ i, buffer.requests.getD i none = none) ∧ ∀ e, e ∈ es → e.status ≠ "busy" := by
  unfold is_simulation_complete
  split_ifs with h
  · rw [no_busy_loop_iff]
    exact ⟨fun h1 => ⟨(no_request_loop_iff _).1 h, h1⟩, fun h1 => h1.2⟩
  · simp only [Bool.false_eq_true, false_iff, not_and]
    intro h1
    exact absurd ((no_request_loop_iff _).2 h1) h

theorem initial_run_complete (cfg : Config) (types : Nat → String) (heap : Heap) :
    is_simulation_complete (initial_run cfg types heap).sim.buffer
      (initial_run cfg types heap).sim.equipment_list = true := by
  rw [is_simulation_complete_iff]
  constructor
  · intro i
    simp only [initial_run, Buffer.new, List.getD_eq_getElem?_getD]
    by_cases hi : i < cfg.buffer_size
    · simp [List.getElem?_replicate, hi]
    · simp [List.getElem?_replicate, hi]
  · intro e he
    simp only [initial_run, initial_equipment, List.mem_map, List.mem_range] at he
    obtain ⟨i, _, rfl⟩ := he
    simp [Equipment.new]

/-- C18: with the arrival budget 0, the condition of the loop of `run_simulation` is
false in the initial state (`is_simulation_complete` holds there), so whatever the
draws the loop runs zero iterations: the state stays the initial one (no request is
generated, the log is empty) and the statistics are computed from the empty log, with
no source line and the completed and rejected counts both 0.  In general
`is_simulation_complete` returns true if and only if every buffer slot is empty and no
unit has status "busy". -/
theorem zero_budget_run (cfg : Config) (types : Nat → String) (heap : Heap)
    (ds : List Draws) (hbudget : cfg.total_requests = 0) :
    is_simulation_complete (initial_run cfg types heap).sim.buffer
      (initial_run cfg types heap).sim.equipment_list = true ∧
    loop_condition cfg (initial_run cfg types heap) = false ∧
    run_loop cfg ds (initial_run cfg types heap) = initial_run cfg types heap ∧
    (run_loop cfg ds (initial_run cfg types heap)).processed_requests = 0 ∧
    (run_loop cfg ds (initial_run cfg types heap)).sim.completed_requests = [] ∧
    run_simulation cfg types heap ds =
      some (calculate_statistics heap [] (initial_equipment cfg types) 0) ∧
    (calculate_statistics heap [] (initial_equipment cfg types) 0).sources = [] ∧
    (calculate_statistics heap [] (initial_equipment cfg types) 0).completed_req = 0 ∧
    (calculate_statistics heap [] (initial_equipment cfg types) 0).rejected_req = 0 ∧
    (∀ (buffer : Buffer) (es : List Equipment),
      is_simulation_complete buffer es = true ↔
        (∀ i, buffer.requests.getD i none = none) ∧ ∀ e, e ∈ es → e.status ≠ "busy") := by
  have hc := initial_run_complete cfg types heap
  have hloop : loop_condition cfg (initial_run cfg types heap) = false := by
    simp only [loop_condition, hc, Bool.not_true, Bool.or_false, decide_eq_false_iff_not]
    simp [initial_run, hbudget]
  have hrun : run_loop cfg ds (initial_run cfg types heap) = initial_run cfg types heap := by
    cases ds with
    | nil => rfl
    | cons d ds => simp only [run_loop, hloop, Bool.false_eq_true, if_false]
  refine ⟨hc, hloop, hrun, ?_, ?_, ?_, rfl, rfl, rfl, is_simulation_complete_iff⟩
  · rw [hrun]; rfl
  · rw [hrun]; rfl
  · simp only [run_simulation, hrun, hloop, Bool.false_eq_true, if_false]
    rfl

theorem zero_budget_run_witness :
    ({ reference_config with total_requests := 0 } : Config).total_requests = 0 ∧
    run_loop { reference_config with total_requests := 0 } demo_draws
      (initial_run { reference_config with total_requests := 0 } (fun _ => "crane") demo_heap) =
      initial_run { reference_config with total_requests := 0 } (fun _ => "crane") demo_heap ∧
    run_simulation { reference_config with total_requests := 0 } (fun _ => "crane") demo_heap
      demo_draws =
      some (calculate_statistics demo_heap []
        (initial_equipment { reference_config with total_requests := 0 } (fun _ => "crane")) 0) :=
  ⟨rfl,
   (zero_budget_run { reference_config with total_requests := 0 } (fun _ => "crane") demo_heap
      demo_draws rfl).2.2.1,
   (zero_budget_run { reference_config with total_requests := 0 } (fun _ => "crane") demo_heap
      demo_draws rfl).2.2.2.2.2.1⟩

/-! ## Invariants of a run -/

theorem place_request_shape (s : Sim) (r : Ref) (t : ℚ)
    (hlen : s.buffer.requests.length = s.buffer.capacity)
    (hptr : s.buffer.pointer < s.buffer.capacity ∨ s.buffer.capacity = 0) :
    (s.buffer.capacity = 0 ∧ place_request s (some r) t = s) ∨
    (∃ j, j < s.buffer.capacity ∧ s.buffer.requests.getD j none = none ∧
      place_request s (some r) t =
        { s with buffer :=
            { s.buffer with
                requests := s.buffer.requests.set j (some r)
                pointer := (j + 1) % s.buffer.capacity } }) ∨
    (∃ x, s.buffer.pointer < s.buffer.capacity ∧
      (∀ k, k < s.buffer.capacity → s.buffer.requests.getD k none ≠ none) ∧
      s.buffer.requests.getD s.buffer.pointer none = some x ∧
      place_request s (some r) t =
        { s with
            heap := s.heap.write x ((s.heap x).update_status "rejected")
            buffer :=
              { s.buffer with
                  requests := s.buffer.requests.set s.buffer.pointer (some r)
                  pointer := (s.buffer.pointer + 1) % s.buffer.capacity }
            completed_requests := s.completed_requests ++ [some x] }) := by
  rcases hptr with hp | h0
  · right
    by_cases hempty : ∃ k, k < s.buffer.capacity ∧ s.buffer.requests.getD k none = none
    · left
      obtain ⟨i, hi, he, hocc⟩ := exists_first_empty s.buffer hp hempty
      exact ⟨_, Nat.mod_lt _ (by omega), he,
        place_request_of_first_empty s (some r) t i hi he hocc⟩
    · right
      have hfull : ∀ k, k < s.buffer.capacity → s.buffer.requests.getD k none ≠ none :=
        fun k hk h => hempty ⟨k, hk, h⟩
      cases hx : s.buffer.requests.getD s.buffer.pointer none with
      | none => exact absurd hx (hfull _ hp)
      | some x =>
        exact ⟨x, hp, hfull, rfl, place_request_of_full s (some r) t x hlen hp hfull hx⟩
  · left
    refine ⟨h0, ?_⟩
    have hnil : s.buffer.requests = [] := List.length_eq_zero.1 (by omega)
    simp [place_request, Buffer.add_request, Buffer.add_request_loop, Buffer.remove_request,
      h0, hnil]

theorem getD_set_some_cases (rs : List (Option Ref)) (j i : Nat) (r x : Ref)
    (h : (rs.set j (some r)).getD i none = some x) :
    (i = j ∧ x = r) ∨ (i ≠ j ∧ rs.getD i none = some x) := by
  by_cases hij : i = j
  · subst hij
    left
    refine ⟨rfl, ?_⟩
    by_cases hl : i < rs.length
    · rw [getD_set_same _ _ _ hl] at h
      exact (Option.some.inj h).symm
    · have := getD_some_lt _ _ _ h
      rw [List.length_set] at this
      exact absurd this hl
  · right
    rw [getD_set_other _ _ _ _ hij] at h
    exact ⟨hij, h⟩

theorem simInv_mono (n m : Nat) (s : Sim) (h : SimInv n s) (hnm : n ≤ m) : SimInv m s where
  length_eq := h.length_eq
  pointer_lt := h.pointer_lt
  slot_pending := fun i x hx => ⟨lt_of_lt_of_le (h.slot_pending i x hx).1 hnm,
    (h.slot_pending i x hx).2⟩
  slot_inj := h.slot_inj
  log_terminal := fun c hc => by
    obtain ⟨x, h1, h2, h3⟩ := h.log_terminal c hc
    exact ⟨x, h1, lt_of_lt_of_le h2 hnm, h3⟩
  log_nodup := h.log_nodup
  units := fun e he => by
    obtain ⟨h1, h2, h3⟩ := h.units e he
    exact ⟨h1, h2, fun x hx => ⟨lt_of_lt_of_le (h3 x hx).1 hnm, (h3 x hx).2⟩⟩

theorem status_of_logged (n : Nat) (s : Sim) (h : SimInv n s) (x : Ref)
    (hx : some x ∈ s.completed_requests) : (s.heap x).status ≠ "pending" := by
  obtain ⟨y, hy, _, hst⟩ := h.log_terminal _ hx
  cases hy
  rcases hst with hst | hst <;> rw [hst] <;> decide

/-- Writing request objects that keeps the status of every request created so far
keeps the invariant. -/
theorem simInv_heap (n : Nat) (s : Sim) (heap1 : Heap) (h : SimInv n s)
    (hst : ∀ x, x < n → (heap1 x).status = (s.heap x).status) :
    SimInv n { s with heap := heap1 } where
  length_eq := h.length_eq
  pointer_lt := h.pointer_lt
  slot_pending := fun i x hx => by
    obtain ⟨h1, h2⟩ := h.slot_pending i x hx
    exact ⟨h1, by rw [hst x h1]; exact h2⟩
  slot_inj := h.slot_inj
  log_terminal := fun c hc => by
    obtain ⟨x, h1, h2, h3⟩ := h.log_terminal c hc
    exact ⟨x, h1, h2, by rw [hst x h2]; exact h3⟩
  log_nodup := h.log_nodup
  units := fun e he => by
    obtain ⟨h1, h2, h3⟩ := h.units e he
    exact ⟨h1, h2, fun x hx => ⟨(h3 x hx).1, by rw [hst x (h3 x hx).1]; exact (h3 x hx).2⟩⟩

/-- Placing the newly created request `n` keeps the invariant. -/
theorem simInv_place (n : Nat) (s : Sim) (t : ℚ) (h : SimInv n s)
    (hnew : (s.heap n).status = "pending") :
    SimInv (n + 1) (place_request s (some n) t) := by
  rcases place_request_shape s n t h.length_eq h.pointer_lt with
    ⟨_, heq⟩ | ⟨j, hj, hje, heq⟩ | ⟨x, hp, hfull, hx, heq⟩
  · rw [heq]
    exact simInv_mono n (n + 1) s h (Nat.le_succ n)
  · rw [heq]
    have hm := simInv_mono n (n + 1) s h (Nat.le_succ n)
    refine ⟨?_, ?_, ?_, ?_, hm.log_terminal, hm.log_nodup, hm.units⟩
    · show (s.buffer.requests.set j (some n)).length = _
      rw [List.length_set]; exact h.length_eq
    · exact Or.inl (Nat.mod_lt _ (by omega))
    · intro i y hy
      rcases getD_set_some_cases _ _ _ _ _ hy with ⟨_, rfl⟩ | ⟨_, hy1⟩
      · exact ⟨Nat.lt_succ_self _, hnew⟩
      · exact hm.slot_pending i y hy1
    · intro i1 i2 y h1 h2
      rcases getD_set_some_cases _ _ _ _ _ h1 with ⟨hi1, rfl⟩ | ⟨hi1, hy1⟩
      · rcases getD_set_some_cases _ _ _ _ _ h2 with ⟨hi2, _⟩ | ⟨_, hy2⟩
        · rw [hi1, hi2]
        · exact absurd (h.slot_pending i2 _ hy2).1 (lt_irrefl _)
      · rcases getD_set_some_cases _ _ _ _ _ h2 with ⟨_, rfl⟩ | ⟨_, hy2⟩
        · exact absurd (h.slot_pending i1 _ hy1).1 (lt_irrefl _)
        · exact h.slot_inj i1 i2 y hy1 hy2
  · rw [heq]
    obtain ⟨hxn, hxp⟩ := h.slot_pending _ x hx
    have hw : ∀ y, y ≠ x →
        (s.heap.write x ((s.heap x).update_status "rejected")) y = s.heap y := by
      intro y hy
      simp [Heap.write, hy]
    have hcap : 0 < s.buffer.capacity := by omega
    refine ⟨?_, ?_, ?_, ?_, ?_, ?_, ?_⟩
    · show (s.buffer.requests.set s.buffer.pointer (some n)).length = _
      rw [List.length_set]; exact h.length_eq
    · exact Or.inl (Nat.mod_lt _ hcap)
    · intro i y hy
      rcases getD_set_some_cases _ _ _ _ _ hy with ⟨_, rfl⟩ | ⟨hi, hy1⟩
      · refine ⟨Nat.lt_succ_self _, ?_⟩
        show ((s.heap.write x ((s.heap x).update_status "rejected")) y).status = _
        rw [hw y (Nat.ne_of_gt hxn)]
        exact hnew
      · obtain ⟨hyn, hyp⟩ := h.slot_pending i y hy1
        refine ⟨Nat.lt_succ_of_lt hyn, ?_⟩
        show ((s.heap.write x ((s.heap x).update_status "rejected")) y).status = _
        rw [hw y (fun hyx => hi (h.slot_inj i _ y hy1 (by rw [hyx]; exact hx)))]
        exact hyp
    · intro i1 i2 y h1 h2
      rcases getD_set_some_cases _ _ _ _ _ h1 with ⟨hi1, rfl⟩ | ⟨hi1, hy1⟩
      · rcases getD_set_some_cases _ _ _ _ _ h2 with ⟨hi2, _⟩ | ⟨_, hy2⟩
        · rw [hi1, hi2]
        · exact absurd (h.slot_pending i2 _ hy2).1 (lt_irrefl _)
      · rcases getD_set_some_cases _ _ _ _ _ h2 with ⟨_, rfl⟩ | ⟨_, hy2⟩
        · exact absurd (h.slot_pending i1 _ hy1).1 (lt_irrefl _)
        · exact h.slot_inj i1 i2 y hy1 hy2
    · intro c hc
      rcases List.mem_append.1 hc with hc | hc
      · obtain ⟨y, rfl, hyn, hyt⟩ := h.log_terminal c hc
        refine ⟨y, rfl, Nat.lt_succ_of_lt hyn, ?_⟩
        show ((s.heap.write x ((s.heap x).update_status "rejected")) y).status = _ ∨
          ((s.heap.write x ((s.heap x).update_status "rejected")) y).status = _
        rw [hw y (fun hyx => status_of_logged n s h y hc (by rw [hyx]; exact hxp))]
        exact hyt
      · rw [List.mem_singleton] at hc
        refine ⟨x, hc, Nat.lt_succ_of_lt hxn, Or.inr ?_⟩
        simp [Heap.write, Request.update_status]
    · show (s.completed_requests ++ [some x]).Nodup
      rw [List.nodup_append]
      refine ⟨h.log_nodup, List.nodup_singleton _, ?_⟩
      intro c hc hc2
      rw [List.mem_singleton] at hc2
      subst hc2
      exact status_of_logged n s h x hc hxp
    · intro e he
      obtain ⟨h1, h2, h3⟩ := h.units e he
      refine ⟨h1, h2, fun y hy => ⟨Nat.lt_succ_of_lt (h3 y hy).1, ?_⟩⟩
      show ((s.heap.write x ((s.heap x).update_status "rejected")) y).status = _
      rw [hw y (fun hyx => by
        have := (h3 y hy).2
        rw [hyx, hxp] at this
        exact absurd this (by decide))]
      exact (h3 y hy).2

theorem complete_request_fst (e : Equipment) (heap : Heap) (t : ℚ) :
    (e.complete_request heap t).1 = released_unit t e := by
  unfold Equipment.complete_request released_unit
  cases e.current_request with
  | none => rfl
  | some x =>
    simp only
    split_ifs <;> rfl

theorem complete_request_snd (e : Equipment) (heap : Heap) (t : ℚ) (a : Ref) :
    (e.complete_request heap t).2 a = heap a ∨
    (e.current_request = some a ∧
      (e.complete_request heap t).2 a =
        { heap a with completion_time := t, status := "processed" }) := by
  unfold Equipment.complete_request
  cases hc : e.current_request with
  | none => left; rfl
  | some x =>
    simp only
    split_ifs
    · by_cases hax : a = x
      · right
        subst hax
        exact ⟨rfl, by simp [Heap.write, Request.update_status]⟩
      · left
        simp [Heap.write, hax]
    · left; rfl

theorem complete_all_fst (t : ℚ) :
    ∀ (es : List Equipment) (heap : Heap),
      (complete_all t es heap).1 = es.map (released_unit t) := by
  intro es
  induction es with
  | nil => intro heap; rfl
  | cons e es ih =>
    intro heap
    simp only [complete_all, List.map_cons, ih, complete_request_fst]

/-- The completion loop changes nothing of a request object but its
`completion_time`, when the requests held by the units are already marked processed. -/
theorem complete_all_snd (t : ℚ) :
    ∀ (es : List Equipment) (heap : Heap),
      (∀ e, e ∈ es → ∀ x, e.current_request = some x → (heap x).status = "processed") →
      ∀ a, (complete_all t es heap).2 a =
        { heap a with completion_time := ((complete_all t es heap).2 a).completion_time } := by
  intro es
  induction es with
  | nil => intro heap _ a; rfl
  | cons e es ih =>
    intro heap h a
    have hstep : ∀ b, (e.complete_request heap t).2 b =
        { heap b with completion_time := ((e.complete_request heap t).2 b).completion_time } := by
      intro b
      rcases complete_request_snd e heap t b with hb | ⟨hcur, hb⟩
      · rw [hb]
      · rw [hb]
        have := h e (List.mem_cons_self _ _) b hcur
        simp only
        rw [← this]
    have hrest := ih (e.complete_request heap t).2 (by
      intro e1 he1 x hx
      rw [hstep x]
      exact h e1 (List.mem_cons_of_mem _ he1) x hx) a
    simp only [complete_all]
    rw [hrest, hstep a]

theorem busy_iff_holding_released (t : ℚ) (e : Equipment) (h : busy_iff_holding e) :
    busy_iff_holding (released_unit t e) := by
  unfold released_unit
  cases hc : e.current_request with
  | none => simpa using h
  | some x =>
    simp only
    split_ifs
    · simp [busy_iff_holding]
    · exact h

theorem released_unit_cases (t : ℚ) (e : Equipment) :
    released_unit t e = e ∨
    (t ≥ e.completion_time ∧
      released_unit t e = { e with current_request := none, status := "free" }) := by
  unfold released_unit
  cases e.current_request with
  | none => left; rfl
  | some x =>
    simp only
    split_ifs with h
    · right; exact ⟨h, rfl⟩
    · left; rfl

/-- The completion loop of an iteration keeps the invariant. -/
theorem simInv_complete (n : Nat) (s : Sim) (t : ℚ) (h : SimInv n s) :
    SimInv n (complete_units s t) := by
  have hheap := complete_all_snd t s.equipment_list s.heap
    (fun e he x hx => ((h.units e he).2.2 x hx).2)
  have hst : ∀ x, ((complete_all t s.equipment_list s.heap).2 x).status = (s.heap x).status := by
    intro x; rw [hheap x]
  have h1 := simInv_heap n s (complete_all t s.equipment_list s.heap).2 h (fun x _ => hst x)
  refine ⟨h1.length_eq, h1.pointer_lt, h1.slot_pending, h1.slot_inj, h1.log_terminal,
    h1.log_nodup, ?_⟩
  intro e1 he1
  have he1m : e1 ∈ s.equipment_list.map (released_unit t) := by
    rw [← complete_all_fst t s.equipment_list s.heap]; exact he1
  obtain ⟨e, he, rfl⟩ := List.mem_map.1 he1m
  obtain ⟨hb, hs, hreq⟩ := h1.units e he
  refine ⟨busy_iff_holding_released t e hb, ?_, ?_⟩
  · rcases released_unit_cases t e with heq | ⟨_, heq⟩
    · rw [heq]; exact hs
    · rw [heq]; exact Or.inl rfl
  · intro x hx
    rcases released_unit_cases t e with heq | ⟨_, heq⟩
    · rw [heq] at hx; exact hreq x hx
    · rw [heq] at hx; exact Option.noConfusion hx

theorem pair_units_not_free (heap : Heap) (t : ℚ) (e : Equipment) (es : List Equipment)
    (xs : List Ref) (h : ¬ e.status = "free") :
    pair_units heap t (e :: es) xs = e :: pair_units heap t es xs := by
  cases xs with
  | nil => simp [pair_units, pair_units_nil]
  | cons x xs => simp [pair_units, h]

theorem pair_units_take (heap : Heap) (t : ℚ) :
    ∀ (es : List Equipment) (xs : List Ref),
      pair_units heap t es xs = pair_units heap t es (xs.take (free_count es)) := by
  intro es
  induction es with
  | nil => intro xs; rfl
  | cons e es ih =>
    intro xs
    by_cases hfree : e.status = "free"
    · have hfc : free_count (e :: es) = free_count es + 1 := by simp [free_count, hfree]
      cases xs with
      | nil => simp
      | cons x xs =>
        rw [hfc, List.take_succ_cons]
        simp only [pair_units, hfree, if_true]
        rw [ih xs]
    · have hfc : free_count (e :: es) = free_count es := by simp [free_count, hfree]
      rw [hfc, pair_units_not_free _ _ _ _ _ hfree, pair_units_not_free _ _ _ _ _ hfree, ih xs]

theorem forall2_mem_left {P : Nat → Ref → Prop} :
    ∀ (gs : List Nat) (xs : List Ref), List.Forall₂ P gs xs →
      ∀ g, g ∈ gs → ∃ x, x ∈ xs ∧ P g x := by
  intro gs xs h
  induction h with
  | nil => intro g hg; simp at hg
  | @cons g0 x0 gr xr h0 _ ih =>
    intro g hg
    rcases List.mem_cons.1 hg with rfl | hg
    · exact ⟨x0, List.mem_cons_self _ _, h0⟩
    · obtain ⟨x, hx, hp⟩ := ih g hg
      exact ⟨x, List.mem_cons_of_mem _ hx, hp⟩

/-- The cells emptied and the requests assigned by one call of `assign_equipment`
correspond, and the cells are distinct. -/
theorem assigned_cells (s : Sim) :
    List.Forall₂ (fun g x => s.buffer.requests.getD g none = some x)
      ((smallest_group s.heap s.buffer.requests).take (free_count s.equipment_list))
      ((package_refs s.buffer.requests
        (smallest_group s.heap s.buffer.requests)).take (free_count s.equipment_list)) ∧
    ((smallest_group s.heap s.buffer.requests).take (free_count s.equipment_list)).Nodup :=
  ⟨List.forall₂_take _ (List.Forall₂.imp (fun _ _ h => h.1)
      (smallest_group_forall2 s.heap s.buffer.requests)),
   (smallest_group_nodup _ _).sublist (List.take_sublist _ _)⟩

theorem mark_processed_of_mem (heap : Heap) (t : ℚ) (xs : List Ref) (a : Ref) (h : a ∈ xs) :
    mark_processed heap t xs a =
      { heap a with wait_time := t - (heap a).arrival_time, status := "processed" } := by
  simp [mark_processed, h]

theorem mark_processed_of_not_mem (heap : Heap) (t : ℚ) (xs : List Ref) (a : Ref)
    (h : a ∉ xs) : mark_processed heap t xs a = heap a := by
  simp [mark_processed, h]

/-- One call of `assign_equipment` keeps the invariant. -/
theorem simInv_assign (n : Nat) (s : Sim) (t : ℚ) (h : SimInv n s) :
    SimInv n (assign_equipment s t) := by
  obtain ⟨hF2, hGnd⟩ := assigned_cells s
  rw [assign_equipment_closed s t]
  generalize hG : (smallest_group s.heap s.buffer.requests).take
    (free_count s.equipment_list) = Gt at hF2 hGnd
  have hpair : pair_units s.heap t s.equipment_list
      (package_refs s.buffer.requests (smallest_group s.heap s.buffer.requests)) =
      pair_units s.heap t s.equipment_list
        ((package_refs s.buffer.requests (smallest_group s.heap s.buffer.requests)).take
          (free_count s.equipment_list)) := pair_units_take _ _ _ _
  rw [hpair]
  generalize hX : (package_refs s.buffer.requests
    (smallest_group s.heap s.buffer.requests)).take (free_count s.equipment_list) = Xt at hF2
  have hXslot : ∀ x, x ∈ Xt → ∃ g, g ∈ Gt ∧ s.buffer.requests.getD g none = some x :=
    forall2_mem_right _ _ hF2
  have hXnd : Xt.Nodup :=
    forall2_nodup_right (fun g1 g2 x h1 h2 => h.slot_inj g1 g2 x h1 h2) _ _ hF2 hGnd
  have hXpending : ∀ x, x ∈ Xt → x < n ∧ (s.heap x).status = "pending" := by
    intro x hx
    obtain ⟨g, _, hg⟩ := hXslot x hx
    exact h.slot_pending g x hg
  have hslot : ∀ (i : Nat) (y : Ref),
      (clear_slots s.buffer.requests Gt).getD i none = some y →
      i ∉ Gt ∧ s.buffer.requests.getD i none = some y := by
    intro i y hy
    rw [getD_clear_slots] at hy
    by_cases hi : i ∈ Gt
    · rw [if_pos hi] at hy; exact Option.noConfusion hy
    · rw [if_neg hi] at hy; exact ⟨hi, hy⟩
  have hprocessed : ∀ y, (s.heap y).status = "processed" →
      (mark_processed s.heap t Xt y).status = "processed" := by
    intro y hy
    by_cases hm : y ∈ Xt
    · rw [mark_processed_of_mem _ _ _ _ hm]
    · rw [mark_processed_of_not_mem _ _ _ _ hm]; exact hy
  refine ⟨?_, h.pointer_lt, ?_, ?_, ?_, ?_, ?_⟩
  · show (clear_slots _ _).length = _
    rw [length_clear_slots]; exact h.length_eq
  · intro i y hy
    obtain ⟨hi, hy1⟩ := hslot i y hy
    obtain ⟨hyn, hyp⟩ := h.slot_pending i y hy1
    refine ⟨hyn, ?_⟩
    show (mark_processed s.heap t Xt y).status = _
    rw [mark_processed_of_not_mem _ _ _ _ (fun hm => by
      obtain ⟨g, hg, hgy⟩ := hXslot y hm
      exact hi (by rw [h.slot_inj i g y hy1 hgy]; exact hg))]
    exact hyp
  · intro i j y hi hj
    exact h.slot_inj i j y (hslot i y hi).2 (hslot j y hj).2
  · intro c hc
    rcases List.mem_append.1 hc with hc | hc
    · obtain ⟨y, rfl, hyn, hyt⟩ := h.log_terminal c hc
      refine ⟨y, rfl, hyn, ?_⟩
      show (mark_processed s.heap t Xt y).status = _ ∨ (mark_processed s.heap t Xt y).status = _
      by_cases hm : y ∈ Xt
      · left; rw [mark_processed_of_mem _ _ _ _ hm]
      · rw [mark_processed_of_not_mem _ _ _ _ hm]; exact hyt
    · obtain ⟨x, hx, rfl⟩ := List.mem_map.1 hc
      refine ⟨x, rfl, (hXpending x hx).1, Or.inl ?_⟩
      show (mark_processed s.heap t Xt x).status = _
      rw [mark_processed_of_mem _ _ _ _ hx]
  · show (s.completed_requests ++ Xt.map some).Nodup
    rw [List.nodup_append]
    refine ⟨h.log_nodup, hXnd.map (fun a b hab => Option.some.inj hab), ?_⟩
    intro c hc hc2
    obtain ⟨x, hx, rfl⟩ := List.mem_map.1 hc2
    exact status_of_logged n s h x hc (hXpending x hx).2
  · intro e1 he1
    obtain ⟨j, hj⟩ := List.mem_iff_getElem?.1 he1
    rcases pair_units_cases s.heap t s.equipment_list Xt j e1 hj with
      hsame | ⟨e, x, _, _, hx, heq⟩
    · obtain ⟨h1, h2, h3⟩ := h.units e1 (List.mem_iff_getElem?.2 ⟨j, hsame⟩)
      exact ⟨h1, h2, fun y hy => ⟨(h3 y hy).1, hprocessed y (h3 y hy).2⟩⟩
    · rw [heq]
      refine ⟨busy_iff_holding_assigned_unit _ _ _ _, Or.inr rfl, ?_⟩
      intro y hy
      have hyx : y = x := (Option.some.inj hy).symm
      subst hyx
      refine ⟨(hXpending y hx).1, ?_⟩
      show (mark_processed s.heap t Xt y).status = _
      rw [mark_processed_of_mem _ _ _ _ hx]

theorem occupied_set_none_of_some (rs : List (Option Ref)) :
    ∀ (j : Nat) (x : Ref), rs.getD j none = some x →
      occupied (rs.set j none) + 1 = occupied rs := by
  induction rs with
  | nil => intro j x he; simp at he
  | cons c rest ih =>
    intro j x he
    cases j with
    | zero =>
      simp only [List.getD_cons_zero] at he
      subst he
      simp [occupied]
    | succ j =>
      have := ih j x (by simpa using he)
      simp only [occupied] at this ⊢
      simp only [List.set_cons_succ, List.countP_cons]
      omega

theorem occupied_clear_slots :
    ∀ (gs : List Nat) (rs : List (Option Ref)), gs.Nodup →
      (∀ g, g ∈ gs → ∃ x, rs.getD g none = some x) →
      occupied (clear_slots rs gs) + gs.length = occupied rs := by
  intro gs
  induction gs with
  | nil => intro rs _ _; rfl
  | cons g gs ih =>
    intro rs hnd hocc
    rw [List.nodup_cons] at hnd
    have hstep : clear_slots rs (g :: gs) = clear_slots (rs.set g none) gs := rfl
    obtain ⟨x, hx⟩ := hocc g (List.mem_cons_self _ _)
    have := ih (rs.set g none) hnd.2 (by
      intro g1 hg1
      obtain ⟨y, hy⟩ := hocc g1 (List.mem_cons_of_mem _ hg1)
      refine ⟨y, ?_⟩
      have hne : g1 ≠ g := fun hgg => hnd.1 (by rw [← hgg]; exact hg1)
      rw [getD_set_other _ _ _ _ hne]
      exact hy)
    have h1 := occupied_set_none_of_some rs g x hx
    rw [hstep, List.length_cons]
    omega

/-- Placing the newly created request `n` into a buffer of capacity at least 1
conserves the requests. -/
theorem countInv_place (n : Nat) (s : Sim) (t : ℚ) (h : SimInv n s) (hc : CountInv n s)
    (hcap : 1 ≤ s.buffer.capacity) : CountInv (n + 1) (place_request s (some n) t) := by
  have hcount := hc.count
  rcases place_request_shape s n t h.length_eq h.pointer_lt with
    ⟨h0, _⟩ | ⟨j, hj, hje, heq⟩ | ⟨x, hp, hfull, hx, heq⟩
  · omega
  · rw [heq]
    have hjl : j < s.buffer.requests.length := by rw [h.length_eq]; exact hj
    constructor
    · show n + 1 = s.completed_requests.length + occupied (s.buffer.requests.set j (some n))
      rw [occupied_set_some_of_empty _ _ _ hjl hje]
      omega
    · intro y hy
      show some y ∈ s.completed_requests ∨
        ∃ i, (s.buffer.requests.set j (some n)).getD i none = some y
      rcases Nat.lt_succ_iff_lt_or_eq.1 hy with hlt | heq1
      · rcases hc.present y hlt with hl | ⟨i, hi⟩
        · exact Or.inl hl
        · refine Or.inr ⟨i, ?_⟩
          rw [getD_set_other _ _ _ _ (fun hij => by
            rw [hij, hje] at hi; exact Option.noConfusion hi)]
          exact hi
      · refine Or.inr ⟨j, ?_⟩
        rw [getD_set_same _ _ _ hjl, heq1]
  · rw [heq]
    have hpl : s.buffer.pointer < s.buffer.requests.length := by rw [h.length_eq]; exact hp
    constructor
    · show n + 1 = (s.completed_requests ++ [some x]).length +
        occupied (s.buffer.requests.set s.buffer.pointer (some n))
      rw [occupied_set_some_of_some _ _ _ _ hx, List.length_append, List.length_singleton]
      omega
    · intro y hy
      show some y ∈ s.completed_requests ++ [some x] ∨
        ∃ i, (s.buffer.requests.set s.buffer.pointer (some n)).getD i none = some y
      rcases Nat.lt_succ_iff_lt_or_eq.1 hy with hlt | heq1
      · rcases hc.present y hlt with hl | ⟨i, hi⟩
        · exact Or.inl (List.mem_append_left _ hl)
        · by_cases hip : i = s.buffer.pointer
          · left
            rw [hip, hx] at hi
            rw [← hi]
            exact List.mem_append_right _ (List.mem_singleton_self _)
          · refine Or.inr ⟨i, ?_⟩
            rw [getD_set_other _ _ _ _ hip]
            exact hi
      · refine Or.inr ⟨s.buffer.pointer, ?_⟩
        rw [getD_set_same _ _ _ hpl, heq1]

/-- One call of `assign_equipment` conserves the requests. -/
theorem countInv_assign (n : Nat) (s : Sim) (t : ℚ) (hc : CountInv n s) :
    CountInv n (assign_equipment s t) := by
  obtain ⟨hF2, hGnd⟩ := assigned_cells s
  have hcount := hc.count
  rw [assign_equipment_closed s t]
  generalize (smallest_group s.heap s.buffer.requests).take
    (free_count s.equipment_list) = Gt at hF2 hGnd
  generalize (package_refs s.buffer.requests
    (smallest_group s.heap s.buffer.requests)).take (free_count s.equipment_list) = Xt at hF2
  have hlen : Gt.length = Xt.length := List.Forall₂.length_eq hF2
  have hocc := occupied_clear_slots Gt s.buffer.requests hGnd (by
    intro g hg
    obtain ⟨x, _, hx⟩ := forall2_mem_left _ _ hF2 g hg
    exact ⟨x, hx⟩)
  constructor
  · show n = (s.completed_requests ++ Xt.map some).length +
      occupied (clear_slots s.buffer.requests Gt)
    rw [List.length_append, List.length_map]
    omega
  · intro y hy
    show some y ∈ s.completed_requests ++ Xt.map some ∨
      ∃ i, (clear_slots s.buffer.requests Gt).getD i none = some y
    rcases hc.present y hy with hl | ⟨i, hi⟩
    · exact Or.inl (List.mem_append_left _ hl)
    · by_cases hig : i ∈ Gt
      · left
        obtain ⟨x, hx, hgx⟩ := forall2_mem_left _ _ hF2 i hig
        rw [hi] at hgx
        cases hgx
        exact List.mem_append_right _ (List.mem_map.2 ⟨y, hx, rfl⟩)
      · refine Or.inr ⟨i, ?_⟩
        rw [getD_clear_slots, if_neg hig]
        exact hi

theorem place_request_capacity (s : Sim) (r : Ref) (t : ℚ)
    (hlen : s.buffer.requests.length = s.buffer.capacity)
    (hptr : s.buffer.pointer < s.buffer.capacity ∨ s.buffer.capacity = 0) :
    (place_request s (some r) t).buffer.capacity = s.buffer.capacity := by
  rcases place_request_shape s r t hlen hptr with
    ⟨_, heq⟩ | ⟨j, _, _, heq⟩ | ⟨x, _, _, _, heq⟩ <;> rw [heq]

theorem assign_equipment_capacity (s : Sim) (t : ℚ) :
    (assign_equipment s t).buffer.capacity = s.buffer.capacity := by
  rw [assign_equipment_closed s t]

theorem simInv_initial (cfg : Config) (types : Nat → String) (heap : Heap) :
    SimInv 0 (initial_run cfg types heap).sim := by
  have hnone : ∀ i, (initial_run cfg types heap).sim.buffer.requests.getD i none = none :=
    ((is_simulation_complete_iff _ _).1 (initial_run_complete cfg types heap)).1
  refine ⟨?_, ?_, ?_, ?_, ?_, ?_, ?_⟩
  · simp [initial_run, Buffer.new]
  · rcases Nat.eq_zero_or_pos cfg.buffer_size with h | h
    · exact Or.inr h
    · exact Or.inl h
  · intro i x hx
    rw [hnone i] at hx
    exact Option.noConfusion hx
  · intro i j x hx
    rw [hnone i] at hx
    exact Option.noConfusion hx
  · intro c hc
    simp [initial_run] at hc
  · simp [initial_run]
  · intro e he
    simp only [initial_run, initial_equipment, List.mem_map, List.mem_range] at he
    obtain ⟨i, _, rfl⟩ := he
    simp [busy_iff_holding, Equipment.new]

theorem countInv_initial (cfg : Config) (types : Nat → String) (heap : Heap) :
    CountInv 0 (initial_run cfg types heap).sim := by
  constructor
  · simp only [initial_run, Buffer.new, occupied, List.length_nil, Nat.zero_add]
    rw [List.countP_eq_zero.2]
    intro c hc
    rw [List.eq_of_mem_replicate hc]
    simp
  · intro x hx
    exact absurd hx (Nat.not_lt_zero _)

theorem runInv_initial (cfg : Config) (types : Nat → String) (heap : Heap) :
    RunInv cfg (initial_run cfg types heap) :=
  ⟨simInv_initial cfg types heap, Nat.zero_le _, rfl⟩

/-- The sim with the newly created request object written at address `n`. -/
theorem simInv_new_object (n : Nat) (s : Sim) (q : Request) (h : SimInv n s) :
    SimInv n { s with heap := s.heap.write n q } :=
  simInv_heap n s _ h (fun x hx => by
    have hne : x ≠ n := Nat.ne_of_lt hx
    simp [Heap.write, hne])

theorem simInv_generate_and_place (cfg : Config) (d : Draws) (st : Run) (h : RunInv cfg st) :
    SimInv (generate_and_place cfg d st).processed_requests (generate_and_place cfg d st).sim ∧
    (generate_and_place cfg d st).processed_requests ≤ cfg.total_requests ∧
    (generate_and_place cfg d st).sim.buffer.capacity = cfg.buffer_size := by
  unfold generate_and_place
  split_ifs with hlt
  · have h1 := simInv_new_object st.processed_requests st.sim
      (((initial_projects cfg).getD d.project_index (Project.new 0)).generate_request
        st.current_time d.equipment_type d.requested_period) h.sim
    refine ⟨simInv_place _ _ st.current_time h1 ?_, hlt, ?_⟩
    · simp [Heap.write, Project.generate_request, Request.new]
    · exact (place_request_capacity _ _ st.current_time h1.length_eq h1.pointer_lt).trans
        h.capacity
  · exact ⟨h.sim, h.budget, h.capacity⟩

theorem runInv_tick (cfg : Config) (d : Draws) (st : Run) (h : RunInv cfg st) :
    RunInv cfg (tick cfg d st) := by
  obtain ⟨h1, h2, h3⟩ := simInv_generate_and_place cfg d st h
  refine ⟨simInv_assign _ _ _ (simInv_complete _ _ _ h1), h2, ?_⟩
  show (assign_equipment _ _).buffer.capacity = _
  rw [assign_equipment_capacity]
  exact h3

theorem runInv_run_loop (cfg : Config) :
    ∀ (ds : List Draws) (st : Run), RunInv cfg st → RunInv cfg (run_loop cfg ds st) := by
  intro ds
  induction ds with
  | nil => intro st h; exact h
  | cons d ds ih =>
    intro st h
    simp only [run_loop]
    split_ifs
    · exact ih _ (runInv_tick cfg d st h)
    · exact h

theorem countInv_generate_and_place (cfg : Config) (d : Draws) (st : Run)
    (h : RunInv cfg st) (hc : CountInv st.processed_requests st.sim)
    (hcap : 1 ≤ cfg.buffer_size) :
    CountInv (generate_and_place cfg d st).processed_requests
      (generate_and_place cfg d st).sim := by
  unfold generate_and_place
  split_ifs with hlt
  · have h1 := simInv_new_object st.processed_requests st.sim
      (((initial_projects cfg).getD d.project_index (Project.new 0)).generate_request
        st.current_time d.equipment_type d.requested_period) h.sim
    exact countInv_place _ _ st.current_time h1 ⟨hc.count, hc.present⟩
      (by show 1 ≤ st.sim.buffer.capacity; rw [h.capacity]; exact hcap)
  · exact hc

theorem countInv_tick (cfg : Config) (d : Draws) (st : Run)
    (h : RunInv cfg st) (hc : CountInv st.processed_requests st.sim)
    (hcap : 1 ≤ cfg.buffer_size) :
    CountInv (tick cfg d st).processed_requests (tick cfg d st).sim := by
  have h1 := countInv_generate_and_place cfg d st h hc hcap
  exact countInv_assign _ _ _ ⟨h1.count, h1.present⟩

theorem countInv_run_loop (cfg : Config) (hcap : 1 ≤ cfg.buffer_size) :
    ∀ (ds : List Draws) (st : Run), RunInv cfg st →
      CountInv st.processed_requests st.sim →
      CountInv (run_loop cfg ds st).processed_requests (run_loop cfg ds st).sim := by
  intro ds
  induction ds with
  | nil => intro st _ hc; exact hc
  | cons d ds ih =>
    intro st h hc
    simp only [run_loop]
    split_ifs
    · exact ih _ (runInv_tick cfg d st h) (countInv_tick cfg d st h hc hcap)
    · exact hc

theorem simInv_tick_states (cfg : Config) (d : Draws) (st : Run) (h : RunInv cfg st) :
    ∀ s, s ∈ tick_states cfg d st →
      SimInv (generate_and_place cfg d st).processed_requests s := by
  obtain ⟨h1, _, _⟩ := simInv_generate_and_place cfg d st h
  intro s hs
  simp only [tick_states, List.mem_cons, List.mem_singleton, List.not_mem_nil, or_false] at hs
  rcases hs with rfl | rfl | rfl
  · exact h1
  · exact simInv_complete _ _ _ h1
  · exact simInv_assign _ _ _ (simInv_complete _ _ _ h1)

theorem simInv_log_terminal (n : Nat) (s : Sim) (h : SimInv n s) : log_terminal s := by
  intro c hc
  obtain ⟨x, rfl, _, hst⟩ := h.log_terminal c hc
  exact ⟨x, rfl, hst, status_of_logged n s h x hc⟩

theorem simInv_buffer_pending (n : Nat) (s : Sim) (h : SimInv n s) : buffer_pending s :=
  fun i x hx => (h.slot_pending i x hx).2

theorem simInv_held_processed (n : Nat) (s : Sim) (h : SimInv n s) : held_processed s :=
  fun e x he hx => (((h.units e he).2.2) x hx).2

theorem place_request_log (s : Sim) (r : Option Ref) (t : ℚ) :
    ∃ l, (place_request s r t).completed_requests = s.completed_requests ++ l := by
  unfold place_request
  simp only
  split_ifs
  · split
    · exact ⟨_, rfl⟩
    · exact ⟨[], by simp⟩
  · exact ⟨[], by simp⟩

theorem generate_and_place_log (cfg : Config) (d : Draws) (st : Run) :
    ∃ l, (generate_and_place cfg d st).sim.completed_requests =
      st.sim.completed_requests ++ l := by
  unfold generate_and_place
  split_ifs
  · exact place_request_log _ _ st.current_time
  · exact ⟨[], by simp⟩

theorem assign_equipment_log (s : Sim) (t : ℚ) :
    ∃ l, (assign_equipment s t).completed_requests = s.completed_requests ++ l := by
  rw [assign_equipment_closed s t]
  exact ⟨_, rfl⟩

theorem status_stable_generate_and_place (cfg : Config) (d : Draws) (st : Run)
    (h : RunInv cfg st) (x : Ref) (hx : x < st.processed_requests)
    (hterm : (st.sim.heap x).status ≠ "pending") :
    ((generate_and_place cfg d st).sim.heap x).status = (st.sim.heap x).status := by
  unfold generate_and_place
  split_ifs with hlt
  · have h1 := simInv_new_object st.processed_requests st.sim
      (((initial_projects cfg).getD d.project_index (Project.new 0)).generate_request
        st.current_time d.equipment_type d.requested_period) h.sim
    have hxn : x ≠ st.processed_requests := Nat.ne_of_lt hx
    have hx1 : ∀ (q : Request), (st.sim.heap.write st.processed_requests q) x = st.sim.heap x := by
      intro q; simp [Heap.write, hxn]
    rcases place_request_shape _ st.processed_requests st.current_time h1.length_eq
      h1.pointer_lt with ⟨_, heq⟩ | ⟨j, _, _, heq⟩ | ⟨y, _, _, hy, heq⟩
    · simp only [heq, hx1]
    · simp only [heq, hx1]
    · simp only [heq]
      have hyp : ((st.sim.heap.write st.processed_requests
          (((initial_projects cfg).getD d.project_index (Project.new 0)).generate_request
            st.current_time d.equipment_type d.requested_period)) y).status = "pending" :=
        (h1.slot_pending _ y hy).2
      have hxy : x ≠ y := by
        intro hxy
        apply hterm
        rw [← hx1 (((initial_projects cfg).getD d.project_index (Project.new 0)).generate_request
          st.current_time d.equipment_type d.requested_period), hxy]
        exact hyp
      simp [Heap.write, hxy, hxn]
  · rfl

theorem status_stable_complete (n : Nat) (s : Sim) (t : ℚ) (h : SimInv n s) (x : Ref) :
    ((complete_units s t).heap x).status = (s.heap x).status := by
  have hheap := complete_all_snd t s.equipment_list s.heap
    (fun e he y hy => ((h.units e he).2.2 y hy).2) x
  show ((complete_all t s.equipment_list s.heap).2 x).status = _
  rw [hheap]

theorem status_stable_assign (n : Nat) (s : Sim) (t : ℚ) (h : SimInv n s) (x : Ref)
    (hterm : (s.heap x).status ≠ "pending") :
    ((assign_equipment s t).heap x).status = (s.heap x).status := by
  obtain ⟨hF2, _⟩ := assigned_cells s
  rw [assign_equipment_closed s t]
  show (mark_processed _ _ _ x).status = _
  rw [mark_processed_of_not_mem]
  intro hmem
  obtain ⟨g, _, hg⟩ := forall2_mem_right _ _ hF2 x hmem
  exact hterm (h.slot_pending g x hg).2

theorem status_step_generate_and_place (cfg : Config) (d : Draws) (st : Run)
    (h : RunInv cfg st) (x : Ref) (hx : x < st.processed_requests) :
    ((generate_and_place cfg d st).sim.heap x).status = (st.sim.heap x).status ∨
    ((st.sim.heap x).status = "pending" ∧
      ((generate_and_place cfg d st).sim.heap x).status = "rejected") := by
  unfold generate_and_place
  split_ifs with hlt
  · have h1 := simInv_new_object st.processed_requests st.sim
      (((initial_projects cfg).getD d.project_index (Project.new 0)).generate_request
        st.current_time d.equipment_type d.requested_period) h.sim
    have hxn : x ≠ st.processed_requests := Nat.ne_of_lt hx
    have hx1 : ∀ (q : Request), (st.sim.heap.write st.processed_requests q) x = st.sim.heap x := by
      intro q; simp [Heap.write, hxn]
    rcases place_request_shape _ st.processed_requests st.current_time h1.length_eq
      h1.pointer_lt with ⟨_, heq⟩ | ⟨j, _, _, heq⟩ | ⟨y, _, _, hy, heq⟩
    · left; simp only [heq, hx1]
    · left; simp only [heq, hx1]
    · have hyp : ((st.sim.heap.write st.processed_requests
          (((initial_projects cfg).getD d.project_index (Project.new 0)).generate_request
            st.current_time d.equipment_type d.requested_period)) y).status = "pending" :=
        (h1.slot_pending _ y hy).2
      by_cases hxy : x = y
      · right
        subst hxy
        rw [hx1] at hyp
        refine ⟨hyp, ?_⟩
        simp only [heq]
        simp [Heap.write, Request.update_status]
      · left
        simp only [heq]
        simp [Heap.write, hxy, hxn]
  · left; rfl

theorem status_step_assign (n : Nat) (s : Sim) (t : ℚ) (h : SimInv n s) (x : Ref) :
    ((assign_equipment s t).heap x).status = (s.heap x).status ∨
    ((s.heap x).status = "pending" ∧ ((assign_equipment s t).heap x).status = "processed") := by
  obtain ⟨hF2, _⟩ := assigned_cells s
  rw [assign_equipment_closed s t]
  by_cases hmem : x ∈ (package_refs s.buffer.requests
      (smallest_group s.heap s.buffer.requests)).take (free_count s.equipment_list)
  · right
    obtain ⟨g, _, hg⟩ := forall2_mem_right _ _ hF2 x hmem
    refine ⟨(h.slot_pending g x hg).2, ?_⟩
    show (mark_processed _ _ _ x).status = _
    rw [mark_processed_of_mem _ _ _ _ hmem]
  · left
    show (mark_processed _ _ _ x).status = _
    rw [mark_processed_of_not_mem _ _ _ _ hmem]

/-- The status of a request created before an iteration, after any of the three
operations of the iteration: unchanged, or changed from "pending" to a terminal
value. -/
theorem status_step_tick_states (cfg : Config) (d : Draws) (st : Run) (h : RunInv cfg st)
    (x : Ref) (hx : x < st.processed_requests) :
    ∀ s, s ∈ tick_states cfg d st →
      (s.heap x).status = (st.sim.heap x).status ∨
      ((st.sim.heap x).status = "pending" ∧
        ((s.heap x).status = "processed" ∨ (s.heap x).status = "rejected")) := by
  obtain ⟨h1, _, _⟩ := simInv_generate_and_place cfg d st h
  have h2 := simInv_complete _ _ st.current_time h1
  have ha := status_step_generate_and_place cfg d st h x hx
  have hb := status_stable_complete _ _ st.current_time h1 x
  have hc := status_step_assign _ _ st.current_time h2 x
  intro s hs
  simp only [tick_states, List.mem_cons, List.mem_singleton, List.not_mem_nil, or_false] at hs
  rcases hs with rfl | rfl | rfl
  · rcases ha with ha | ⟨ha1, ha2⟩
    · exact Or.inl ha
    · exact Or.inr ⟨ha1, Or.inr ha2⟩
  · rw [hb]
    rcases ha with ha | ⟨ha1, ha2⟩
    · exact Or.inl ha
    · exact Or.inr ⟨ha1, Or.inr ha2⟩
  · show ((assign_equipment _ _).heap x).status = _ ∨ _ ∧
      (((assign_equipment _ _).heap x).status = _ ∨ ((assign_equipment _ _).heap x).status = _)
    rcases hc with hc | ⟨hc1, hc2⟩
    · rw [hc, hb]
      rcases ha with ha | ⟨ha1, ha2⟩
      · exact Or.inl ha
      · exact Or.inr ⟨ha1, Or.inr ha2⟩
    · rw [hb] at hc1
      rcases ha with ha | ⟨_, ha2⟩
      · exact Or.inr ⟨by rw [← ha]; exact hc1, Or.inl hc2⟩
      · rw [ha2] at hc1
        exact absurd hc1 (by decide)

/-- C14: over every run of the tick sequence from the initial state (empty log), at
the head of every iteration and after each of its three operations, every request in
the log has status "processed" or "rejected" (none is "pending") and every request in
a buffer slot has status "pending"; and the log is append-only: the placement and
`assign_equipment` leave the previous log as an initial segment of the new one, the
completion loop leaves the log as it is. -/
theorem log_append_only_and_terminal (cfg : Config) (types : Nat → String) (heap : Heap)
    (ds : List Draws) (d : Draws) :
    (initial_run cfg types heap).sim.completed_requests = [] ∧
    (log_terminal (run_loop cfg ds (initial_run cfg types heap)).sim ∧
      buffer_pending (run_loop cfg ds (initial_run cfg types heap)).sim) ∧
    (∀ s, s ∈ tick_states cfg d (run_loop cfg ds (initial_run cfg types heap)) →
      log_terminal s ∧ buffer_pending s) ∧
    (∃ l, (generate_and_place cfg d
        (run_loop cfg ds (initial_run cfg types heap))).sim.completed_requests =
      (run_loop cfg ds (initial_run cfg types heap)).sim.completed_requests ++ l) ∧
    (complete_units (generate_and_place cfg d
        (run_loop cfg ds (initial_run cfg types heap))).sim
      (run_loop cfg ds (initial_run cfg types heap)).current_time).completed_requests =
      (generate_and_place cfg d
        (run_loop cfg ds (initial_run cfg types heap))).sim.completed_requests ∧
    (∃ l, (tick cfg d (run_loop cfg ds (initial_run cfg types heap))).sim.completed_requests =
      (complete_units (generate_and_place cfg d
          (run_loop cfg ds (initial_run cfg types heap))).sim
        (run_loop cfg ds (initial_run cfg types heap)).current_time).completed_requests ++ l) ∧
    (∀ (s : Sim) (r : Option Ref) (t : ℚ),
      ∃ l, (place_request s r t).completed_requests = s.completed_requests ++ l) ∧
    (∀ (s : Sim) (t : ℚ),
      ∃ l, (assign_equipment s t).completed_requests = s.completed_requests ++ l) := by
  have h := runInv_run_loop cfg ds _ (runInv_initial cfg types heap)
  generalize run_loop cfg ds (initial_run cfg types heap) = st at h
  have hstates := simInv_tick_states cfg d st h
  refine ⟨rfl, ⟨simInv_log_terminal _ _ h.sim, simInv_buffer_pending _ _ h.sim⟩, ?_,
    generate_and_place_log cfg d st, rfl, assign_equipment_log _ _,
    place_request_log, assign_equipment_log⟩
  intro s hs
  exact ⟨simInv_log_terminal _ _ (hstates s hs), simInv_buffer_pending _ _ (hstates s hs)⟩

theorem occupied_eq_zero (rs : List (Option Ref)) (h : ∀ i, rs.getD i none = none) :
    occupied rs = 0 := by
  unfold occupied
  rw [List.countP_eq_zero]
  intro c hc
  obtain ⟨i, hi⟩ := List.mem_iff_getElem?.1 hc
  have := h i
  simp only [List.getD_eq_getElem?_getD, hi, Option.getD_some] at this
  simp [this]

/-- C19: over every run of the tick sequence of `run_simulation` with buffer capacity
at least 1, after every tick the number of requests generated so far equals the length
of the completion log plus the number of occupied buffer slots, every request
generated so far is in the log or in the buffer, and the log contains no request
twice; hence when the loop exits, the number of requests generated is the arrival
budget, the log has exactly that many entries, and its entries are exactly the
requests generated (the objects at addresses below the budget), each once. -/
theorem requests_conserved (cfg : Config) (types : Nat → String) (heap : Heap)
    (ds : List Draws) (hcap : 1 ≤ cfg.buffer_size) :
    (run_loop cfg ds (initial_run cfg types heap)).processed_requests =
      (run_loop cfg ds (initial_run cfg types heap)).sim.completed_requests.length +
        occupied (run_loop cfg ds (initial_run cfg types heap)).sim.buffer.requests ∧
    (∀ x, x < (run_loop cfg ds (initial_run cfg types heap)).processed_requests →
      some x ∈ (run_loop cfg ds (initial_run cfg types heap)).sim.completed_requests ∨
      ∃ i, (run_loop cfg ds (initial_run cfg types heap)).sim.buffer.requests.getD i none =
        some x) ∧
    (run_loop cfg ds (initial_run cfg types heap)).sim.completed_requests.Nodup ∧
    (loop_condition cfg (run_loop cfg ds (initial_run cfg types heap)) = false →
      (run_loop cfg ds (initial_run cfg types heap)).processed_requests =
        cfg.total_requests ∧
      (run_loop cfg ds (initial_run cfg types heap)).sim.completed_requests.length =
        cfg.total_requests ∧
      ∀ c, c ∈ (run_loop cfg ds (initial_run cfg types heap)).sim.completed_requests ↔
        ∃ x, x < cfg.total_requests ∧ c = some x) := by
  have h := runInv_run_loop cfg ds _ (runInv_initial cfg types heap)
  have hc := countInv_run_loop cfg hcap ds _ (runInv_initial cfg types heap)
    (countInv_initial cfg types heap)
  generalize run_loop cfg ds (initial_run cfg types heap) = st at h hc
  refine ⟨hc.count, hc.present, h.sim.log_nodup, ?_⟩
  intro hexit
  simp only [loop_condition, Bool.or_eq_false_iff, decide_eq_false_iff_not,
    Bool.not_eq_false'] at hexit
  obtain ⟨hge, hcomplete⟩ := hexit
  have hn : st.processed_requests = cfg.total_requests :=
    le_antisymm h.budget (not_lt.1 hge)
  have hnone := ((is_simulation_complete_iff _ _).1 hcomplete).1
  have hcount := hc.count
  rw [occupied_eq_zero _ hnone] at hcount
  refine ⟨hn, by omega, ?_⟩
  intro c
  constructor
  · intro hmem
    obtain ⟨x, hx, hxn, _⟩ := h.sim.log_terminal c hmem
    exact ⟨x, by rw [← hn]; exact hxn, hx⟩
  · rintro ⟨x, hx, rfl⟩
    rcases hc.present x (by rw [hn]; exact hx) with hl | ⟨i, hi⟩
    · exact hl
    · rw [hnone i] at hi
      exact Option.noConfusion hi

theorem requests_conserved_witness :
    1 ≤ demo_config.buffer_size ∧
    (run_loop demo_config demo_draws
      (initial_run demo_config (fun _ => "crane") demo_heap)).processed_requests =
      (run_loop demo_config demo_draws
        (initial_run demo_config (fun _ => "crane") demo_heap)).sim.completed_requests.length +
        occupied (run_loop demo_config demo_draws
          (initial_run demo_config (fun _ => "crane") demo_heap)).sim.buffer.requests ∧
    (run_loop demo_config demo_draws
      (initial_run demo_config (fun _ => "crane") demo_heap)).sim.completed_requests.Nodup :=
  ⟨by decide,
   (requests_conserved demo_config (fun _ => "crane") demo_heap demo_draws (by decide)).1,
   (requests_conserved demo_config (fun _ => "crane") demo_heap demo_draws (by decide)).2.2.1⟩

theorem timeInv_mono (t t1 : ℚ) (s : Sim) (h : TimeInv t s) (ht : t ≤ t1) : TimeInv t1 s where
  slot_period := h.slot_period
  unit_time := fun e he =>
    ⟨(h.unit_time e he).1, (h.unit_time e he).2.1,
      fun hf => le_trans ((h.unit_time e he).2.2 hf) ht⟩

theorem timeInv_initial (cfg : Config) (types : Nat → String) (heap : Heap) :
    TimeInv 0 (initial_run cfg types heap).sim := by
  have hnone : ∀ i, (initial_run cfg types heap).sim.buffer.requests.getD i none = none :=
    ((is_simulation_complete_iff _ _).1 (initial_run_complete cfg types heap)).1
  constructor
  · intro i x hx
    rw [hnone i] at hx
    exact Option.noConfusion hx
  · intro e he
    simp only [initial_run, initial_equipment, List.mem_map, List.mem_range] at he
    obtain ⟨i, _, rfl⟩ := he
    simp [Equipment.new]

theorem timeInv_generate_and_place (cfg : Config) (d : Draws) (st : Run) (t : ℚ)
    (h : RunInv cfg st) (ht : TimeInv t st.sim) (hd : 0 ≤ d.requested_period) :
    TimeInv t (generate_and_place cfg d st).sim := by
  unfold generate_and_place
  split_ifs with hlt
  · have h1 := simInv_new_object st.processed_requests st.sim
      (((initial_projects cfg).getD d.project_index (Project.new 0)).generate_request
        st.current_time d.equipment_type d.requested_period) h.sim
    have hold : ∀ (i : Nat) (y : Ref), st.sim.buffer.requests.getD i none = some y →
        0 ≤ ((st.sim.heap.write st.processed_requests
          (((initial_projects cfg).getD d.project_index (Project.new 0)).generate_request
            st.current_time d.equipment_type d.requested_period)) y).requested_period := by
      intro i y hy
      have hne : y ≠ st.processed_requests := Nat.ne_of_lt (h.sim.slot_pending i y hy).1
      simp only [Heap.write, hne, if_false]
      exact ht.slot_period i y hy
    have hnew : 0 ≤ ((st.sim.heap.write st.processed_requests
          (((initial_projects cfg).getD d.project_index (Project.new 0)).generate_request
            st.current_time d.equipment_type d.requested_period))
          st.processed_requests).requested_period := by
      simp only [Heap.write, if_true, Project.generate_request, Request.new]
      exact hd
    rcases place_request_shape _ st.processed_requests st.current_time h1.length_eq
      h1.pointer_lt with ⟨_, heq⟩ | ⟨j, _, _, heq⟩ | ⟨y, _, _, hy, heq⟩
    · simp only [heq]
      exact ⟨hold, ht.unit_time⟩
    · simp only [heq]
      refine ⟨?_, ht.unit_time⟩
      intro i z hz
      rcases getD_set_some_cases _ _ _ _ _ hz with ⟨_, rfl⟩ | ⟨_, hz1⟩
      · exact hnew
      · exact hold i z hz1
    · simp only [heq]
      refine ⟨?_, ht.unit_time⟩
      intro i z hz
      have hper : ∀ (hp : Heap) (a : Ref),
          ((hp.write y ((hp y).update_status "rejected")) a).requested_period =
            (hp a).requested_period := by
        intro hp a
        by_cases hay : a = y
        · subst hay; simp [Heap.write, Request.update_status]
        · simp [Heap.write, hay]
      show 0 ≤ ((Heap.write _ y _) z).requested_period
      rw [hper]
      rcases getD_set_some_cases _ _ _ _ _ hz with ⟨_, rfl⟩ | ⟨_, hz1⟩
      · exact hnew
      · exact hold i z hz1
  · exact ht

theorem timeInv_complete (n : Nat) (s : Sim) (t : ℚ) (h : SimInv n s) (ht : TimeInv t s) :
    TimeInv t (complete_units s t) := by
  have hheap := complete_all_snd t s.equipment_list s.heap
    (fun e he y hy => ((h.units e he).2.2 y hy).2)
  constructor
  · intro i x hx
    show 0 ≤ ((complete_all t s.equipment_list s.heap).2 x).requested_period
    rw [hheap x]
    exact ht.slot_period i x hx
  · intro e1 he1
    have he1m : e1 ∈ s.equipment_list.map (released_unit t) := by
      rw [← complete_all_fst t s.equipment_list s.heap]; exact he1
    obtain ⟨e, he, rfl⟩ := List.mem_map.1 he1m
    obtain ⟨hb0, hbc, hfree⟩ := ht.unit_time e he
    rcases released_unit_cases t e with heq | ⟨hdue, heq⟩
    · rw [heq]; exact ⟨hb0, hbc, hfree⟩
    · rw [heq]; exact ⟨hb0, hbc, fun _ => hdue⟩

theorem timeInv_assign (s : Sim) (t : ℚ) (ht : TimeInv t s) :
    TimeInv t (assign_equipment s t) := by
  rw [assign_equipment_closed s t]
  constructor
  · intro i x hx
    have hx1 : (clear_slots s.buffer.requests _).getD i none = some x := hx
    rw [getD_clear_slots] at hx1
    split_ifs at hx1
    show 0 ≤ (mark_processed _ _ _ x).requested_period
    rw [mark_processed_requested_period]
    exact ht.slot_period i x hx1
  · intro e1 he1
    obtain ⟨j, hj⟩ := List.mem_iff_getElem?.1 he1
    rcases pair_units_cases s.heap t s.equipment_list _ j e1 hj with
      hsame | ⟨e, x, he, hfree, hx, heq⟩
    · exact ht.unit_time e1 (List.mem_iff_getElem?.2 ⟨j, hsame⟩)
    · obtain ⟨hb0, hbc, hf⟩ := ht.unit_time e (List.mem_iff_getElem?.2 ⟨j, he⟩)
      obtain ⟨i, hi, _⟩ := (mem_package_refs s.heap s.buffer.requests x).1 hx
      have hper := ht.slot_period i x hi
      have hct := hf hfree
      rw [heq]
      refine ⟨?_, ?_, ?_⟩
      · simp only [assigned_unit]; linarith
      · simp only [assigned_unit]; linarith
      · intro hst
        simp [assigned_unit] at hst

/-- A unit changed by `assign_equipment` at time `t` was free, and so, under the
timing facts, its previous `completion_time` is not after `t`. -/
theorem assigned_after_completion (s : Sim) (t : ℚ) (ht : TimeInv t s) (j : Nat)
    (e e1 : Equipment) (he : s.equipment_list[j]? = some e)
    (he1 : (assign_equipment s t).equipment_list[j]? = some e1) (hne : e1 ≠ e) :
    e.status = "free" ∧ e.completion_time ≤ t ∧
    ∃ x, e1 = assigned_unit s.heap t e x ∧ e1.completion_time = t + (s.heap x).requested_period := by
  rw [assign_equipment_closed s t] at he1
  rcases pair_units_cases s.heap t s.equipment_list _ j e1 he1 with
    hsame | ⟨e2, x, he2, hfree, _, heq⟩
  · rw [he] at hsame
    exact absurd (Option.some.inj hsame).symm hne
  · rw [he] at he2
    cases he2
    exact ⟨hfree, (ht.unit_time e (List.mem_iff_getElem?.2 ⟨j, he⟩)).2.2 hfree,
      x, heq, by rw [heq]; rfl⟩

theorem timeInv_tick (cfg : Config) (d : Draws) (st : Run) (h : RunInv cfg st)
    (ht : TimeInv st.current_time st.sim) (hd : 0 ≤ d.time_step ∧ 0 ≤ d.requested_period) :
    TimeInv (tick cfg d st).current_time (tick cfg d st).sim := by
  obtain ⟨h1, _, _⟩ := simInv_generate_and_place cfg d st h
  have t1 := timeInv_generate_and_place cfg d st st.current_time h ht hd.2
  have t2 := timeInv_complete _ _ st.current_time h1 t1
  have t3 := timeInv_assign _ st.current_time t2
  exact timeInv_mono st.current_time (st.current_time + d.time_step) _ t3 (by linarith [hd.1])

theorem timeInv_run_loop (cfg : Config) :
    ∀ (ds : List Draws) (st : Run),
      (∀ d, d ∈ ds → 0 ≤ d.time_step ∧ 0 ≤ d.requested_period) →
      RunInv cfg st → TimeInv st.current_time st.sim →
      TimeInv (run_loop cfg ds st).current_time (run_loop cfg ds st).sim := by
  intro ds
  induction ds with
  | nil => intro st _ _ ht; exact ht
  | cons d ds ih =>
    intro st hds h ht
    simp only [run_loop]
    split_ifs
    · exact ih _ (fun d1 hd1 => hds d1 (List.mem_cons_of_mem _ hd1))
        (runInv_tick cfg d st h)
        (timeInv_tick cfg d st h ht (hds d (List.mem_cons_self _ _)))
    · exact ht

theorem current_time_nonneg (cfg : Config) :
    ∀ (ds : List Draws) (st : Run),
      (∀ d, d ∈ ds → 0 ≤ d.time_step ∧ 0 ≤ d.requested_period) →
      0 ≤ st.current_time → 0 ≤ (run_loop cfg ds st).current_time := by
  intro ds
  induction ds with
  | nil => intro st _ ht; exact ht
  | cons d ds ih =>
    intro st hds ht
    simp only [run_loop]
    split_ifs
    · apply ih _ (fun d1 hd1 => hds d1 (List.mem_cons_of_mem _ hd1))
      show 0 ≤ st.current_time + d.time_step
      linarith [(hds d (List.mem_cons_self _ _)).1]
    · exact ht

theorem utilization_bounds (e : Equipment) (total_time : ℚ) (h0 : 0 ≤ e.busy_time)
    (h1 : e.busy_time ≤ total_time) :
    0 ≤ utilization e total_time ∧ utilization e total_time ≤ 1 := by
  unfold utilization
  split_ifs with hpos
  · exact ⟨div_nonneg h0 (le_of_lt hpos), (div_le_one hpos).2 h1⟩
  · exact ⟨le_refl 0, zero_le_one⟩

/-- C20: over every run of the tick sequence of `run_simulation` whose time increments
and service durations are non-negative, after every tick every unit satisfies
`0 ≤ busy_time ≤ completion_time`; a unit that `assign_equipment` changes in an
iteration at time `t` was free with `completion_time ≤ t`, and its new
`completion_time` is `t` plus the service duration of the request it now holds (its
service intervals do not overlap); hence when the loop exits every unit's `busy_time`
is at most the simulated time, and every utilization that `calculate_statistics`
computes lies in `[0, 1]`. -/
theorem busy_time_within_simulated_time (cfg : Config) (types : Nat → String) (heap : Heap)
    (ds : List Draws) (d : Draws)
    (hds : ∀ d1, d1 ∈ ds → 0 ≤ d1.time_step ∧ 0 ≤ d1.requested_period)
    (hd : 0 ≤ d.time_step ∧ 0 ≤ d.requested_period) :
    (∀ e, e ∈ (run_loop cfg ds (initial_run cfg types heap)).sim.equipment_list →
      0 ≤ e.busy_time ∧ e.busy_time ≤ e.completion_time) ∧
    (∀ (j : Nat) (e e1 : Equipment),
      (complete_units (generate_and_place cfg d
          (run_loop cfg ds (initial_run cfg types heap))).sim
        (run_loop cfg ds (initial_run cfg types heap)).current_time).equipment_list[j]? =
        some e →
      (tick cfg d (run_loop cfg ds (initial_run cfg types heap))).sim.equipment_list[j]? =
        some e1 →
      e1 ≠ e →
      e.status = "free" ∧
      e.completion_time ≤ (run_loop cfg ds (initial_run cfg types heap)).current_time ∧
      ∃ x, e1.current_request = some x ∧
        e1.completion_time = (run_loop cfg ds (initial_run cfg types heap)).current_time +
          ((complete_units (generate_and_place cfg d
              (run_loop cfg ds (initial_run cfg types heap))).sim
            (run_loop cfg ds (initial_run cfg types heap)).current_time).heap
              x).requested_period) ∧
    (loop_condition cfg (run_loop cfg ds (initial_run cfg types heap)) = false →
      ∀ e, e ∈ (run_loop cfg ds (initial_run cfg types heap)).sim.equipment_list →
        e.busy_time ≤ (run_loop cfg ds (initial_run cfg types heap)).current_time ∧
        0 ≤ utilization e (run_loop cfg ds (initial_run cfg types heap)).current_time ∧
        utilization e (run_loop cfg ds (initial_run cfg types heap)).current_time ≤ 1) ∧
    (∀ stats, run_simulation cfg types heap ds = some stats →
      ∀ u, u ∈ stats.utilizations → 0 ≤ u ∧ u ≤ 1) := by
  have h := runInv_run_loop cfg ds _ (runInv_initial cfg types heap)
  have ht := timeInv_run_loop cfg ds _ hds (runInv_initial cfg types heap)
    (timeInv_initial cfg types heap)
  unfold run_simulation
  generalize run_loop cfg ds (initial_run cfg types heap) = st at h ht
  have hexit : loop_condition cfg st = false →
      ∀ e, e ∈ st.sim.equipment_list →
        e.busy_time ≤ st.current_time ∧
        0 ≤ utilization e st.current_time ∧ utilization e st.current_time ≤ 1 := by
    intro hloop e he
    simp only [loop_condition, Bool.or_eq_false_iff, decide_eq_false_iff_not,
      Bool.not_eq_false'] at hloop
    have hnb := ((is_simulation_complete_iff _ _).1 hloop.2).2 e he
    have hfree : e.status = "free" := by
      rcases (h.sim.units e he).2.1 with hf | hb
      · exact hf
      · exact absurd hb hnb
    obtain ⟨h0, hbc, hct⟩ := ht.unit_time e he
    have hle : e.busy_time ≤ st.current_time := le_trans hbc (hct hfree)
    exact ⟨hle, utilization_bounds e _ h0 hle⟩
  refine ⟨fun e he => ⟨(ht.unit_time e he).1, (ht.unit_time e he).2.1⟩, ?_, hexit, ?_⟩
  · intro j e e1 he he1 hne
    obtain ⟨h1, _, _⟩ := simInv_generate_and_place cfg d st h
    have t1 := timeInv_generate_and_place cfg d st st.current_time h ht hd.2
    have t2 := timeInv_complete _ _ st.current_time h1 t1
    obtain ⟨hf, hc, x, heq, hcomp⟩ := assigned_after_completion _ st.current_time t2 j e e1
      he he1 hne
    exact ⟨hf, hc, x, by rw [heq]; rfl, hcomp⟩
  · intro stats hstats u hu
    dsimp only at hstats
    split_ifs at hstats with hloop
    have hloop1 : loop_condition cfg st = false := by simpa using hloop
    cases hstats
    simp only [calculate_statistics, List.mem_map] at hu
    obtain ⟨e, he, rfl⟩ := hu
    exact (hexit hloop1 e he).2

theorem busy_time_within_simulated_time_witness :
    ((∀ d1, d1 ∈ demo_draws → 0 ≤ d1.time_step ∧ 0 ≤ d1.requested_period) ∧
      (0 ≤ (Draws.mk 0 "crane" (13 / 2) 7).time_step ∧
        0 ≤ (Draws.mk 0 "crane" (13 / 2) 7).requested_period)) ∧
    (∀ e, e ∈ (run_loop demo_config demo_draws
        (initial_run demo_config (fun _ => "crane") demo_heap)).sim.equipment_list →
      0 ≤ e.busy_time ∧ e.busy_time ≤ e.completion_time) ∧
    (∀ stats, run_simulation demo_config (fun _ => "crane") demo_heap demo_draws = some stats →
      ∀ u, u ∈ stats.utilizations → 0 ≤ u ∧ u ≤ 1) :=
  have hds : ∀ d1, d1 ∈ demo_draws → 0 ≤ d1.time_step ∧ 0 ≤ d1.requested_period := by
    intro d1 h1
    simp only [demo_draws, List.mem_cons, List.mem_singleton, List.not_mem_nil, or_false,
      or_self] at h1
    subst h1
    norm_num
  have hd : 0 ≤ (Draws.mk 0 "crane" (13 / 2) 7).time_step ∧
      0 ≤ (Draws.mk 0 "crane" (13 / 2) 7).requested_period := by
    norm_num
  ⟨⟨hds, hd⟩,
   (busy_time_within_simulated_time demo_config (fun _ => "crane") demo_heap demo_draws
      (Draws.mk 0 "crane" (13 / 2) 7) hds hd).1,
   (busy_time_within_simulated_time demo_config (fun _ => "crane") demo_heap demo_draws
      (Draws.mk 0 "crane" (13 / 2) 7) hds hd).2.2.2⟩

/-! ## Terminal statuses over a run -/

theorem place_request_equipment_list (s : Sim) (r : Option Ref) (t : ℚ) :
    (place_request s r t).equipment_list = s.equipment_list := by
  unfold place_request
  simp only
  split_ifs
  · split <;> rfl
  · rfl

theorem generate_and_place_equipment_list (cfg : Config) (d : Draws) (st : Run) :
    (generate_and_place cfg d st).sim.equipment_list = st.sim.equipment_list := by
  unfold generate_and_place
  split_ifs
  · exact place_request_equipment_list _ _ st.current_time
  · rfl

theorem generate_and_place_count (cfg : Config) (d : Draws) (st : Run) :
    (st.processed_requests < cfg.total_requests →
      (generate_and_place cfg d st).processed_requests = st.processed_requests + 1) ∧
    (¬ st.processed_requests < cfg.total_requests → generate_and_place cfg d st = st) := by
  unfold generate_and_place
  constructor
  · intro h; simp only [h, if_true]
  · intro h; simp only [h, if_false]

theorem new_request_pending (cfg : Config) (d : Draws) (st : Run) (h : RunInv cfg st)
    (hlt : st.processed_requests < cfg.total_requests) :
    ((generate_and_place cfg d st).sim.heap st.processed_requests).status = "pending" := by
  have h1 := simInv_new_object st.processed_requests st.sim
    (((initial_projects cfg).getD d.project_index (Project.new 0)).generate_request
      st.current_time d.equipment_type d.requested_period) h.sim
  simp only [generate_and_place, hlt, if_true]
  rcases place_request_shape _ st.processed_requests st.current_time h1.length_eq
    h1.pointer_lt with ⟨_, heq⟩ | ⟨j, _, _, heq⟩ | ⟨y, _, _, hy, heq⟩
  · simp only [heq]
    simp [Heap.write, Project.generate_request, Request.new]
  · simp only [heq]
    simp [Heap.write, Project.generate_request, Request.new]
  · have hyn : y < st.processed_requests := (h1.slot_pending _ y hy).1
    have hne : st.processed_requests ≠ y := Nat.ne_of_gt hyn
    simp only [heq]
    simp [Heap.write, Project.generate_request, Request.new, hne]

/-- A unit that holds a request after the completion loop is a unit the loop left as
it was. -/
theorem held_after_complete (s : Sim) (t : ℚ) (j : Nat) (e1 : Equipment) (x : Ref)
    (he1 : (complete_units s t).equipment_list[j]? = some e1)
    (hx : e1.current_request = some x) : s.equipment_list[j]? = some e1 := by
  have hmap : (complete_units s t).equipment_list = s.equipment_list.map (released_unit t) :=
    complete_all_fst t s.equipment_list s.heap
  rw [hmap, List.getElem?_map, Option.map_eq_some'] at he1
  obtain ⟨e, he, heq⟩ := he1
  rcases released_unit_cases t e with hsame | ⟨_, hrel⟩
  · rw [← heq, hsame]; exact he
  · rw [← heq, hrel] at hx
    exact Option.noConfusion hx

/-- A unit that holds a request after `assign_equipment` is a unit the call left as it
was, or the request was in a buffer slot, with status "pending", before the call. -/
theorem held_after_assign (n : Nat) (s : Sim) (t : ℚ) (h : SimInv n s) (j : Nat)
    (e1 : Equipment) (x : Ref)
    (he1 : (assign_equipment s t).equipment_list[j]? = some e1)
    (hx : e1.current_request = some x) :
    s.equipment_list[j]? = some e1 ∨
    ((s.heap x).status = "pending" ∧ ∃ i, s.buffer.requests.getD i none = some x) := by
  rw [assign_equipment_closed s t] at he1
  rcases pair_units_cases s.heap t s.equipment_list _ j e1 he1 with
    hsame | ⟨e, y, _, _, hy, heq⟩
  · exact Or.inl hsame
  · right
    rw [heq] at hx
    have hyx : y = x := Option.some.inj hx
    subst hyx
    obtain ⟨i, hi, _⟩ := (mem_package_refs s.heap s.buffer.requests y).1 hy
    exact ⟨(h.slot_pending i y hi).2, i, hi⟩

/-- Every request created so far has status "pending", "processed" or "rejected". -/
theorem status_values_tick (cfg : Config) (d : Draws) (st : Run) (h : RunInv cfg st)
    (hall : ∀ x, x < st.processed_requests →
      (st.sim.heap x).status = "pending" ∨ terminal (st.sim.heap x)) :
    ∀ x, x < (tick cfg d st).processed_requests →
      ((tick cfg d st).sim.heap x).status = "pending" ∨ terminal ((tick cfg d st).sim.heap x) := by
  obtain ⟨h1, _, _⟩ := simInv_generate_and_place cfg d st h
  have h2 := simInv_complete _ _ st.current_time h1
  simp only [terminal] at hall ⊢
  intro x hx
  have hgp : ((generate_and_place cfg d st).sim.heap x).status = "pending" ∨
      ((generate_and_place cfg d st).sim.heap x).status = "processed" ∨
      ((generate_and_place cfg d st).sim.heap x).status = "rejected" := by
    by_cases hlt : st.processed_requests < cfg.total_requests
    · have hn := (generate_and_place_count cfg d st).1 hlt
      have hx1 : x < st.processed_requests + 1 := by
        have : (tick cfg d st).processed_requests = st.processed_requests + 1 := hn
        rw [← this]; exact hx
      rcases Nat.lt_succ_iff_lt_or_eq.1 hx1 with hxl | hxe
      · rcases status_step_generate_and_place cfg d st h x hxl with hs | ⟨_, hr⟩
        · rw [hs]; exact hall x hxl
        · exact Or.inr (Or.inr hr)
      · rw [hxe]; exact Or.inl (new_request_pending cfg d st h hlt)
    · have hn := (generate_and_place_count cfg d st).2 hlt
      have hx1 : x < st.processed_requests := by
        have : (tick cfg d st).processed_requests = st.processed_requests := by
          show (generate_and_place cfg d st).processed_requests = _
          rw [hn]
        rw [← this]; exact hx
      rw [hn]; exact hall x hx1
  have hb := status_stable_complete _ _ st.current_time h1 x
  rcases status_step_assign _ _ st.current_time h2 x with hc | ⟨_, hc⟩
  · show ((assign_equipment _ _).heap x).status = _ ∨
      ((assign_equipment _ _).heap x).status = _ ∨ ((assign_equipment _ _).heap x).status = _
    rw [hc, hb]
    exact hgp
  · exact Or.inr (Or.inl hc)

theorem status_values_run_loop (cfg : Config) :
    ∀ (ds : List Draws) (st : Run), RunInv cfg st →
      (∀ x, x < st.processed_requests →
        (st.sim.heap x).status = "pending" ∨ terminal (st.sim.heap x)) →
      ∀ x, x < (run_loop cfg ds st).processed_requests →
        ((run_loop cfg ds st).sim.heap x).status = "pending" ∨
          terminal ((run_loop cfg ds st).sim.heap x) := by
  intro ds
  induction ds with
  | nil => intro st _ hall; exact hall
  | cons d ds ih =>
    intro st h hall
    simp only [run_loop]
    split_ifs
    · exact ih _ (runInv_tick cfg d st h) (status_values_tick cfg d st h hall)
    · exact hall

/-- When the loop exits on a buffer of capacity at least 1, every request generated is
terminal. -/
theorem all_terminal_at_exit (cfg : Config) (st : Run) (h : RunInv cfg st)
    (hc : CountInv st.processed_requests st.sim)
    (hexit : loop_condition cfg st = false) :
    st.processed_requests = cfg.total_requests ∧
    ∀ x, x < cfg.total_requests → terminal (st.sim.heap x) := by
  simp only [loop_condition, Bool.or_eq_false_iff, decide_eq_false_iff_not,
    Bool.not_eq_false'] at hexit
  obtain ⟨hge, hcomplete⟩ := hexit
  have hn : st.processed_requests = cfg.total_requests :=
    le_antisymm h.budget (not_lt.1 hge)
  have hnone := ((is_simulation_complete_iff _ _).1 hcomplete).1
  refine ⟨hn, ?_⟩
  intro x hx
  rcases hc.present x (by rw [hn]; exact hx) with hl | ⟨i, hi⟩
  · obtain ⟨y, hy, _, hst⟩ := h.sim.log_terminal _ hl
    cases hy
    exact hst
  · rw [hnone i] at hi
    exact Option.noConfusion hi

/-- C13, as stated, fails: in the run of `demo_config` on `demo_draws`, after the first
iteration the only request has status "processed" (`assign_equipment` marked it when it
handed it to the unit) and the unit holds it, its `completion_time` still unset (-1);
in the second iteration `complete_request` runs its branch on this already processed
request: afterwards the unit is free and the request's `completion_time` is 7, its
status "processed" as before. -/
theorem processed_request_held_counterexample :
    (((run_loop demo_config (demo_draws.take 1)
        (initial_run demo_config (fun _ => "crane") demo_heap)).sim.heap 0).status =
        "processed" ∧
      ((run_loop demo_config (demo_draws.take 1)
        (initial_run demo_config (fun _ => "crane") demo_heap)).sim.heap 0).completion_time =
        -1 ∧
      (run_loop demo_config (demo_draws.take 1)
        (initial_run demo_config (fun _ => "crane") demo_heap)).sim.equipment_list.map
        (fun e => (e.status, e.current_request)) = [("busy", some 0)]) ∧
    (((run_loop demo_config demo_draws
        (initial_run demo_config (fun _ => "crane") demo_heap)).sim.heap 0).status =
        "processed" ∧
      ((run_loop demo_config demo_draws
        (initial_run demo_config (fun _ => "crane") demo_heap)).sim.heap 0).completion_time =
        7 ∧
      (run_loop demo_config demo_draws
        (initial_run demo_config (fun _ => "crane") demo_heap)).sim.equipment_list.map
        (fun e => (e.status, e.current_request)) = [("free", none)]) := by
  constructor
  · norm_num [run_loop, loop_condition, tick, generate_and_place, complete_units, complete_all,
      initial_run, initial_projects, initial_equipment, demo_config, demo_draws,
      is_simulation_complete, no_request_loop, no_busy_loop, Buffer.new, Equipment.new,
      Project.new, Project.generate_request, Request.new, place_request, Buffer.add_request,
      Buffer.add_request_loop, Buffer.remove_request, Equipment.complete_request,
      assign_equipment, collect_packages, packages_push_back, assign_units,
      assign_from_package, Equipment.assign_request, Heap.write, Request.update_status,
      List.range, List.range.loop]
  · norm_num [run_loop, loop_condition, tick, generate_and_place, complete_units, complete_all,
      initial_run, initial_projects, initial_equipment, demo_config, demo_draws,
      is_simulation_complete, no_request_loop, no_busy_loop, Buffer.new, Equipment.new,
      Project.new, Project.generate_request, Request.new, place_request, Buffer.add_request,
      Buffer.add_request_loop, Buffer.remove_request, Equipment.complete_request,
      assign_equipment, collect_packages, packages_push_back, assign_units,
      assign_from_package, Equipment.assign_request, Heap.write, Request.update_status,
      List.range, List.range.loop]

/-- C13, amended: over every run of the tick sequence from the initial state, with `st`
the state at the head of an iteration: (1) every request created so far is pending or
terminal, every buffered request is pending and every held request is processed, at
the head of the iteration and after each of its three operations; (2) a request is
pending when created; (3) the placement leaves the status of an earlier request as it
is or changes it from pending to "rejected", the completion loop changes no status,
`assign_equipment` leaves a status as it is or changes it from pending to "processed",
so a terminal status never changes; (4) the placement does not touch the units, a
unit holding a request after the completion loop held it before, and a unit holding a
request after `assign_equipment` held it before or took it from a buffer slot where
it was pending: a terminal request is never handed to a unit; (5) when the loop has
exited, with buffer capacity at least 1, every request generated is terminal. -/
theorem terminal_status_is_final (cfg : Config) (types : Nat → String) (heap : Heap)
    (st : Run) (d : Draws) (hst : reachable cfg types heap st) :
    ((∀ x, x < st.processed_requests →
        (st.sim.heap x).status = "pending" ∨ terminal (st.sim.heap x)) ∧
      buffer_pending st.sim ∧ held_processed st.sim ∧
      buffer_pending (after_place cfg d st) ∧ held_processed (after_place cfg d st) ∧
      buffer_pending (after_complete cfg d st) ∧ held_processed (after_complete cfg d st) ∧
      buffer_pending (after_assign cfg d st) ∧ held_processed (after_assign cfg d st)) ∧
    ((st.processed_requests < cfg.total_requests →
        (generate_and_place cfg d st).processed_requests = st.processed_requests + 1 ∧
        ((after_place cfg d st).heap st.processed_requests).status = "pending") ∧
      (¬ st.processed_requests < cfg.total_requests → generate_and_place cfg d st = st)) ∧
    ((∀ x, x < st.processed_requests →
        ((after_place cfg d st).heap x).status = (st.sim.heap x).status ∨
        ((st.sim.heap x).status = "pending" ∧
          ((after_place cfg d st).heap x).status = "rejected")) ∧
      (∀ x, ((after_complete cfg d st).heap x).status =
        ((after_place cfg d st).heap x).status) ∧
      (∀ x, ((after_assign cfg d st).heap x).status =
          ((after_complete cfg d st).heap x).status ∨
        (((after_complete cfg d st).heap x).status = "pending" ∧
          ((after_assign cfg d st).heap x).status = "processed")) ∧
      (∀ x, x < st.processed_requests → terminal (st.sim.heap x) →
        ((after_place cfg d st).heap x).status = (st.sim.heap x).status) ∧
      (∀ x, terminal ((after_complete cfg d st).heap x) →
        ((after_assign cfg d st).heap x).status =
          ((after_complete cfg d st).heap x).status)) ∧
    ((after_place cfg d st).equipment_list = st.sim.equipment_list ∧
      (∀ (j : Nat) (e1 : Equipment) (x : Ref),
        (after_complete cfg d st).equipment_list[j]? = some e1 →
        e1.current_request = some x →
        (after_place cfg d st).equipment_list[j]? = some e1) ∧
      (∀ (j : Nat) (e1 : Equipment) (x : Ref),
        (after_assign cfg d st).equipment_list[j]? = some e1 →
        e1.current_request = some x →
        (after_complete cfg d st).equipment_list[j]? = some e1 ∨
        (((after_complete cfg d st).heap x).status = "pending" ∧
          ∃ i, (after_complete cfg d st).buffer.requests.getD i none = some x))) ∧
    (1 ≤ cfg.buffer_size → loop_condition cfg st = false →
      st.processed_requests = cfg.total_requests ∧
      ∀ x, x < cfg.total_requests → terminal (st.sim.heap x)) := by
  obtain ⟨ds, rfl⟩ := hst
  have h := runInv_run_loop cfg ds _ (runInv_initial cfg types heap)
  have hvals := status_values_run_loop cfg ds _ (runInv_initial cfg types heap)
    (fun x hx => absurd hx (Nat.not_lt_zero _))
  have hcount := fun hcap => countInv_run_loop cfg hcap ds _ (runInv_initial cfg types heap)
    (countInv_initial cfg types heap)
  generalize run_loop cfg ds (initial_run cfg types heap) = st at h hvals hcount
  obtain ⟨h1, _, _⟩ := simInv_generate_and_place cfg d st h
  have h2 := simInv_complete _ _ st.current_time h1
  have h3 := simInv_assign _ _ st.current_time h2
  have hS1 := status_step_generate_and_place cfg d st h
  have hS3 := status_step_assign _ _ st.current_time h2
  refine ⟨⟨hvals, simInv_buffer_pending _ _ h.sim, simInv_held_processed _ _ h.sim,
      simInv_buffer_pending _ _ h1, simInv_held_processed _ _ h1,
      simInv_buffer_pending _ _ h2, simInv_held_processed _ _ h2,
      simInv_buffer_pending _ _ h3, simInv_held_processed _ _ h3⟩,
    ⟨fun hlt => ⟨(generate_and_place_count cfg d st).1 hlt, new_request_pending cfg d st h hlt⟩,
      (generate_and_place_count cfg d st).2⟩,
    ⟨hS1, status_stable_complete _ _ st.current_time h1, hS3, ?_, ?_⟩,
    ⟨generate_and_place_equipment_list cfg d st,
      fun j e1 x he1 hx => held_after_complete _ st.current_time j e1 x he1 hx,
      fun j e1 x he1 hx => held_after_assign _ _ st.current_time h2 j e1 x he1 hx⟩,
    fun hcap hexit => all_terminal_at_exit cfg st h (hcount hcap) hexit⟩
  · intro x hx hterm
    rcases hS1 x hx with hsame | ⟨hp, _⟩
    · exact hsame
    · rcases hterm with ht | ht <;> rw [hp] at ht <;> exact absurd ht (by decide)
  · intro x hterm
    rcases hS3 x with hsame | ⟨hp, _⟩
    · exact hsame
    · have hp1 : ((after_complete cfg d st).heap x).status = "pending" := hp
      rcases hterm with ht | ht <;> rw [hp1] at ht <;> exact absurd ht (by decide)

theorem terminal_status_is_final_witness :
    reachable demo_config (fun _ => "crane") demo_heap
      (run_loop demo_config demo_draws
        (initial_run demo_config (fun _ => "crane") demo_heap)) ∧
    (run_loop demo_config demo_draws
      (initial_run demo_config (fun _ => "crane") demo_heap)).processed_requests =
      demo_config.total_requests ∧
    ∀ x, x < demo_config.total_requests →
      terminal ((run_loop demo_config demo_draws
        (initial_run demo_config (fun _ => "crane") demo_heap)).sim.heap x) :=
  ⟨⟨demo_draws, rfl⟩,
   (terminal_status_is_final demo_config (fun _ => "crane") demo_heap
      (run_loop demo_config demo_draws (initial_run demo_config (fun _ => "crane") demo_heap))
      (Draws.mk 0 "crane" (13 / 2) 7) ⟨demo_draws, rfl⟩).2.2.2.2 (by decide) demo_run_final.1⟩

end APS
